import Mathlib

/-!
# svg-animation-convert: timeline inference, frame sampling and encoder dispatch

A shallow embedding of `src/svg-animation-convert.js`.

* JavaScript numbers are IEEE-754 binary64 values.  They are embedded exactly:
  a finite value is a dyadic rational `n / 2^k`, and every arithmetic
  operation rounds the exact rational result to the nearest representable
  value, ties to even (`fl`).  The sign of zero is not tracked.
* JavaScript strings are lists of characters.
* The browser and the encoder are external collaborators: the outcome of
  every external call is read from a `World`.  The parsed document is the
  list of its elements, and the two queries of `parseSVGMeta` select from it
  as the selector engine of the parser does.
-/

namespace SvgAnim

/-! ## Numbers -/

/-- A JavaScript number: `NaN`, an infinity, or the finite value `n / 2^k`
(kept in lowest terms: `k = 0` or `n` odd). -/
inductive JSNum where
  | nan : JSNum
  | inf (neg : Bool) : JSNum
  | fin (n : ℤ) (k : ℕ) : JSNum
deriving DecidableEq, Repr

/-- The dyadic `n / 2^k` in lowest terms. -/
def normDyadic (n : ℤ) : ℕ → JSNum
  | 0 => .fin n 0
  | k + 1 => if n % 2 = 0 then normDyadic (n / 2) k else .fin n (k + 1)

/-- The integer nearest to `N / D`, a tie going to the even neighbour. -/
def roundHalfEven (N D : ℕ) : ℕ :=
  if 2 * (N % D) < D then N / D
  else if D < 2 * (N % D) then N / D + 1
  else if (N / D) % 2 = 0 then N / D else N / D + 1

/-- Binary logarithm of a natural number, rounded down (`0` at `0`). -/
def log2Fuel : ℕ → ℕ → ℕ
  | 0, _ => 0
  | f + 1, n => if n < 2 then 0 else log2Fuel f (n / 2) + 1

/-- The exponent `e` with `2^e ≤ a / d < 2^(e+1)`, for positive `a` and `d`. -/
def ilog2 (a d : ℕ) : ℤ :=
  let e0 : ℤ := (log2Fuel a a : ℤ) - (log2Fuel d d : ℤ)
  if (if 0 ≤ e0 then d * 2 ^ e0.toNat ≤ a else d ≤ a * 2 ^ (-e0).toNat) then e0 else e0 - 1

/-- The integer `m` or `-m`. -/
def signed (neg : Bool) (m : ℕ) : ℤ := if neg then -(m : ℤ) else (m : ℤ)

/-- Rounding of the positive rational `a / d` (with the sign `neg`) to binary64:
53 significant bits, exponents from `-1022` (below that the spacing stays
`2^-1074`), overflow to infinity from `2^1024`. -/
def flPos (a d : ℕ) (neg : Bool) : JSNum :=
  let s := max (ilog2 a d) (-1022) - 52
  if 0 ≤ s then
    let v := roundHalfEven a (d * 2 ^ s.toNat) * 2 ^ s.toNat
    if 2 ^ 1024 ≤ v then .inf neg else .fin (signed neg v) 0
  else normDyadic (signed neg (roundHalfEven (a * 2 ^ (-s).toNat) d)) (-s).toNat

/-- The Number value of the rational `num / den`. -/
def fl (num : ℤ) (den : ℕ) : JSNum :=
  if num = 0 ∨ den = 0 then .fin 0 0 else flPos num.natAbs den (decide (num < 0))

/-- JavaScript `a + b`. -/
def jsAdd : JSNum → JSNum → JSNum
  | .nan, _ => .nan
  | _, .nan => .nan
  | .inf a, .inf b => if a = b then .inf a else .nan
  | .inf a, .fin _ _ => .inf a
  | .fin _ _, .inf b => .inf b
  | .fin n1 k1, .fin n2 k2 => fl (n1 * 2 ^ k2 + n2 * 2 ^ k1) (2 ^ (k1 + k2))

/-- JavaScript `a * b`. -/
def jsMul : JSNum → JSNum → JSNum
  | .nan, _ => .nan
  | _, .nan => .nan
  | .inf a, .inf b => .inf (xor a b)
  | .inf a, .fin n _ => if n = 0 then .nan else .inf (xor a (decide (n < 0)))
  | .fin n _, .inf b => if n = 0 then .nan else .inf (xor (decide (n < 0)) b)
  | .fin n1 k1, .fin n2 k2 => fl (n1 * n2) (2 ^ (k1 + k2))

/-- JavaScript `a / b` (a zero divisor counts as `+0`). -/
def jsDiv : JSNum → JSNum → JSNum
  | .nan, _ => .nan
  | _, .nan => .nan
  | .inf _, .inf _ => .nan
  | .inf a, .fin n _ => .inf (xor a (decide (n < 0)))
  | .fin _ _, .inf _ => .fin 0 0
  | .fin n1 k1, .fin n2 k2 =>
    if n2 = 0 then (if n1 = 0 then .nan else .inf (decide (n1 < 0)))
    else fl (n1 * 2 ^ k2 * n2.sign) (n2.natAbs * 2 ^ k1)

/-- JavaScript `a < b`. -/
def jsLt : JSNum → JSNum → Bool
  | .nan, _ => false
  | _, .nan => false
  | .inf a, .inf b => a && !b
  | .inf a, .fin _ _ => a
  | .fin _ _, .inf b => !b
  | .fin n1 k1, .fin n2 k2 => decide (n1 * 2 ^ k2 < n2 * 2 ^ k1)

/-- JavaScript `a > b`. -/
def jsGt (a b : JSNum) : Bool := jsLt b a

/-- JavaScript `a === b` on numbers. -/
def strictEq (a b : JSNum) : Bool := a != .nan && a == b

/-- JavaScript `isNaN` on a number. -/
def isNaN : JSNum → Bool
  | .nan => true
  | _ => false

/-- Truthiness of a number: everything but `NaN` and zero. -/
def truthy : JSNum → Bool
  | .nan => false
  | .inf _ => true
  | .fin n _ => n != 0

/-- `Math.round`: the integer nearest to the argument, a tie going up. -/
def mathRound : JSNum → JSNum
  | .fin n k => .fin ((2 * n + 2 ^ k) / 2 ^ (k + 1)) 0
  | x => x

/-- `Math.max` of two numbers. -/
def mathMax (a b : JSNum) : JSNum :=
  if isNaN a || isNaN b then .nan else if jsLt a b then b else a

/-! ## Strings and built-in conversions -/

/-- A JavaScript string. -/
abbrev Str := List Char

/-- White space and line terminators: what `trim` strips, what `\s` matches. -/
def isWhiteSpace (c : Char) : Bool :=
  let n := c.toNat
  n = 9 || n = 10 || n = 11 || n = 12 || n = 13 || n = 32 || n = 0xA0 || n = 0x1680
    || (0x2000 ≤ n && n ≤ 0x200A) || n = 0x2028 || n = 0x2029 || n = 0x202F
    || n = 0x205F || n = 0x3000 || n = 0xFEFF

/-- `String.prototype.trimStart`. -/
def trimStart (s : Str) : Str := s.dropWhile isWhiteSpace

/-- `String.prototype.trim`. -/
def trim (s : Str) : Str := ((trimStart s).reverse.dropWhile isWhiteSpace).reverse

/-- The scan behind `split(/\s+/)`: `cur` is the piece being read (reversed),
`inSep` tells that the previous character belonged to a separator. -/
def splitWSAux : Str → Str → Bool → List Str
  | [], cur, _ => [cur.reverse]
  | c :: cs, cur, inSep =>
    if isWhiteSpace c then
      if inSep then splitWSAux cs cur true else cur.reverse :: splitWSAux cs [] true
    else splitWSAux cs (c :: cur) false

/-- `s.split(/\s+/)`. -/
def splitWS (s : Str) : List Str := splitWSAux s [] false

/-- The scan behind `split` with a one-character separator. -/
def splitCharAux (sep : Char) : Str → Str → List Str
  | [], cur => [cur.reverse]
  | c :: cs, cur =>
    if c = sep then cur.reverse :: splitCharAux sep cs [] else splitCharAux sep cs (c :: cur)

/-- `s.split(sep)` for a one-character separator. -/
def splitChar (sep : Char) (s : Str) : List Str := splitCharAux sep s []

/-- `s.endsWith(c)` for a one-character string. -/
def endsWithChar (s : Str) (c : Char) : Bool := s.getLast? == some c

/-- `s.toLowerCase()`; ASCII letters are mapped, other characters are kept. -/
def toLowerCase (s : Str) : Str := s.map Char.toLower

/-- `String.prototype.padStart`. -/
def padStart (s : Str) (maxLength : ℕ) (fill : Str) : Str :=
  if maxLength ≤ s.length ∨ fill = [] then s
  else ((List.replicate (maxLength - s.length) fill).flatten.take (maxLength - s.length)) ++ s

/-- Value of a digit in a radix up to 36. -/
def radixDigit (c : Char) : Option ℕ :=
  let n := c.toNat
  if 48 ≤ n ∧ n ≤ 57 then some (n - 48)
  else if 97 ≤ n ∧ n ≤ 122 then some (n - 87)
  else if 65 ≤ n ∧ n ≤ 90 then some (n - 55)
  else none

/-- Whether `c` is a digit of radix `R`. -/
def isRadixDigit (R : ℕ) (c : Char) : Bool :=
  match radixDigit c with
  | some d => decide (d < R)
  | none => false

/-- The number written by the digits `ds` in radix `R`. -/
def natOfDigits (R : ℕ) (ds : Str) : ℕ :=
  ds.foldl (fun acc c => acc * R + (radixDigit c).getD 0) 0

/-- Splits an optional leading sign off. -/
def takeSign : Str → Bool × Str
  | '-' :: r => (true, r)
  | '+' :: r => (false, r)
  | r => (false, r)

/-- Global `parseInt(string, radix)`; `radix = none` is a call without radix.
The integer read is rounded to the nearest number. -/
def parseInt (s : Str) (radix : Option ℕ) : JSNum :=
  let (neg, s2) := takeSign (trimStart s)
  let R0 := radix.getD 0
  if R0 ≠ 0 ∧ (R0 < 2 ∨ 36 < R0) then .nan else
  let hex : Bool := (R0 = 0 || R0 = 16) &&
    (("0x".toList).isPrefixOf s2 || ("0X".toList).isPrefixOf s2)
  let R := if hex then 16 else if R0 = 0 then 10 else R0
  let s3 := if hex then s2.drop 2 else s2
  let ds := s3.takeWhile (isRadixDigit R)
  if ds = [] then .nan else fl (signed neg (natOfDigits R ds)) 1

/-- An exponent part `e±ddd` at the head of `r`: its value and what follows.
Without a complete exponent part the value is `0` and nothing is consumed. -/
def scanExp (r : Str) : ℤ × Str :=
  match r with
  | c :: r1 =>
    if c = 'e' ∨ c = 'E' then
      let (neg, r2) := takeSign r1
      let ds := r2.takeWhile (isRadixDigit 10)
      if ds = [] then (0, r) else (signed neg (natOfDigits 10 ds), r2.drop ds.length)
    else (0, r)
  | [] => (0, [])

/-- The longest unsigned decimal literal at the head of `s`: `none` for the
literal `Infinity`, else the digits `m` and the decimal exponent `e` of the
value `m * 10^e`; and what follows the literal. -/
def scanUnsigned (s : Str) : Option (Option (ℕ × ℤ) × Str) :=
  if ("Infinity".toList).isPrefixOf s then some (none, s.drop 8) else
  let ip := s.takeWhile (isRadixDigit 10)
  match s.drop ip.length with
  | '.' :: r2 =>
    let fp := r2.takeWhile (isRadixDigit 10)
    if ip = [] ∧ fp = [] then none else
    let (e, rest) := scanExp (r2.drop fp.length)
    some (some (natOfDigits 10 (ip ++ fp), e - fp.length), rest)
  | r1 =>
    if ip = [] then none else
    let (e, rest) := scanExp r1
    some (some (natOfDigits 10 ip, e), rest)

/-- The Number value of a scanned decimal literal. -/
def decimalValue (neg : Bool) : Option (ℕ × ℤ) → JSNum
  | none => .inf neg
  | some (m, e) =>
    if 0 ≤ e then fl (signed neg (m * 10 ^ e.toNat)) 1 else fl (signed neg m) (10 ^ (-e).toNat)

/-- The longest signed decimal literal at the head of `s`, as a number. -/
def scanStrDecimal (s : Str) : Option (JSNum × Str) :=
  let (neg, s1) := takeSign s
  match scanUnsigned s1 with
  | none => none
  | some (v, rest) => some (decimalValue neg v, rest)

/-- Global `parseFloat(string)`. -/
def parseFloat (s : Str) : JSNum :=
  match scanStrDecimal (trimStart s) with
  | none => .nan
  | some (v, _) => v

/-- An integer literal of radix `R` without its `0x`, `0o` or `0b`. -/
def radixLiteral (R : ℕ) (r : Str) : JSNum :=
  if r ≠ [] ∧ r.all (isRadixDigit R) then fl (natOfDigits R r) 1 else .nan

/-- A whole string read as a signed decimal literal. -/
def decimalLiteral (t : Str) : JSNum :=
  match scanStrDecimal t with
  | some (v, []) => v
  | _ => .nan

/-- `Number(string)`. -/
def toNumber (s : Str) : JSNum :=
  match trim s with
  | [] => .fin 0 0
  | '0' :: c :: r =>
    if c = 'x' ∨ c = 'X' then radixLiteral 16 r
    else if c = 'o' ∨ c = 'O' then radixLiteral 8 r
    else if c = 'b' ∨ c = 'B' then radixLiteral 2 r
    else decimalLiteral ('0' :: c :: r)
  | t => decimalLiteral t

/-- Decimal digits of a natural number, most significant first. -/
def decDigits : ℕ → ℕ → Str
  | 0, _ => []
  | f + 1, n => if n < 10 then [Nat.digitChar n] else decDigits f (n / 10) ++ [Nat.digitChar (n % 10)]

/-- A natural number in decimal. -/
def natToDec (n : ℕ) : Str := decDigits (n + 1) n

/-- `Number.prototype.toString`, as a template literal applies it.  An integer
of magnitude up to `2^53` is written in decimal, digit for digit; the text of
every other finite number (the shortest digits that read back as the same
number) is given by `other`. -/
def numToString (other : JSNum → Str) : JSNum → Str
  | .nan => "NaN".toList
  | .inf neg => if neg then "-Infinity".toList else "Infinity".toList
  | .fin n k =>
    if k = 0 ∧ n.natAbs ≤ 2 ^ 53 then
      (if n < 0 then ['-'] else []) ++ natToDec n.natAbs
    else other (.fin n k)

/-- State of the scan of `path.extname` (POSIX). -/
structure ExtState where
  startDot : ℤ
  startPart : ℤ
  endPos : ℤ
  matchedSlash : Bool
  preDotState : ℤ
  stopped : Bool

/-- One step of the scan of `path.extname`, at index `i` holding `c`. -/
def extStep (st : ExtState) (i : ℕ) (c : Char) : ExtState :=
  if st.stopped then st
  else if c = '/' then
    if !st.matchedSlash then { st with startPart := i + 1, stopped := true } else st
  else
    let st1 : ExtState :=
      if st.endPos = -1 then { st with matchedSlash := false, endPos := i + 1 } else st
    if c = '.' then
      if st1.startDot = -1 then { st1 with startDot := i }
      else if st1.preDotState ≠ 1 then { st1 with preDotState := 1 } else st1
    else if st1.startDot ≠ -1 then { st1 with preDotState := -1 }
    else st1

/-- The scan of `path.extname` over the characters from the last to the first;
`rs` is the reversed path and `i + 1` the index after its head. -/
def extScan : Str → ExtState → ExtState
  | [], st => st
  | c :: rs, st => extScan rs (extStep st rs.length c)

/-- Node's `path.extname` (POSIX). -/
def extname (path : Str) : Str :=
  let st := extScan path.reverse ⟨-1, 0, -1, true, 0, false⟩
  if st.startDot = -1 ∨ st.endPos = -1 ∨ st.preDotState = 0 ∨
      (st.preDotState = 1 ∧ st.startDot = st.endPos - 1 ∧ st.startDot = st.startPart + 1) then []
  else (path.take st.endPos.toNat).drop st.startDot.toNat

/-! ## Command line -/

/-- One command-line argument as a `[key, val]` pair: a leading `--` is
removed, the rest is split at every `=`, and the first two pieces are kept. -/
def parseArg (arg : Str) : Str × Option Str :=
  let a := if ("--".toList).isPrefixOf arg then arg.drop 2 else arg
  let ps := splitChar '=' a
  (ps.headD [], ps.get? 1)

/-- The property `args[key]` of `Object.fromEntries(...)`: the value of the
last pair with that key, `none` for `undefined`. -/
def argValue (argv : List Str) (key : Str) : Option Str :=
  match ((argv.map parseArg).reverse).find? (fun e => e.1 == key) with
  | some e => e.2
  | none => none

/-- `x || d` for a string or `undefined` `x`. -/
def orStr (x : Option Str) (d : Str) : Str :=
  match x with
  | some s => if s = [] then d else s
  | none => d

/-- `ToString` of a string or `undefined`. -/
def strOf (x : Option Str) : Str := x.getD "undefined".toList

/-- `x || d` for a number `x`. -/
def orNum (x d : JSNum) : JSNum := if truthy x then x else d

/-- `FPS = parseInt(args.fps || "24", 10)`. -/
def FPS (argv : List Str) : JSNum :=
  parseInt (orStr (argValue argv "fps".toList) "24".toList) (some 10)

/-- `FRAME_DIR = args.frames || "frames"`. -/
def FRAME_DIR (argv : List Str) : Str := orStr (argValue argv "frames".toList) "frames".toList

/-- `LOOP = parseInt(args.loop ?? "0", 10)`. -/
def LOOP (argv : List Str) : JSNum :=
  parseInt ((argValue argv "loop".toList).getD "0".toList) (some 10)

/-- `FORMAT = path.extname(OUTPUT).slice(1).toLowerCase()`. -/
def FORMAT (output : Str) : Str := toLowerCase ((extname output).drop 1)

/-- The output formats the program accepts. -/
def SUPPORTED_FORMATS : List Str := ["gif".toList, "apng".toList, "mov".toList, "webm".toList]

/-! ## Metadata extraction -/

/-- An element of the parsed document: its tag name as written, and its
attributes as `getAttribute` sees them. -/
structure Element where
  tag : Str
  attrs : List (Str × Str)
deriving DecidableEq, Repr

/-- `el.getAttribute(name)`; `none` for `undefined`. -/
def Element.getAttribute (el : Element) (name : Str) : Option Str :=
  (el.attrs.find? (fun a => a.1 == name)).map (fun a => a.2)

/-- The parsed document: its elements in document order. -/
structure Doc where
  elements : List Element
deriving DecidableEq, Repr

/-- Whether an element matches a tag selector.  The parser hands a selector to
its selector engine in XML mode, which compares the name of the selector as
written with the name of the element, and it reports the name of an element
in lower case: a selector with an upper-case letter matches no element. -/
def matchesTag (selector : Str) (el : Element) : Bool := toLowerCase el.tag == selector

/-- `root.querySelector("svg")`: the first element the selector matches, `none`
for `null`. -/
def Doc.svg (doc : Doc) : Option Element := doc.elements.find? (matchesTag "svg".toList)

/-- `root.querySelectorAll("animate, set, animateTransform")`: the elements
one of the three selectors matches, in document order. -/
def Doc.animEls (doc : Doc) : List Element :=
  doc.elements.filter (fun el => matchesTag "animate".toList el || matchesTag "set".toList el
    || matchesTag "animateTransform".toList el)

/-- The object `parseSVGMeta` returns; `durationMs = none` is `null`. -/
structure SVGMeta where
  width : JSNum
  height : JSNum
  durationMs : Option JSNum
deriving DecidableEq, Repr

/-- `Math.round` of the `i`-th element of an array, `Math.round(undefined)`
being `NaN`. -/
def roundAt (xs : List JSNum) (i : ℕ) : JSNum :=
  match xs.get? i with
  | some x => mathRound x
  | none => .nan

/-- The `width` and `height` of `parseSVGMeta`. -/
def geometry (svg : Element) : JSNum × JSNum :=
  match svg.getAttribute "viewBox".toList with
  | some (c :: cs) =>
    let comps := (splitWS (trim (c :: cs))).map toNumber
    (roundAt comps 2, roundAt comps 3)
  | _ =>
    (orNum (parseInt (strOf (svg.getAttribute "width".toList)) none) (.fin 1920 0),
     orNum (parseInt (strOf (svg.getAttribute "height".toList)) none) (.fin 1080 0))

/-- `begin` of a timed element:
`parseFloat((el.getAttribute("begin") || "0").replace("s", ""))`. -/
def beginOf (el : Element) : JSNum :=
  parseFloat ((orStr (el.getAttribute "begin".toList) "0".toList).erase 's')

/-- `dur` of a timed element:
`durAttr?.endsWith("s") ? parseFloat(durAttr) : parseFloat(durAttr || "0")`. -/
def durOf (el : Element) : JSNum :=
  match el.getAttribute "dur".toList with
  | some durAttr =>
    if endsWithChar durAttr 's' then parseFloat durAttr
    else parseFloat (orStr (some durAttr) "0".toList)
  | none => parseFloat (orStr none "0".toList)

/-- `end = begin + dur` of a timed element. -/
def endOf (el : Element) : JSNum := jsAdd (beginOf el) (durOf el)

/-- The loop of `parseSVGMeta` over the timed elements, from `maxTime`. -/
def maxTimeLoop : List Element → JSNum → JSNum
  | [], maxTime => maxTime
  | el :: els, maxTime =>
    maxTimeLoop els (if !isNaN (endOf el) then mathMax maxTime (endOf el) else maxTime)

/-- The `durationMs` of `parseSVGMeta`. -/
def inferDuration (animEls : List Element) : Option JSNum :=
  let maxTime := maxTimeLoop animEls (.fin 0 0)
  if jsGt maxTime (.fin 0 0) then some (mathRound (jsMul maxTime (.fin 1000 0))) else none

/-- `parseSVGMeta` on the parsed document; `none` when it throws (no `svg`
element: `svg.getAttribute` on `null`). -/
def parseSVGMeta (doc : Doc) : Option SVGMeta :=
  match doc.svg with
  | none => none
  | some svg => some ⟨(geometry svg).1, (geometry svg).2, inferDuration doc.animEls⟩

/-! ## Timeline, loop count and encoder commands -/

/-- `DURATION_MS = parseInt(args.duration, 10) || inferredDuration`. -/
def DURATION_MS (argv : List Str) (inferredDuration : Option JSNum) : Option JSNum :=
  let d := parseInt (strOf (argValue argv "duration".toList)) (some 10)
  if truthy d then some d else inferredDuration

/-- `FRAME_COUNT = Math.round((DURATION_MS / 1000) * FPS)`. -/
def FRAME_COUNT (durationMs fps : JSNum) : JSNum :=
  mathRound (jsMul (jsDiv durationMs (.fin 1000 0)) fps)

/-- `gifLoop = LOOP`. -/
def gifLoop (loop : JSNum) : JSNum := loop

/-- The normalised loop count of APNG. -/
def apngLoop (loop : JSNum) : JSNum :=
  if strictEq loop (.fin (-1) 0) then .fin 1 0
  else if strictEq loop (.fin 0 0) then .fin (-1) 0
  else jsAdd loop (.fin 1 0)

/-- The path frame `i` is written to:
`${FRAME_DIR}/frame-${i.toString().padStart(3, "0")}.png`. -/
def framePath (txt : JSNum → Str) (frameDir : Str) (i : JSNum) : Str :=
  frameDir ++ "/frame-".toList ++ padStart (numToString txt i) 3 "0".toList ++ ".png".toList

/-- The head every encoder command shares:
`ffmpeg -y -framerate ${FPS} -i ${FRAME_DIR}/frame-%03d.png`. -/
def ffmpegInput (txt : JSNum → Str) (fps : JSNum) (frameDir : Str) : Str :=
  "ffmpeg -y -framerate ".toList ++ numToString txt fps ++ " -i ".toList ++ frameDir
    ++ "/frame-%03d.png".toList

/-- The palette pass of GIF. -/
def gifPaletteCmd (txt : JSNum → Str) (fps : JSNum) (frameDir : Str) : Str :=
  ffmpegInput txt fps frameDir
    ++ " -vf \"palettegen=stats_mode=full:reserve_transparent=1\" palette.png".toList

/-- The encode pass of GIF. -/
def gifEncodeCmd (txt : JSNum → Str) (fps : JSNum) (frameDir output : Str) (loop : JSNum) : Str :=
  ffmpegInput txt fps frameDir ++ " -i palette.png -lavfi \"fps=".toList ++ numToString txt fps
    ++ ",scale=iw:ih:flags=lanczos[x];[x][1:v]paletteuse=dither=none\" -loop ".toList
    ++ numToString txt (gifLoop loop) ++ " ".toList ++ output

/-- The APNG command. -/
def apngCmd (txt : JSNum → Str) (fps : JSNum) (frameDir output : Str) (loop : JSNum) : Str :=
  ffmpegInput txt fps frameDir ++ " -plays ".toList ++ numToString txt (apngLoop loop)
    ++ " ".toList ++ output

/-- The MOV command. -/
def movCmd (txt : JSNum → Str) (fps : JSNum) (frameDir output : Str) : Str :=
  ffmpegInput txt fps frameDir
    ++ " -c:v prores_ks -profile:v 4444 -pix_fmt yuva444p10le ".toList ++ output

/-- The WEBM command. -/
def webmCmd (txt : JSNum → Str) (fps : JSNum) (frameDir output : Str) : Str :=
  ffmpegInput txt fps frameDir
    ++ " -c:v libvpx-vp9 -pix_fmt yuva420p -auto-alt-ref 0 ".toList ++ output

/-! ## The run -/

/-- What a run does to the outside, in order. -/
inductive Event where
  /-- The usage text is printed. -/
  | usage : Event
  /-- The unsupported-format message is printed. -/
  | errUnsupported (format : Str) : Event
  /-- `readFileSync(filePath, "utf8")` and the parse of its content. -/
  | readFile (filePath : Str) : Event
  /-- The message that no duration could be inferred is printed. -/
  | errDuration : Event
  /-- `mkdirSync(FRAME_DIR, { recursive: true })`. -/
  | mkdir (dir : Str) : Event
  /-- `launch()`. -/
  | launch : Event
  /-- `browser.newPage()`. -/
  | newPage : Event
  /-- `page.setViewport(...)`. -/
  | setViewport (width height : JSNum) : Event
  /-- `page.goto("file://" + path.resolve(INPUT))`. -/
  | goto (input : Str) : Event
  /-- `page.evaluate(...)` setting the playback time to `progress`. -/
  | setCurrentTime (progress : JSNum) : Event
  /-- `page.screenshot(...)` to `path`. -/
  | screenshot (path : Str) : Event
  /-- `browser.close()`. -/
  | close : Event
  /-- `execSync(command)`. -/
  | exec (command : Str) : Event
  /-- `rmSync(path, ...)`. -/
  | rm (path : Str) : Event
  /-- The message that the output was saved is printed. -/
  | logSaved (format output : Str) : Event
  /-- `console.error` of the error `main()` was rejected with. -/
  | logError : Event
deriving DecidableEq, Repr

/-- How a run ends. -/
inductive Outcome where
  /-- `process.exit(code)`. -/
  | exit (code : ℕ) : Outcome
  /-- An exception thrown by the top-level code: the process ends with a
  non-zero exit code. -/
  | uncaught : Outcome
  /-- The promise of `main()` was rejected and the error logged. -/
  | rejected : Outcome
  /-- The promise of `main()` was fulfilled. -/
  | completed : Outcome
deriving DecidableEq, Repr

/-- The outside of a run. -/
structure World where
  /-- The parsed content of a file; `none` when reading it throws. -/
  readDoc : Str → Option Doc
  /-- Whether an external call throws (or its promise is rejected). -/
  fails : Event → Bool
  /-- The text of the numbers `numToString` leaves open. -/
  numText : JSNum → Str

/-- Performs external calls in order up to the first that fails: the calls
made, and whether all succeeded. -/
def perform (w : World) : List Event → List Event × Bool
  | [] => ([], true)
  | e :: es =>
    if w.fails e then ([e], false)
    else ((e :: (perform w es).1), (perform w es).2)

/-- The frame loop `for (let i = 0; i < FRAME_COUNT; i++)` from the counter
`i`, with at most `fuel` tests of its condition: the calls made and whether
all succeeded; `none` when the loop is still running after `fuel` tests. -/
def renderLoop (w : World) (frameDir : Str) (fps frameCount : JSNum) :
    ℕ → JSNum → Option (List Event × Bool)
  | 0, _ => none
  | fuel + 1, i =>
    if jsLt i frameCount then
      if w.fails (.setCurrentTime (jsDiv i fps)) then
        some ([.setCurrentTime (jsDiv i fps)], false)
      else if w.fails (.screenshot (framePath w.numText frameDir i)) then
        some ([.setCurrentTime (jsDiv i fps), .screenshot (framePath w.numText frameDir i)], false)
      else
        match renderLoop w frameDir fps frameCount fuel (jsAdd i (.fin 1 0)) with
        | none => none
        | some (t, ok) =>
          some (.setCurrentTime (jsDiv i fps) :: .screenshot (framePath w.numText frameDir i) :: t, ok)
    else some ([], true)

/-- The external calls of the `switch (FORMAT)` of `main`. -/
def encodeCalls (txt : JSNum → Str) (format : Str) (fps : JSNum) (frameDir output : Str)
    (loop : JSNum) : List Event :=
  if format = "gif".toList then
    [.exec (gifPaletteCmd txt fps frameDir), .exec (gifEncodeCmd txt fps frameDir output loop),
     .rm "palette.png".toList]
  else if format = "apng".toList then [.exec (apngCmd txt fps frameDir output loop)]
  else if format = "mov".toList then [.exec (movCmd txt fps frameDir output)]
  else if format = "webm".toList then [.exec (webmCmd txt fps frameDir output)]
  else []

/-- The values `main` closes over. -/
structure Config where
  input : Str
  output : Str
  format : Str
  fps : JSNum
  frameDir : Str
  loop : JSNum
  width : JSNum
  height : JSNum
  frameCount : JSNum

/-- `main().catch(console.error)`. -/
def main (w : World) (c : Config) (fuel : ℕ) : Option (List Event × Outcome) :=
  match perform w [.mkdir c.frameDir, .launch, .newPage, .setViewport c.width c.height,
      .goto c.input] with
  | (t1, false) => some (t1 ++ [.logError], .rejected)
  | (t1, true) =>
    match renderLoop w c.frameDir c.fps c.frameCount fuel (.fin 0 0) with
    | none => none
    | some (t2, false) => some (t1 ++ t2 ++ [.logError], .rejected)
    | some (t2, true) =>
      match perform w (.close :: encodeCalls w.numText c.format c.fps c.frameDir c.output c.loop
          ++ [.rm c.frameDir]) with
      | (t3, false) => some (t1 ++ t2 ++ t3 ++ [.logError], .rejected)
      | (t3, true) => some (t1 ++ t2 ++ t3 ++ [.logSaved c.format c.output], .completed)

/-- A string or `undefined` that is truthy. -/
def truthyStr : Option Str → Option Str
  | some (c :: cs) => some (c :: cs)
  | _ => none

/-- The whole script on the arguments `argv` (`process.argv.slice(2)`): what
it does and how it ends; `none` when the frame loop is still running after
`fuel` tests of its condition. -/
def run (w : World) (argv : List Str) (fuel : ℕ) : Option (List Event × Outcome) :=
  match truthyStr (argValue argv "input".toList), truthyStr (argValue argv "output".toList) with
  | some input, some output =>
    if FORMAT output ∉ SUPPORTED_FORMATS then some ([.errUnsupported (FORMAT output)], .exit 1)
    else
      match w.readDoc input with
      | none => some ([.readFile input], .uncaught)
      | some doc =>
        match parseSVGMeta doc with
        | none => some ([.readFile input], .uncaught)
        | some m =>
          match DURATION_MS argv m.durationMs with
          | none => some ([.readFile input, .errDuration], .exit 1)
          | some d =>
            if !truthy d then some ([.readFile input, .errDuration], .exit 1)
            else
              match main w ⟨input, output, FORMAT output, FPS argv, FRAME_DIR argv, LOOP argv,
                  m.width, m.height, FRAME_COUNT d (FPS argv)⟩ fuel with
              | none => none
              | some (t, o) => some (.readFile input :: t, o)
  | _, _ => some ([.usage], .exit 1)

/-! ## Observations on a run -/

/-- The playback times a run sets, in order. -/
def playbackTimes : List Event → List JSNum
  | [] => []
  | .setCurrentTime t :: es => t :: playbackTimes es
  | _ :: es => playbackTimes es

/-- The two calls of the frame loop for the frame of index `j`. -/
def frameCalls (w : World) (frameDir : Str) (fps : JSNum) (j : ℕ) : List Event :=
  [.setCurrentTime (jsDiv (.fin (j : ℤ) 0) fps), .screenshot (framePath w.numText frameDir (.fin (j : ℤ) 0))]

/-! ## Sample worlds and documents -/

/-- A world in which no file can be read and no external call fails. -/
def quietWorld : World := ⟨fun _ => none, fun _ => false, fun _ => []⟩

/-- A document with a `viewBox` of 100 by 100 and one `animate` of two seconds. -/
def twoSecondDoc : Doc :=
  ⟨[⟨"svg".toList, [("viewBox".toList, "0 0 100 100".toList)]⟩,
    ⟨"animate".toList, [("dur".toList, "2s".toList)]⟩]⟩

/-- A document with an `svg` root and no timed element. -/
def stillDoc : Doc := ⟨[⟨"svg".toList, [("viewBox".toList, "0 0 100 100".toList)]⟩]⟩

/-- A world in which every file holds `doc` and the calls `bad` fail. -/
def worldOf (doc : Doc) (bad : List Event) : World :=
  ⟨fun _ => some doc, fun e => decide (e ∈ bad), fun _ => []⟩

/-- The configuration of a run on `a.svg` to `out.gif` at 2 fps with one frame. -/
def sampleConfig : Config :=
  ⟨"a.svg".toList, "out.gif".toList, "gif".toList, .fin 2 0, "frames".toList, .fin 0 0,
    .fin 100 0, .fin 100 0, .fin 1 0⟩

/-- What `main` does on `sampleConfig` when no call fails. -/
def sampleTrace : List Event :=
  [.mkdir "frames".toList, .launch, .newPage, .setViewport (.fin 100 0) (.fin 100 0),
    .goto "a.svg".toList, .setCurrentTime (.fin 0 0), .screenshot "frames/frame-000.png".toList,
    .close,
    .exec ("ffmpeg -y -framerate 2 -i frames/frame-%03d.png "
      ++ "-vf \"palettegen=stats_mode=full:reserve_transparent=1\" palette.png").toList,
    .exec ("ffmpeg -y -framerate 2 -i frames/frame-%03d.png -i palette.png -lavfi "
      ++ "\"fps=2,scale=iw:ih:flags=lanczos[x];[x][1:v]paletteuse=dither=none\" "
      ++ "-loop 0 out.gif").toList,
    .rm "palette.png".toList, .rm "frames".toList, .logSaved "gif".toList "out.gif".toList]

/-- The external calls `main` plans when the frame loop has nothing to do:
the set-up, the closing of the browser, the encoder calls of the format and
the removal of the frame directory. -/
def callsWithoutFrames (txt : JSNum → Str) (c : Config) : List Event :=
  [.mkdir c.frameDir, .launch, .newPage, .setViewport c.width c.height, .goto c.input, .close]
    ++ encodeCalls txt c.format c.fps c.frameDir c.output c.loop ++ [.rm c.frameDir]

/-- The configuration of `main` in a run on `argv` that reached it. -/
def configOf (argv : List Str) (input output : Str) (m : SVGMeta) (d : JSNum) : Config :=
  ⟨input, output, FORMAT output, FPS argv, FRAME_DIR argv, LOOP argv, m.width, m.height,
    FRAME_COUNT d (FPS argv)⟩

/-! ## Predicates of the claims -/

/-- A positive integer. -/
def isPositiveInteger : JSNum → Bool
  | .fin n k => decide (0 < n) && k == 0
  | _ => false

/-- A run of white space between two components of a `viewBox`. -/
def isSeparator (ws : Str) : Prop := ws ≠ [] ∧ ∀ c ∈ ws, isWhiteSpace c = true

/-- A component of a `viewBox`: characters other than white space. -/
def isComponent (s : Str) : Prop := s ≠ [] ∧ ∀ c ∈ s, isWhiteSpace c = false

/-- Two timed elements: `begin="1s" dur="2s"` and `begin="0s" dur="0.5s"`. -/
def sampleTimedEls : List Element :=
  [⟨"animate".toList, [("begin".toList, "1s".toList), ("dur".toList, "2s".toList)]⟩,
   ⟨"set".toList, [("begin".toList, "0s".toList), ("dur".toList, "0.5s".toList)]⟩]

/-! ## The frame pattern of the encoder -/

/-- A string left-padded with zeros to `width` characters: C's `%0*d` applied
to the decimal digits of a natural number. -/
def zeroPad (width : ℕ) (s : Str) : Str := List.replicate (width - s.length) '0' ++ s

/-- The scan of a frame pattern for the frame number `i`.  `dir` is `none`
outside a directive and the width read so far inside one; `found` tells
that a `%d` has been expanded already. -/
def expandAux (i : ℕ) : Str → Option ℕ → Bool → Option Str
  | [], none, found => if found then some [] else none
  | [], some _, _ => none
  | c :: cs, none, found =>
    if c = '%' then expandAux i cs (some 0) found
    else (expandAux i cs none found).map (fun r => c :: r)
  | c :: cs, some width, found =>
    if isRadixDigit 10 c then expandAux i cs (some (width * 10 + (radixDigit c).getD 0)) found
    else if c = 'd' then
      if found then none
      else (expandAux i cs none true).map (fun r => zeroPad width (natToDec i) ++ r)
    else if c = '%' then (expandAux i cs none found).map (fun r => '%' :: r)
    else none

/-- The file name the image-sequence reader of ffmpeg derives from a pattern
for the frame number `i`: `%d` or `%0Nd` stands for `i` in decimal,
left-padded with zeros to `N` digits, `%%` for a percent sign; a pattern must
hold exactly one `%d`, else there is no name (`none`). -/
def expandPattern (pattern : Str) (i : ℕ) : Option Str := expandAux i pattern none false

/-! ## The image-sequence reader of the encoder -/

/-- The paths a run wrote frames to, in order. -/
def writtenPaths : List Event → List Str
  | [] => []
  | .screenshot p :: es => p :: writtenPaths es
  | _ :: es => writtenPaths es

/-- What the image-sequence reader of ffmpeg makes of its input. -/
inductive ReadResult where
  /-- The input is no sequence pattern (it has no single `%d`): it is taken as
  the name of one image. -/
  | notASequence : ReadResult
  /-- No frame was found, or the search for the last frame was given up: the
  encoder fails. -/
  | noFrame : ReadResult
  /-- The files read, in order. -/
  | frames (paths : List Str) : ReadResult
deriving DecidableEq, Repr

/-- The reader's search, from the frame number `last`, for a later frame: the
numbers at the distances 1, 2, 4, ... are tried as long as their frame exists.
The result is the last distance at which a frame was found (`0` when there
was none); the search is given up (`none`) when a frame at the distance
`2^30` exists.  At most `steps` numbers are tried; 31 cover every case. -/
def probeRange (ex : ℕ → Bool) (last : ℕ) : ℕ → ℕ → Option ℕ
  | 0, _ => none
  | steps + 1, range =>
    if ex (last + (if range = 0 then 1 else 2 * range)) then
      if 2 ^ 30 ≤ (if range = 0 then 1 else 2 * range) then none
      else probeRange ex last steps (if range = 0 then 1 else 2 * range)
    else some range

/-- The reader's search for the last frame, from the frame number `last`: it
moves on by the distance `probeRange` finds until that distance is `0`.
`none` after `fuel` rounds without an end, `some none` when the search is
given up. -/
def findLast (ex : ℕ → Bool) : ℕ → ℕ → Option (Option ℕ)
  | 0, _ => none
  | fuel + 1, last =>
    match probeRange ex last 31 0 with
    | none => some none
    | some 0 => some (some last)
    | some (r + 1) => findLast ex fuel (last + (r + 1))

/-- The files the image-sequence reader of ffmpeg reads for a pattern, given
which files exist.  The first frame is the first of the numbers 0 to 4 whose
file exists; the last frame is found by `findLast`; the files of the numbers
from the first to the last are read in order.  `none` when the search for
the last frame has not ended after `fuel` rounds. -/
def framesRead (fileExists : Str → Bool) (pattern : Str) (fuel : ℕ) : Option ReadResult :=
  match expandPattern pattern 0 with
  | none => some .notASequence
  | some _ =>
    match (List.range 5).find? (fun n => fileExists ((expandPattern pattern n).getD [])) with
    | none => some .noFrame
    | some first =>
      match findLast (fun n => fileExists ((expandPattern pattern n).getD [])) fuel first with
      | none => none
      | some none => some .noFrame
      | some (some last) =>
        some (.frames ((List.range' first (last + 1 - first)).map
          (fun n => (expandPattern pattern n).getD [])))

/-! ## Exact rounding and further sample documents -/

/-- The integer nearest to the decimal `m / 10^p`, a tie going up: what
rounding the written number itself to the nearest integer gives. -/
def nearestToDecimal (m p : ℕ) : ℕ := (2 * m + 10 ^ p) / (2 * 10 ^ p)

/-- A document whose `viewBox` has the width `0.49999999999999999`. -/
def halfWidthDoc : Doc :=
  ⟨[⟨"svg".toList, [("viewBox".toList, "0 0 0.49999999999999999 1".toList)]⟩]⟩

/-- A document with `viewBox="0 0 800 600"` next to `width="5"` and
`height="7"`. -/
def conflictingDoc : Doc :=
  ⟨[⟨"svg".toList, [("width".toList, "5".toList), ("viewBox".toList, "0 0 800 600".toList),
      ("height".toList, "7".toList)]⟩]⟩

/-- The timed element `el` has a finite `begin` and a finite `dur`, neither of
them negative, and `x` is their sum. -/
def endsAt (el : Element) (x : ℚ) : Prop :=
  ∃ (nb : ℤ) (kb : ℕ) (nd : ℤ) (kd : ℕ), beginOf el = .fin nb kb ∧ durOf el = .fin nd kd ∧
    0 ≤ nb ∧ 0 ≤ nd ∧ x = (nb : ℚ) / 2 ^ kb + (nd : ℚ) / 2 ^ kd

/-- The integer nearest to `1000 * m / 10^p`, a tie going up: what rounding
the milliseconds of the written number of seconds `m / 10^p` gives. -/
def nearestMs (m p : ℕ) : ℕ := (2 * (1000 * m) + 10 ^ p) / (2 * 10 ^ p)

/-- A document with the timed elements `sampleTimedEls`. -/
def sampleTimedDoc : Doc :=
  ⟨⟨"svg".toList, [("viewBox".toList, "0 0 100 100".toList)]⟩ :: sampleTimedEls⟩

/-- A document with one `animate` of `dur="0.5005s"`. -/
def halfSecondDoc : Doc :=
  ⟨[⟨"svg".toList, [("viewBox".toList, "0 0 100 100".toList)]⟩,
    ⟨"animate".toList, [("dur".toList, "0.5005s".toList)]⟩]⟩

/-- A document with an `animate` of two seconds and an `animateTransform` of
five. -/
def transformDoc : Doc :=
  ⟨[⟨"svg".toList, [("viewBox".toList, "0 0 100 100".toList)]⟩,
    ⟨"animate".toList, [("dur".toList, "2s".toList)]⟩,
    ⟨"animateTransform".toList, [("dur".toList, "5s".toList)]⟩]⟩

/-! ## Lemmas on numbers -/

theorem log2Fuel_spec (f : ℕ) : ∀ n : ℕ, 0 < n → n ≤ f →
    2 ^ log2Fuel f n ≤ n ∧ n < 2 ^ (log2Fuel f n + 1) := by
  induction f with
  | zero => intro n hn hf; omega
  | succ f ih =>
    intro n hn hf
    unfold log2Fuel
    by_cases h2 : n < 2
    · simp only [h2, if_true]
      refine ⟨by simpa using hn, by simpa using h2⟩
    · simp only [h2, if_false]
      have hpos : 0 < n / 2 := Nat.div_pos (by omega) (by norm_num)
      have hle : n / 2 ≤ f := by omega
      obtain ⟨h1, h3⟩ := ih (n / 2) hpos hle
      constructor
      · rw [pow_succ]; omega
      · rw [pow_succ]; omega

theorem roundHalfEven_bounds (N D : ℕ) (hD : 0 < D) :
    2 * (roundHalfEven N D * D) ≤ 2 * N + D ∧ 2 * N ≤ 2 * (roundHalfEven N D * D) + D := by
  have hdm := Nat.div_add_mod N D
  have hlt := Nat.mod_lt N hD
  have hmul : D * (N / D) = N / D * D := Nat.mul_comm _ _
  unfold roundHalfEven
  split_ifs <;> (try simp only [Nat.add_mul, Nat.one_mul]) <;> omega

theorem roundHalfEven_exact (N D : ℕ) (hD : 0 < D) (h : D ∣ N) : roundHalfEven N D = N / D := by
  have : N % D = 0 := Nat.mod_eq_zero_of_dvd h
  unfold roundHalfEven
  simp [this, hD]

theorem normDyadic_spec (k : ℕ) : ∀ n : ℤ, ∃ n2 k2, normDyadic n k = .fin n2 k2 ∧
    (n2 : ℚ) / 2 ^ k2 = (n : ℚ) / 2 ^ k ∧ (k2 = 0 ∨ n2 % 2 ≠ 0) := by
  induction k with
  | zero => intro n; exact ⟨n, 0, rfl, rfl, Or.inl rfl⟩
  | succ k ih =>
    intro n
    unfold normDyadic
    by_cases h : n % 2 = 0
    · simp only [h, if_true]
      obtain ⟨n2, k2, h1, h2, h3⟩ := ih (n / 2)
      refine ⟨n2, k2, h1, ?_, h3⟩
      rw [h2]
      have hn : n = 2 * (n / 2) := by omega
      conv_rhs => rw [hn]
      push_cast
      rw [pow_succ]
      field_simp
      ring
    · simp only [h, if_false]
      exact ⟨n, k + 1, rfl, rfl, Or.inr h⟩

theorem normDyadic_mul_pow (k : ℕ) : ∀ n : ℤ, normDyadic (n * 2 ^ k) k = .fin n 0 := by
  induction k with
  | zero => intro n; simp [normDyadic]
  | succ k ih =>
    intro n
    unfold normDyadic
    have h : (n * 2 ^ (k + 1)) % 2 = 0 := by
      rw [pow_succ, ← mul_assoc]; exact Int.mul_emod_left _ _
    have h2 : n * 2 ^ (k + 1) / 2 = n * 2 ^ k := by
      rw [pow_succ, ← mul_assoc]; exact Int.mul_ediv_cancel _ (by norm_num)
    simp only [h, if_true, h2]
    exact ih n

theorem pow_test_iff (a d : ℕ) (hd : 0 < d) (e0 : ℤ) :
    (if 0 ≤ e0 then d * 2 ^ e0.toNat ≤ a else d ≤ a * 2 ^ (-e0).toNat) ↔
      (2 : ℚ) ^ e0 ≤ (a : ℚ) / d := by
  have hdq : (0 : ℚ) < d := by exact_mod_cast hd
  by_cases h : 0 ≤ e0
  · obtain ⟨t, rfl⟩ := Int.eq_ofNat_of_zero_le h
    simp only [h, if_true, Int.toNat_ofNat, zpow_natCast]
    rw [le_div_iff₀ hdq]
    constructor
    · intro H
      have : ((d * 2 ^ t : ℕ) : ℚ) ≤ a := by exact_mod_cast H
      push_cast at this; linarith
    · intro H
      have : ((d * 2 ^ t : ℕ) : ℚ) ≤ a := by push_cast; linarith
      exact_mod_cast this
  · have hneg : 0 ≤ -e0 := by omega
    obtain ⟨t, ht⟩ := Int.eq_ofNat_of_zero_le hneg
    have he : e0 = -(t : ℤ) := by omega
    subst he
    simp only [h, if_false, neg_neg, Int.toNat_ofNat, zpow_neg, zpow_natCast]
    have h2 : (0 : ℚ) < 2 ^ t := by positivity
    rw [le_div_iff₀ hdq, inv_mul_le_iff₀ h2]
    constructor
    · intro H
      have : ((d : ℕ) : ℚ) ≤ ((a * 2 ^ t : ℕ) : ℚ) := by exact_mod_cast H
      push_cast at this; linarith
    · intro H
      have : ((d : ℕ) : ℚ) ≤ ((a * 2 ^ t : ℕ) : ℚ) := by push_cast; linarith
      exact_mod_cast this

theorem ilog2_spec (a d : ℕ) (ha : 0 < a) (hd : 0 < d) :
    (2 : ℚ) ^ (ilog2 a d) ≤ (a : ℚ) / d ∧ (a : ℚ) / d < 2 ^ (ilog2 a d + 1) := by
  obtain ⟨ha1, ha2⟩ := log2Fuel_spec a a ha le_rfl
  obtain ⟨hd1, hd2⟩ := log2Fuel_spec d d hd le_rfl
  have hdq : (0 : ℚ) < d := by exact_mod_cast hd
  have haq : (0 : ℚ) < a := by exact_mod_cast ha
  have A1 : (2 : ℚ) ^ (log2Fuel a a) ≤ a := by exact_mod_cast ha1
  have A2 : (a : ℚ) < 2 ^ (log2Fuel a a + 1) := by exact_mod_cast ha2
  have D1 : (2 : ℚ) ^ (log2Fuel d d) ≤ d := by exact_mod_cast hd1
  have D2 : (d : ℚ) < 2 ^ (log2Fuel d d + 1) := by exact_mod_cast hd2
  have hpa : (0 : ℚ) < 2 ^ (log2Fuel a a) := by positivity
  have hpd : (0 : ℚ) < 2 ^ (log2Fuel d d) := by positivity
  -- bounds in terms of e0
  have U : (a : ℚ) / d < 2 ^ ((log2Fuel a a : ℤ) - (log2Fuel d d : ℤ) + 1) := by
    rw [div_lt_iff₀ hdq]
    have : (2 : ℚ) ^ ((log2Fuel a a : ℤ) - (log2Fuel d d : ℤ) + 1)
        = 2 ^ (log2Fuel a a + 1) / 2 ^ (log2Fuel d d) := by
      rw [show ((log2Fuel a a : ℤ) - (log2Fuel d d : ℤ) + 1)
          = ((log2Fuel a a + 1 : ℕ) : ℤ) - ((log2Fuel d d : ℕ) : ℤ) by push_cast; ring]
      rw [zpow_sub₀ (by norm_num), zpow_natCast, zpow_natCast]
    rw [this, div_mul_eq_mul_div, lt_div_iff₀ hpd]
    have hp1 : (0 : ℚ) < 2 ^ (log2Fuel a a + 1) := by positivity
    nlinarith
  have L : (2 : ℚ) ^ ((log2Fuel a a : ℤ) - (log2Fuel d d : ℤ) - 1) ≤ (a : ℚ) / d := by
    rw [le_div_iff₀ hdq]
    have : (2 : ℚ) ^ ((log2Fuel a a : ℤ) - (log2Fuel d d : ℤ) - 1)
        = 2 ^ (log2Fuel a a) / 2 ^ (log2Fuel d d + 1) := by
      rw [show ((log2Fuel a a : ℤ) - (log2Fuel d d : ℤ) - 1)
          = ((log2Fuel a a : ℕ) : ℤ) - ((log2Fuel d d + 1 : ℕ) : ℤ) by push_cast; ring]
      rw [zpow_sub₀ (by norm_num), zpow_natCast, zpow_natCast]
    have hp1 : (0 : ℚ) < 2 ^ (log2Fuel d d + 1) := by positivity
    rw [this, div_mul_eq_mul_div, div_le_iff₀ hp1]
    nlinarith
  unfold ilog2
  simp only []
  by_cases h : (if 0 ≤ (log2Fuel a a : ℤ) - (log2Fuel d d : ℤ)
      then d * 2 ^ ((log2Fuel a a : ℤ) - (log2Fuel d d : ℤ)).toNat ≤ a
      else d ≤ a * 2 ^ (-((log2Fuel a a : ℤ) - (log2Fuel d d : ℤ))).toNat)
  · rw [if_pos h]
    exact ⟨(pow_test_iff a d hd _).1 h, U⟩
  · rw [if_neg h]
    have h3 : ¬ (2 : ℚ) ^ ((log2Fuel a a : ℤ) - (log2Fuel d d : ℤ)) ≤ (a : ℚ) / d :=
      fun H => h ((pow_test_iff a d hd _).2 H)
    refine ⟨L, ?_⟩
    rw [sub_add_cancel]
    exact lt_of_not_le h3

theorem signed_cast (neg : Bool) (m : ℕ) :
    ((signed neg m : ℤ) : ℚ) = (if neg then -(m : ℚ) else (m : ℚ)) := by
  unfold signed; cases neg <;> simp

theorem roundHalfEven_err (N D : ℕ) (hD : 0 < D) :
    |(roundHalfEven N D : ℚ) - (N : ℚ) / D| ≤ 1 / 2 := by
  obtain ⟨h1, h2⟩ := roundHalfEven_bounds N D hD
  have hDq : (0 : ℚ) < D := by exact_mod_cast hD
  have q1 : (2 : ℚ) * (roundHalfEven N D * D) ≤ 2 * N + D := by exact_mod_cast h1
  have q2 : (2 : ℚ) * N ≤ 2 * (roundHalfEven N D * D) + D := by exact_mod_cast h2
  rw [abs_le]
  constructor
  · rw [le_sub_iff_add_le, ← sub_eq_neg_add, sub_le_iff_le_add, div_le_iff₀ hDq]
    nlinarith
  · rw [sub_le_iff_le_add, ← sub_le_iff_le_add', le_div_iff₀ hDq]
    nlinarith

/-- Rounding in the normal range: the result is finite, in lowest terms, and
within half a unit in the last place of the rational rounded. -/
theorem flPos_spec (a d : ℕ) (ha : 0 < a) (hd : 0 < d) (neg : Bool)
    (hlo : (2 : ℚ) ^ (-1022 : ℤ) ≤ (a : ℚ) / d) (hhi : (a : ℚ) / d < 2 ^ (1023 : ℕ)) :
    ∃ (n : ℤ) (k : ℕ) (r : ℚ), flPos a d neg = .fin n k ∧ (k = 0 ∨ n % 2 ≠ 0) ∧
      (n : ℚ) / 2 ^ k = (if neg then -r else r) ∧
      |r - (a : ℚ) / d| ≤ (a : ℚ) / d / 2 ^ 53 := by
  obtain ⟨e1, e2⟩ := ilog2_spec a d ha hd
  have hdq : (0 : ℚ) < d := by exact_mod_cast hd
  have haq : (0 : ℚ) < a := by exact_mod_cast ha
  have hx : (0 : ℚ) < (a : ℚ) / d := div_pos haq hdq
  have he : -1022 ≤ ilog2 a d := by
    by_contra hcon
    have h1 : ilog2 a d + 1 ≤ -1022 := by omega
    have h2 : (2 : ℚ) ^ (ilog2 a d + 1) ≤ 2 ^ (-1022 : ℤ) :=
      zpow_le_zpow_right₀ (by norm_num) h1
    exact absurd (lt_of_le_of_lt hlo e2) (not_lt.2 h2)
  have hmax : max (ilog2 a d) (-1022) = ilog2 a d := max_eq_left he
  -- half a unit in the last place is at most x / 2^53
  have hulp : (2 : ℚ) ^ (ilog2 a d - 52) / 2 ≤ (a : ℚ) / d / 2 ^ 53 := by
    have : (2 : ℚ) ^ (ilog2 a d - 52) = 2 ^ (ilog2 a d) / 2 ^ (52 : ℕ) := by
      rw [zpow_sub₀ (by norm_num)]; norm_num
    rw [this, div_div, div_le_div_iff₀ (by positivity) (by positivity)]
    have : (2 : ℚ) ^ (52 : ℕ) * 2 = 2 ^ 53 := by norm_num
    nlinarith
  unfold flPos
  simp only [hmax]
  by_cases hs : 0 ≤ ilog2 a d - 52
  · obtain ⟨t, ht⟩ := Int.eq_ofNat_of_zero_le hs
    simp only [hs, if_true, ht, Int.toNat_ofNat]
    have hD : 0 < d * 2 ^ t := Nat.mul_pos hd (by positivity)
    have herr := roundHalfEven_err a (d * 2 ^ t) hD
    set m := roundHalfEven a (d * 2 ^ t) with hm
    have hpt : (0 : ℚ) < 2 ^ t := by positivity
    have hzt : (2 : ℚ) ^ (ilog2 a d - 52) = 2 ^ t := by rw [ht, zpow_natCast]
    have hND : ((a : ℚ) / ((d * 2 ^ t : ℕ) : ℚ)) = (a : ℚ) / d / 2 ^ t := by
      push_cast; rw [div_div]
    rw [hND] at herr
    have hval : |(m : ℚ) * 2 ^ t - (a : ℚ) / d| ≤ 2 ^ t / 2 := by
      have : (m : ℚ) * 2 ^ t - (a : ℚ) / d = ((m : ℚ) - (a : ℚ) / d / 2 ^ t) * 2 ^ t := by
        field_simp
        ring
      rw [this, abs_mul, abs_of_pos hpt]
      nlinarith
    have hvlt : m * 2 ^ t < 2 ^ 1024 := by
      have h1 : (m : ℚ) * 2 ^ t ≤ (a : ℚ) / d + 2 ^ t / 2 := by
        have := (abs_le.1 hval).2; linarith
      have h2 : (2 : ℚ) ^ t / 2 ≤ (a : ℚ) / d / 2 ^ 53 := by rw [← hzt]; exact hulp
      have h3 : (a : ℚ) / d / 2 ^ 53 ≤ (a : ℚ) / d := by
        apply div_le_self hx.le; norm_num
      have h4 : ((m * 2 ^ t : ℕ) : ℚ) < ((2 ^ 1024 : ℕ) : ℚ) := by
        push_cast
        have : (2 : ℚ) ^ 1024 = 2 ^ 1023 * 2 := by rw [← pow_succ]
        linarith
      exact_mod_cast h4
    have hnot : ¬ (2 ^ 1024 ≤ m * 2 ^ t) := by omega
    simp only [hnot, if_false]
    refine ⟨signed neg (m * 2 ^ t), 0, (m : ℚ) * 2 ^ t, rfl, Or.inl rfl, ?_, ?_⟩
    · rw [signed_cast]; cases neg <;> simp
    · exact le_trans hval (by rw [← hzt]; exact hulp)
  · have hneg : 0 ≤ -(ilog2 a d - 52) := by omega
    obtain ⟨t, ht⟩ := Int.eq_ofNat_of_zero_le hneg
    simp only [hs, if_false, ht, Int.toNat_ofNat]
    have herr := roundHalfEven_err (a * 2 ^ t) d hd
    set m := roundHalfEven (a * 2 ^ t) d with hm
    have hpt : (0 : ℚ) < 2 ^ t := by positivity
    have hzt : (2 : ℚ) ^ (ilog2 a d - 52) = (2 ^ t)⁻¹ := by
      rw [show ilog2 a d - 52 = -(t : ℤ) by omega, zpow_neg, zpow_natCast]
    have hND : (((a * 2 ^ t : ℕ) : ℚ) / (d : ℚ)) = (a : ℚ) / d * 2 ^ t := by
      push_cast; ring
    rw [hND] at herr
    have hval : |(m : ℚ) / 2 ^ t - (a : ℚ) / d| ≤ (2 ^ t)⁻¹ / 2 := by
      have : (m : ℚ) / 2 ^ t - (a : ℚ) / d = ((m : ℚ) - (a : ℚ) / d * 2 ^ t) * (2 ^ t)⁻¹ := by
        field_simp
        ring
      rw [this, abs_mul, abs_of_pos (inv_pos.2 hpt)]
      have hi : (0 : ℚ) < (2 ^ t)⁻¹ := inv_pos.2 hpt
      nlinarith
    obtain ⟨n2, k2, h1, h2, h3⟩ := normDyadic_spec t (signed neg m)
    refine ⟨n2, k2, (m : ℚ) / 2 ^ t, h1, h3, ?_, ?_⟩
    · rw [h2, signed_cast]; cases neg <;> simp [neg_div]
    · exact le_trans hval (by rw [← hzt]; exact hulp)

theorem signed_natAbs (z : ℤ) : signed (decide (z < 0)) z.natAbs = z := by
  unfold signed
  by_cases h : z < 0
  · simp only [h, decide_True, if_true]; omega
  · simp only [h, decide_False]; simp; omega

theorem signed_mul (neg : Bool) (a b : ℕ) : signed neg (a * b) = signed neg a * (b : ℤ) := by
  unfold signed; cases neg <;> simp

theorem roundHalfEven_one (N : ℕ) : roundHalfEven N 1 = N := by
  rw [roundHalfEven_exact N 1 one_pos (one_dvd _), Nat.div_one]

theorem ilog2_one (a : ℕ) (ha : 0 < a) : ilog2 a 1 = (log2Fuel a a : ℤ) := by
  obtain ⟨h1, _⟩ := log2Fuel_spec a a ha le_rfl
  have h0 : log2Fuel 1 1 = 0 := by decide
  unfold ilog2
  simp only [h0, Nat.cast_zero, sub_zero, Nat.cast_nonneg, if_true, Int.toNat_ofNat, one_mul]
  simp [h1]

/-- An integer of magnitude up to `2^53` is a number: rounding leaves it as it is. -/
theorem fl_int (z : ℤ) (h : z.natAbs ≤ 2 ^ 53) : fl z 1 = .fin z 0 := by
  unfold fl
  by_cases hz : z = 0
  · simp [hz]
  · have ha : 0 < z.natAbs := Int.natAbs_pos.2 hz
    simp only [hz, false_or, one_ne_zero, if_false]
    obtain ⟨h1, h2⟩ := log2Fuel_spec z.natAbs z.natAbs ha le_rfl
    have hL : log2Fuel z.natAbs z.natAbs ≤ 53 := by
      by_contra hc
      have : 2 ^ 54 ≤ 2 ^ log2Fuel z.natAbs z.natAbs :=
        Nat.pow_le_pow_right (by norm_num) (by omega)
      omega
    unfold flPos
    rw [ilog2_one _ ha]
    generalize hLdef : log2Fuel z.natAbs z.natAbs = L at h1 h2 hL
    have hmax : max (L : ℤ) (-1022) = L := max_eq_left (by omega)
    simp only [hmax]
    by_cases hs : 0 ≤ (L : ℤ) - 52
    · simp only [hs, if_true]
      have hL2 : L = 52 ∨ L = 53 := by omega
      rcases hL2 with rfl | rfl
      · have e : roundHalfEven z.natAbs (1 * 2 ^ ((52 : ℕ) - 52 : ℤ).toNat) = z.natAbs := by
          have hd1 : 1 * 2 ^ ((52 : ℕ) - 52 : ℤ).toNat = 1 := by norm_num
          rw [hd1, roundHalfEven_one]
        have hlt : ¬ (2 ^ 1024 ≤ z.natAbs) := by
          have : (2:ℕ) ^ 53 < 2 ^ 1024 := Nat.pow_lt_pow_right (by norm_num) (by norm_num)
          omega
        simp only [e]
        simp [hlt, signed_natAbs]
      · have ha53 : z.natAbs = 2 ^ 53 := by omega
        have e : roundHalfEven z.natAbs (1 * 2 ^ ((53 : ℕ) - 52 : ℤ).toNat) = 2 ^ 52 := by
          rw [ha53]; decide
        have hlt : ¬ (2 ^ 1024 ≤ 2 ^ 52 * 2) := by
          have : (2:ℕ) ^ 52 * 2 = 2 ^ 53 := by norm_num
          have : (2:ℕ) ^ 53 < 2 ^ 1024 := Nat.pow_lt_pow_right (by norm_num) (by norm_num)
          omega
        simp only [e]
        have hv : (2:ℕ) ^ 52 * 2 ^ ((53 : ℕ) - 52 : ℤ).toNat = z.natAbs := by
          rw [ha53]; norm_num
        simp only [hv]
        have hlt2 : ¬ (2 ^ 1024 ≤ z.natAbs) := by
          have : (2:ℕ) ^ 53 < 2 ^ 1024 := Nat.pow_lt_pow_right (by norm_num) (by norm_num)
          omega
        simp [hlt2, signed_natAbs]
    · simp only [hs, if_false]
      have e : roundHalfEven (z.natAbs * 2 ^ (-((L : ℤ) - 52)).toNat) 1
          = z.natAbs * 2 ^ (-((L : ℤ) - 52)).toNat := roundHalfEven_one _
      rw [e, signed_mul, signed_natAbs]
      have := normDyadic_mul_pow (-((L : ℤ) - 52)).toNat z
      push_cast
      exact this

theorem fl_pos_spec (num : ℤ) (den : ℕ) (hn : 0 < num) (hd : 0 < den)
    (hlo : (2 : ℚ) ^ (-1022 : ℤ) ≤ (num : ℚ) / den) (hhi : (num : ℚ) / den < 2 ^ (1023 : ℕ)) :
    ∃ (n : ℤ) (k : ℕ), fl num den = .fin n k ∧ (k = 0 ∨ n % 2 ≠ 0) ∧
      |(n : ℚ) / 2 ^ k - (num : ℚ) / den| ≤ (num : ℚ) / den / 2 ^ 53 := by
  have hcast : ((num.natAbs : ℕ) : ℚ) = (num : ℚ) := by
    have h : ((num.natAbs : ℕ) : ℤ) = num := Int.natAbs_of_nonneg hn.le
    calc ((num.natAbs : ℕ) : ℚ) = (((num.natAbs : ℕ) : ℤ) : ℚ) := (Int.cast_natCast _).symm
      _ = (num : ℚ) := by rw [h]
  have ha : 0 < num.natAbs := Int.natAbs_pos.2 hn.ne'
  obtain ⟨n, k, r, h1, h2, h3, h4⟩ := flPos_spec num.natAbs den ha hd false
    (by rw [hcast]; exact hlo) (by rw [hcast]; exact hhi)
  refine ⟨n, k, ?_, h2, ?_⟩
  · unfold fl
    have hnn : ¬ num < 0 := by omega
    simp only [hn.ne', hd.ne', or_self, if_false, hnn, decide_False]
    exact h1
  · simp only [Bool.false_eq_true, if_false] at h3
    rw [h3, ← hcast]; exact h4

theorem jsLt_fin (n1 : ℤ) (k1 : ℕ) (n2 : ℤ) (k2 : ℕ) :
    jsLt (.fin n1 k1) (.fin n2 k2) = true ↔ (n1 : ℚ) / 2 ^ k1 < (n2 : ℚ) / 2 ^ k2 := by
  unfold jsLt
  simp only [decide_eq_true_eq]
  have h1 : (0 : ℚ) < 2 ^ k1 := by positivity
  have h2 : (0 : ℚ) < 2 ^ k2 := by positivity
  rw [div_lt_div_iff₀ h1 h2]
  constructor
  · intro h
    have : ((n1 * 2 ^ k2 : ℤ) : ℚ) < ((n2 * 2 ^ k1 : ℤ) : ℚ) := by exact_mod_cast h
    push_cast at this; exact this
  · intro h
    have : ((n1 * 2 ^ k2 : ℤ) : ℚ) < ((n2 * 2 ^ k1 : ℤ) : ℚ) := by push_cast; exact h
    exact_mod_cast this

/-- `Math.round` of a finite number is the integer `F` with `F ≤ x + 1/2 < F + 1`. -/
theorem mathRound_eq (n : ℤ) (k : ℕ) (F : ℤ) (h1 : (F : ℚ) ≤ (n : ℚ) / 2 ^ k + 1 / 2)
    (h2 : (n : ℚ) / 2 ^ k + 1 / 2 < F + 1) : mathRound (.fin n k) = .fin F 0 := by
  have hp : (0 : ℚ) < 2 ^ k := by positivity
  have hpz : (0 : ℤ) < 2 ^ (k + 1) := by positivity
  have e : (n : ℚ) / 2 ^ k + 1 / 2 = ((2 * n + 2 ^ k : ℤ) : ℚ) / ((2 ^ (k + 1) : ℤ) : ℚ) := by
    push_cast; rw [pow_succ]; field_simp; ring
  rw [e] at h1 h2
  have hq : (0 : ℚ) < ((2 ^ (k + 1) : ℤ) : ℚ) := by exact_mod_cast hpz
  rw [le_div_iff₀ hq] at h1
  rw [div_lt_iff₀ hq] at h2
  have g1 : F * 2 ^ (k + 1) ≤ 2 * n + 2 ^ k := by exact_mod_cast h1
  have g2 : 2 * n + 2 ^ k < (F + 1) * 2 ^ (k + 1) := by exact_mod_cast h2
  have : (2 * n + 2 ^ k) / 2 ^ (k + 1) = F := by
    apply le_antisymm
    · have := Int.ediv_lt_of_lt_mul hpz g2
      omega
    · exact Int.le_ediv_of_mul_le hpz g1
  show JSNum.fin ((2 * n + 2 ^ k) / 2 ^ (k + 1)) 0 = JSNum.fin F 0
  rw [this]

theorem jsDiv_nat (a b : ℕ) (hb : 0 < b) :
    jsDiv (.fin (a : ℤ) 0) (.fin (b : ℤ) 0) = fl (a : ℤ) b := by
  have hb0 : (b : ℤ) ≠ 0 := by omega
  have hs : (b : ℤ).sign = 1 := Int.sign_eq_one_of_pos (by omega)
  unfold jsDiv
  simp [hb0, hs]

theorem two_zpow_small : (2 : ℚ) ^ (-1022 : ℤ) ≤ 1 / 2048 := by
  have h : (2 : ℚ) ^ (-1022 : ℤ) ≤ 2 ^ (-11 : ℤ) := zpow_le_zpow_right₀ (by norm_num) (by norm_num)
  have e : (2 : ℚ) ^ (-11 : ℤ) = 1 / 2048 := by norm_num [zpow_neg]
  rw [e] at h; exact h

theorem mathRound_eq_nat (n : ℤ) (k : ℕ) (F : ℕ) (h1 : (F : ℚ) ≤ (n : ℚ) / 2 ^ k + 1 / 2)
    (h2 : (n : ℚ) / 2 ^ k + 1 / 2 < (F : ℚ) + 1) : mathRound (.fin n k) = .fin (F : ℤ) 0 :=
  mathRound_eq n k F (by rw [Int.cast_natCast]; exact h1) (by rw [Int.cast_natCast]; exact h2)

/-- The frame count in double arithmetic against exact rounding: the two agree
unless `durationMs * fps / 1000` lies exactly half-way between two integers. -/
theorem frameCount_spec (d fps : ℕ) (hd : 0 < d) (hf : 0 < fps) (hb : d * fps < 2 ^ 51) :
    ∃ F : ℕ, FRAME_COUNT (.fin (d : ℤ) 0) (.fin (fps : ℤ) 0) = .fin (F : ℤ) 0 ∧
      (d * fps % 1000 ≠ 500 → F = (2 * (d * fps) + 1000) / 2000) ∧
      (d * fps % 1000 = 500 → F = d * fps / 1000 ∨ F = d * fps / 1000 + 1) := by
  have hdq : (1 : ℚ) ≤ d := by exact_mod_cast hd
  have hfq : (1 : ℚ) ≤ fps := by exact_mod_cast hf
  have hXq : ((d : ℚ) * fps) < 2 ^ 51 := by exact_mod_cast hb
  have hdlt : (d : ℚ) < 2 ^ 51 := by nlinarith
  have hbig51 : (2 : ℚ) ^ (51 : ℕ) ≤ 2 ^ (1023 : ℕ) :=
    pow_le_pow_right₀ (by norm_num) (by norm_num)
  have hsmall := two_zpow_small
  -- the division
  obtain ⟨n1, k1, hfl1, -, herr1⟩ := fl_pos_spec (d : ℤ) 1000 (by omega) (by norm_num)
    (le_trans hsmall (by push_cast; rw [le_div_iff₀ (by norm_num)]; linarith))
    (lt_of_lt_of_le (by push_cast; rw [div_lt_iff₀ (by norm_num)]; linarith) hbig51)
  push_cast at herr1
  have hp1 : (0 : ℚ) < 2 ^ k1 := by positivity
  set y1 : ℚ := (n1 : ℚ) / 2 ^ k1 with hy1
  have hy1lo : (d : ℚ) / 1000 - (d : ℚ) / 1000 / 2 ^ 53 ≤ y1 := by
    have := (abs_le.1 herr1).1; linarith
  have hy1hi : y1 ≤ (d : ℚ) / 1000 + (d : ℚ) / 1000 / 2 ^ 53 := by
    have := (abs_le.1 herr1).2; linarith
  have hy1pos : (0 : ℚ) < y1 := by
    have : (0:ℚ) < (d : ℚ) / 1000 - (d : ℚ) / 1000 / 2 ^ 53 := by norm_num; linarith
    linarith
  have hn1 : 0 < n1 := by
    have : (0 : ℚ) < (n1 : ℚ) := by
      have := mul_pos hy1pos hp1
      rwa [hy1, div_mul_cancel₀ _ hp1.ne'] at this
    exact_mod_cast this
  -- the product
  have hx2 : ((n1 * (fps : ℤ) : ℤ) : ℚ) / ((2 ^ (k1 + 0) : ℕ) : ℚ) = y1 * fps := by
    push_cast; rw [hy1, add_zero]; field_simp
  obtain ⟨n, k, hfl2, -, herr2⟩ := fl_pos_spec (n1 * (fps : ℤ)) (2 ^ (k1 + 0))
    (by positivity) (by positivity)
    (by rw [hx2]
        have : (1:ℚ) / 2048 ≤ y1 * fps := by
          have h1 : (1:ℚ) / 2048 ≤ y1 := by norm_num at hy1lo ⊢; linarith
          nlinarith
        exact le_trans hsmall this)
    (by rw [hx2]
        have h1 : y1 * fps ≤ ((d : ℚ) / 1000 + (d : ℚ) / 1000 / 2 ^ 53) * fps :=
          mul_le_mul_of_nonneg_right hy1hi (by linarith)
        have h2 : ((d : ℚ) / 1000 + (d : ℚ) / 1000 / 2 ^ 53) * fps
            = (d * fps : ℚ) * (1 / 1000 + 1 / 1000 / 2 ^ 53) := by ring
        have h3 : (d * fps : ℚ) * (1 / 1000 + 1 / 1000 / 2 ^ 53) < 2 ^ 51 := by
          norm_num at hXq ⊢; linarith
        exact lt_of_le_of_lt (h2 ▸ h1) (lt_of_lt_of_le h3 hbig51))
  rw [hx2] at herr2
  set y : ℚ := (n : ℚ) / 2 ^ k with hy
  -- total error
  have hx1 : |y1 * fps - (d : ℚ) * fps / 1000| ≤ (d : ℚ) * fps / 1000 / 2 ^ 53 := by
    have e : y1 * fps - (d : ℚ) * fps / 1000 = (y1 - (d : ℚ) / 1000) * fps := by ring
    rw [e, abs_mul, abs_of_pos (by linarith : (0:ℚ) < fps)]
    have : (d : ℚ) * fps / 1000 / 2 ^ 53 = (d : ℚ) / 1000 / 2 ^ 53 * fps := by ring
    rw [this]
    exact mul_le_mul_of_nonneg_right herr1 (by linarith)
  have htot : |y - (d : ℚ) * fps / 1000| < 1 / 1000 := by
    have a1 := abs_le.1 hx1
    have a2 := abs_le.1 herr2
    rw [abs_lt]
    norm_num at a1 a2 hXq ⊢
    constructor <;> linarith
  have hfc : FRAME_COUNT (.fin (d : ℤ) 0) (.fin (fps : ℤ) 0) = mathRound (.fin n k) := by
    unfold FRAME_COUNT
    have e1000 : (JSNum.fin 1000 0) = JSNum.fin ((1000 : ℕ) : ℤ) 0 := rfl
    rw [e1000, jsDiv_nat d 1000 (by norm_num), hfl1]
    show mathRound (fl (n1 * (fps : ℤ)) (2 ^ (k1 + 0))) = _
    rw [hfl2]
  rw [hfc]
  have hlt := abs_lt.1 htot
  by_cases htie : d * fps % 1000 = 500
  · -- an exact tie
    have hq : ((d * fps / 1000 : ℕ) : ℚ) + 1 / 2 = (d : ℚ) * fps / 1000 := by
      have h1 : d * fps = 1000 * (d * fps / 1000) + 500 := by omega
      have h2 : ((d * fps : ℕ) : ℚ) = ((1000 * (d * fps / 1000) + 500 : ℕ) : ℚ) := by
        exact_mod_cast h1
      push_cast at h2
      rw [h2]; ring
    by_cases hup : ((d * fps / 1000 : ℕ) : ℚ) + 1 ≤ y + 1 / 2
    · refine ⟨d * fps / 1000 + 1, ?_, fun h => absurd htie h, fun _ => Or.inr rfl⟩
      apply mathRound_eq_nat
      · rw [Nat.cast_add, Nat.cast_one]; exact hup
      · rw [Nat.cast_add, Nat.cast_one]; linarith [hlt.2]
    · refine ⟨d * fps / 1000, ?_, fun h => absurd htie h, fun _ => Or.inl rfl⟩
      apply mathRound_eq_nat
      · linarith [hlt.1]
      · linarith [not_le.1 hup]
  · refine ⟨(2 * (d * fps) + 1000) / 2000, ?_, fun _ => rfl, fun h => absurd h htie⟩
    have g1 : 2000 * ((2 * (d * fps) + 1000) / 2000) + 2 ≤ 2 * (d * fps) + 1000 := by omega
    have g2 : 2 * (d * fps) + 1000 ≤ 2000 * ((2 * (d * fps) + 1000) / 2000) + 1998 := by omega
    have q1 : ((2000 * ((2 * (d * fps) + 1000) / 2000) + 2 : ℕ) : ℚ)
        ≤ ((2 * (d * fps) + 1000 : ℕ) : ℚ) := by exact_mod_cast g1
    have q2 : ((2 * (d * fps) + 1000 : ℕ) : ℚ)
        ≤ ((2000 * ((2 * (d * fps) + 1000) / 2000) + 1998 : ℕ) : ℚ) := by exact_mod_cast g2
    push_cast at q1 q2
    apply mathRound_eq_nat
    · linarith [hlt.1]
    · linarith [hlt.2]

theorem jsAdd_one (i : ℕ) (h : i + 1 ≤ 2 ^ 53) :
    jsAdd (.fin (i : ℤ) 0) (.fin 1 0) = .fin ((i + 1 : ℕ) : ℤ) 0 := by
  have e : ((i : ℤ) * 2 ^ 0 + 1 * 2 ^ 0) = ((i + 1 : ℕ) : ℤ) := by push_cast; ring
  have e2 : (2 : ℕ) ^ (0 + 0) = 1 := by norm_num
  show fl ((i : ℤ) * 2 ^ 0 + 1 * 2 ^ 0) (2 ^ (0 + 0)) = _
  rw [e, e2]
  apply fl_int
  rw [Int.natAbs_ofNat]; exact h

theorem jsLt_nat (i j : ℕ) : jsLt (.fin (i : ℤ) 0) (.fin (j : ℤ) 0) = decide (i < j) := by
  unfold jsLt
  simp

/-- The frame loop of a run in which no call fails, from the counter `i`. -/
theorem renderLoop_ok (w : World) (hw : ∀ e, w.fails e = false) (frameDir : Str) (fps : JSNum)
    (F : ℕ) (hF : F ≤ 2 ^ 53) :
    ∀ (m i fuel : ℕ), i + m = F → m < fuel →
      renderLoop w frameDir fps (.fin (F : ℤ) 0) fuel (.fin (i : ℤ) 0)
        = some (((List.range' i m).map (frameCalls w frameDir fps)).flatten, true) := by
  intro m
  induction m with
  | zero =>
    intro i fuel hi hfuel
    obtain ⟨f, rfl⟩ : ∃ f, fuel = f + 1 := ⟨fuel - 1, by omega⟩
    have : ¬ i < F := by omega
    simp [renderLoop, jsLt_nat, this]
  | succ m ih =>
    intro i fuel hi hfuel
    obtain ⟨f, rfl⟩ : ∃ f, fuel = f + 1 := ⟨fuel - 1, by omega⟩
    have hlt : i < F := by omega
    have hnext := ih (i + 1) f (by omega) (by omega)
    have hadd := jsAdd_one i (by omega)
    rw [renderLoop]
    simp only [jsLt_nat, hlt, decide_True, if_true, hw, Bool.false_eq_true, if_false, hadd, hnext]
    simp [List.range'_succ, frameCalls]

theorem playbackTimes_append (a b : List Event) :
    playbackTimes (a ++ b) = playbackTimes a ++ playbackTimes b := by
  induction a with
  | nil => rfl
  | cons e es ih => cases e <;> simp [playbackTimes, ih]

theorem playbackTimes_frames (w : World) (frameDir : Str) (fps : JSNum) (js : List ℕ) :
    playbackTimes ((js.map (frameCalls w frameDir fps)).flatten)
      = js.map (fun (j : ℕ) => jsDiv (.fin (j : ℤ) 0) fps) := by
  induction js with
  | nil => rfl
  | cons j js ih =>
    simp only [List.map_cons, List.flatten_cons, playbackTimes_append, ih]
    simp [frameCalls, playbackTimes]

theorem sample_lt (fps i j : ℕ) (hf : 0 < fps) (hfb : fps < 2 ^ 51) (hij : i < j)
    (hj : j < 2 ^ 51) :
    jsLt (jsDiv (.fin (i : ℤ) 0) (.fin (fps : ℤ) 0)) (jsDiv (.fin (j : ℤ) 0) (.fin (fps : ℤ) 0))
      = true := by
  have hsmall : (2 : ℚ) ^ (-1022 : ℤ) ≤ 1 / 2251799813685248 := by
    have h : (2 : ℚ) ^ (-1022 : ℤ) ≤ 2 ^ (-51 : ℤ) :=
      zpow_le_zpow_right₀ (by norm_num) (by norm_num)
    have e : (2 : ℚ) ^ (-51 : ℤ) = 1 / 2251799813685248 := by norm_num [zpow_neg]
    rw [e] at h; exact h
  have hfq : (1 : ℚ) ≤ fps := by exact_mod_cast hf
  have e51 : (2 : ℕ) ^ 51 = 2251799813685248 := by norm_num
  rw [e51] at hfb hj
  have hfq2 : (fps : ℚ) < 2251799813685248 := by exact_mod_cast hfb
  have hjq : (j : ℚ) < 2251799813685248 := by exact_mod_cast hj
  have q51 : (2 : ℚ) ^ (51 : ℕ) = 2251799813685248 := by norm_num
  have hijq : (i : ℚ) + 1 ≤ j := by exact_mod_cast hij
  have hi0 : (0 : ℚ) ≤ i := by positivity
  have hfpos : (0 : ℚ) < fps := by linarith
  have hbig51 : (2 : ℚ) ^ (51 : ℕ) ≤ 2 ^ (1023 : ℕ) :=
    pow_le_pow_right₀ (by norm_num) (by norm_num)
  have spec : ∀ m : ℕ, 0 < m → m < 2251799813685248 → ∃ (n : ℤ) (k : ℕ),
      jsDiv (.fin (m : ℤ) 0) (.fin (fps : ℤ) 0) = .fin n k ∧
      |(n : ℚ) / 2 ^ k - (m : ℚ) / fps| ≤ (m : ℚ) / fps / 2 ^ 53 := by
    intro m hm hmb
    have hmq : (1 : ℚ) ≤ m := by exact_mod_cast hm
    have hmq2 : (m : ℚ) < 2251799813685248 := by exact_mod_cast hmb
    obtain ⟨n, k, h1, -, h3⟩ := fl_pos_spec (m : ℤ) fps (by omega) hf
      (le_trans hsmall (by
        push_cast; rw [le_div_iff₀ hfpos]; linarith))
      (lt_of_lt_of_le (by
        push_cast; rw [div_lt_iff₀ hfpos, q51]; nlinarith) hbig51)
    refine ⟨n, k, ?_, ?_⟩
    · rw [jsDiv_nat m fps hf]; exact h1
    · push_cast at h3; exact h3
  obtain ⟨nj, kj, hj1, hj2⟩ := spec j (by omega) hj
  have hjlo := (abs_le.1 hj2).1
  rcases Nat.eq_zero_or_pos i with hi | hi
  · subst hi
    have h0 : jsDiv (.fin ((0 : ℕ) : ℤ) 0) (.fin (fps : ℤ) 0) = .fin 0 0 := by
      rw [jsDiv_nat 0 fps hf]; simp [fl]
    rw [h0, hj1, jsLt_fin]
    have hpos : (0 : ℚ) < (j : ℚ) / fps := div_pos (by linarith) hfpos
    have : (0 : ℚ) < (j : ℚ) / fps - (j : ℚ) / fps / 2 ^ 53 := by
      have : (j : ℚ) / fps / 2 ^ 53 < (j : ℚ) / fps := div_lt_self hpos (by norm_num)
      linarith
    simp only [Int.cast_zero, pow_zero, div_one]
    linarith
  · obtain ⟨ni, ki, hi1, hi2⟩ := spec i hi (by omega)
    have hihi := (abs_le.1 hi2).2
    rw [hi1, hj1, jsLt_fin]
    have key : ((i : ℚ) + (i : ℚ) / 2 ^ 53) / fps < ((j : ℚ) - (j : ℚ) / 2 ^ 53) / fps := by
      apply div_lt_div_of_pos_right _ hfpos
      have e53 : (2 : ℚ) ^ 53 = 9007199254740992 := by norm_num
      rw [e53]
      linarith
    have e1 : ((i : ℚ) + (i : ℚ) / 2 ^ 53) / fps = (i : ℚ) / fps + (i : ℚ) / fps / 2 ^ 53 := by
      field_simp
      ring
    have e2 : ((j : ℚ) - (j : ℚ) / 2 ^ 53) / fps = (j : ℚ) / fps - (j : ℚ) / fps / 2 ^ 53 := by
      field_simp
      ring
    rw [e1, e2] at key
    linarith

/-- C2 (counterexample): a duration of 1005 ms at 100 fps.  `1005 / 1000` is the
double `1131529406376837 / 2^50`, just below `1.005`; its product with `100`
rounds to the double `7072058789855231 / 2^46 = 100.49999999999998...`, which
`Math.round` takes to `100`, whereas `1005 * 100 / 1000 = 100.5` rounded to the
nearest integer, ties up, is `101`. -/
theorem frame_count_counterexample :
    jsDiv (.fin 1005 0) (.fin 1000 0) = .fin 1131529406376837 50 ∧
    jsMul (.fin 1131529406376837 50) (.fin 100 0) = .fin 7072058789855231 46 ∧
    FRAME_COUNT (.fin 1005 0) (.fin 100 0) = .fin 100 0 ∧
    (2 * (1005 * 100) + 1000) / 2000 = 101 := by
  refine ⟨by decide, by decide, by decide, by decide⟩

/-- C2 (amended): for positive integers `durationMs` and `fps` with
`durationMs * fps < 2^51`, `FRAME_COUNT` is a natural number `F`; `F` is
`durationMs * fps / 1000` rounded to the nearest integer whenever that quotient
is not exactly half-way between two integers, and one of its two neighbours
when it is; and in a run in which no call fails the frame loop ends (given
fuel for `F + 1` tests), having set the playback time exactly `F` times, the
`i`-th time to the double `i / fps`: a sequence that starts at `0` and is
strictly increasing. -/
theorem frame_count_and_sample_times (w : World) (frameDir : Str) (durationMs fps : ℕ)
    (hw : ∀ e, w.fails e = false) (hd : 0 < durationMs) (hf : 0 < fps)
    (hb : durationMs * fps < 2 ^ 51) :
    ∃ F : ℕ, FRAME_COUNT (.fin (durationMs : ℤ) 0) (.fin (fps : ℤ) 0) = .fin (F : ℤ) 0 ∧
      (durationMs * fps % 1000 ≠ 500 → F = (2 * (durationMs * fps) + 1000) / 2000) ∧
      (durationMs * fps % 1000 = 500 →
        F = durationMs * fps / 1000 ∨ F = durationMs * fps / 1000 + 1) ∧
      ∀ fuel, F < fuel →
        ∃ t, renderLoop w frameDir (.fin (fps : ℤ) 0) (.fin (F : ℤ) 0) fuel (.fin 0 0)
            = some (t, true) ∧
          playbackTimes t = (List.range F).map (fun (i : ℕ) => jsDiv (.fin (i : ℤ) 0) (.fin (fps : ℤ) 0)) ∧
          (0 < F → (playbackTimes t).head? = some (.fin 0 0)) ∧
          (playbackTimes t).Pairwise (fun a b => jsLt a b = true) := by
  obtain ⟨F, h1, h2, h3⟩ := frameCount_spec durationMs fps hd hf hb
  have hX : 1 ≤ durationMs * fps := Nat.mul_pos hd hf
  have hfb : fps < 2 ^ 51 := lt_of_le_of_lt (Nat.le_mul_of_pos_left fps hd) hb
  have hFX : F ≤ durationMs * fps := by
    by_cases htie : durationMs * fps % 1000 = 500
    · rcases h3 htie with h | h <;> omega
    · have := h2 htie; omega
  have e51 : (2 : ℕ) ^ 51 < 2 ^ 53 := by norm_num
  refine ⟨F, h1, h2, h3, ?_⟩
  intro fuel hfuel
  have hloop := renderLoop_ok w hw frameDir (.fin (fps : ℤ) 0) F (by omega) F 0 fuel
    (by omega) hfuel
  have htimes : playbackTimes ((List.map (frameCalls w frameDir (.fin (fps : ℤ) 0))
      (List.range' 0 F)).flatten)
      = (List.range F).map (fun (i : ℕ) => jsDiv (.fin (i : ℤ) 0) (.fin (fps : ℤ) 0)) := by
    rw [playbackTimes_frames, List.range_eq_range']
  refine ⟨_, hloop, htimes, ?_, ?_⟩
  · intro hF
    rw [htimes]
    obtain ⟨G, rfl⟩ : ∃ G, F = G + 1 := ⟨F - 1, by omega⟩
    have h00 : jsDiv (.fin ((0 : ℕ) : ℤ) 0) (.fin (fps : ℤ) 0) = .fin 0 0 := by
      rw [jsDiv_nat 0 fps hf]; simp [fl]
    rw [List.range_succ_eq_map]
    simp only [List.map_cons, List.head?_cons]
    exact congrArg some h00
  · rw [htimes, List.pairwise_map]
    apply List.Pairwise.imp_of_mem _ (List.pairwise_lt_range F)
    intro i j _ hj hij
    exact sample_lt fps i j hf hfb hij (by have := List.mem_range.1 hj; omega)

/-- C2 (witness): 2000 ms at 10 fps. -/
theorem frame_count_and_sample_times_witness :
    ∃ F : ℕ, FRAME_COUNT (.fin ((2000 : ℕ) : ℤ) 0) (.fin ((10 : ℕ) : ℤ) 0) = .fin (F : ℤ) 0 ∧
      (2000 * 10 % 1000 ≠ 500 → F = (2 * (2000 * 10) + 1000) / 2000) ∧
      (2000 * 10 % 1000 = 500 → F = 2000 * 10 / 1000 ∨ F = 2000 * 10 / 1000 + 1) ∧
      ∀ fuel, F < fuel →
        ∃ t, renderLoop quietWorld "frames".toList (.fin ((10 : ℕ) : ℤ) 0) (.fin (F : ℤ) 0) fuel
            (.fin 0 0) = some (t, true) ∧
          playbackTimes t
            = (List.range F).map (fun (i : ℕ) => jsDiv (.fin (i : ℤ) 0) (.fin ((10 : ℕ) : ℤ) 0)) ∧
          (0 < F → (playbackTimes t).head? = some (.fin 0 0)) ∧
          (playbackTimes t).Pairwise (fun a b => jsLt a b = true) :=
  frame_count_and_sample_times quietWorld "frames".toList 2000 10 (fun _ => rfl) (by decide)
    (by decide) (by norm_num)

theorem numToString_nat (txt : JSNum → Str) (n : ℕ) (h : n ≤ 2 ^ 53) :
    numToString txt (.fin (n : ℤ) 0) = natToDec n := by
  have hc : (0 : ℕ) = 0 ∧ (n : ℤ).natAbs ≤ 2 ^ 53 := ⟨rfl, by rw [Int.natAbs_ofNat]; exact h⟩
  have h1 : ¬ ((n : ℤ) < 0) := by omega
  show (if (0 : ℕ) = 0 ∧ (n : ℤ).natAbs ≤ 2 ^ 53
      then (if (n : ℤ) < 0 then ['-'] else []) ++ natToDec (n : ℤ).natAbs
      else txt (.fin (n : ℤ) 0)) = natToDec n
  rw [if_pos hc, if_neg h1, Int.natAbs_ofNat]; rfl

theorem apngLoop_pos (N : ℕ) (h0 : 0 < N) (h1 : N < 2 ^ 53) :
    apngLoop (.fin (N : ℤ) 0) = .fin ((N + 1 : ℕ) : ℤ) 0 := by
  unfold apngLoop strictEq
  have e1 : (JSNum.fin (N : ℤ) 0 == JSNum.fin (-1) 0) = false := by
    rw [beq_eq_false_iff_ne]; intro h; injection h with h _; omega
  have e2 : (JSNum.fin (N : ℤ) 0 == JSNum.fin 0 0) = false := by
    rw [beq_eq_false_iff_ne]; intro h; injection h with h _; omega
  simp only [e1, e2, Bool.and_false, Bool.false_eq_true, if_false]
  exact jsAdd_one N (by omega)

set_option maxRecDepth 100000 in
/-- C1 (counterexample): `--loop=9007199254740992` (`N = 2^53`).  `LOOP + 1` is
not representable and rounds back to `2^53`, so the APNG command carries
`-plays 9007199254740992`, not `-plays 9007199254740993`. -/
theorem loop_parameter_counterexample :
    LOOP ["--loop=9007199254740992".toList] = .fin 9007199254740992 0 ∧
    apngLoop (.fin 9007199254740992 0) = .fin 9007199254740992 0 ∧
    apngCmd (fun _ => []) (.fin 24 0) "frames".toList "out.apng".toList
        (.fin 9007199254740992 0)
      = "ffmpeg -y -framerate 24 -i frames/frame-%03d.png -plays 9007199254740992 out.apng".toList
    := by
  refine ⟨by decide, by decide, by decide⟩

/-- C1 (amended): the loop parameter of the encoder command.  For APNG it is
`-plays 1` when `loop = -1`, `-plays -1` when `loop = 0`, and `-plays N+1`
when `loop = N` with `0 < N < 2^53`; for GIF it is `-loop` followed by the
text of the caller's loop value, which is `-1`, `0` and `N` in decimal for
these values; the MOV and WEBM commands carry no loop parameter and are the
same for every loop value. -/
theorem loop_parameter_table (txt : JSNum → Str) (fps : JSNum) (frameDir output : Str) (N : ℕ)
    (h0 : 0 < N) (h1 : N < 2 ^ 53) :
    (encodeCalls txt "apng".toList fps frameDir output (.fin (-1) 0)
        = [.exec (ffmpegInput txt fps frameDir ++ " -plays 1 ".toList ++ output)] ∧
      encodeCalls txt "apng".toList fps frameDir output (.fin 0 0)
        = [.exec (ffmpegInput txt fps frameDir ++ " -plays -1 ".toList ++ output)] ∧
      encodeCalls txt "apng".toList fps frameDir output (.fin (N : ℤ) 0)
        = [.exec (ffmpegInput txt fps frameDir ++ " -plays ".toList ++ natToDec (N + 1)
            ++ " ".toList ++ output)]) ∧
    (∀ loop : JSNum, encodeCalls txt "gif".toList fps frameDir output loop
        = [.exec (gifPaletteCmd txt fps frameDir),
           .exec (ffmpegInput txt fps frameDir ++ " -i palette.png -lavfi \"fps=".toList
              ++ numToString txt fps
              ++ ",scale=iw:ih:flags=lanczos[x];[x][1:v]paletteuse=dither=none\" -loop ".toList
              ++ numToString txt loop ++ " ".toList ++ output),
           .rm "palette.png".toList]) ∧
    (numToString txt (.fin (-1) 0) = "-1".toList ∧ numToString txt (.fin 0 0) = "0".toList ∧
      numToString txt (.fin (N : ℤ) 0) = natToDec N) ∧
    (∀ loop : JSNum, encodeCalls txt "mov".toList fps frameDir output loop
        = [.exec (ffmpegInput txt fps frameDir
            ++ " -c:v prores_ks -profile:v 4444 -pix_fmt yuva444p10le ".toList ++ output)]) ∧
    (∀ loop : JSNum, encodeCalls txt "webm".toList fps frameDir output loop
        = [.exec (ffmpegInput txt fps frameDir
            ++ " -c:v libvpx-vp9 -pix_fmt yuva420p -auto-alt-ref 0 ".toList ++ output)]) := by
  have hfmt1 : ("apng".toList = "gif".toList) = False := by decide
  have hfmt2 : ("mov".toList = "gif".toList) = False := by decide
  have hfmt3 : ("mov".toList = "apng".toList) = False := by decide
  have hfmt4 : ("webm".toList = "gif".toList) = False := by decide
  have hfmt5 : ("webm".toList = "apng".toList) = False := by decide
  have hfmt6 : ("webm".toList = "mov".toList) = False := by decide
  have a1 : apngLoop (.fin (-1) 0) = .fin 1 0 := by decide
  have a2 : apngLoop (.fin 0 0) = .fin (-1) 0 := by decide
  have s1 : numToString txt (.fin 1 0) = "1".toList := by
    have := numToString_nat txt 1 (by norm_num); simpa using this
  have s2 : numToString txt (.fin (-1) 0) = "-1".toList := by
    unfold numToString; simp; decide
  have s3 : numToString txt (.fin 0 0) = "0".toList := by
    have := numToString_nat txt 0 (by norm_num); simpa using this
  refine ⟨⟨?_, ?_, ?_⟩, ?_, ⟨s2, s3, numToString_nat txt N (by omega)⟩, ?_, ?_⟩
  · simp only [encodeCalls, hfmt1, if_false, if_true, apngCmd, a1, s1, List.append_assoc]
    rfl
  · simp only [encodeCalls, hfmt1, if_false, if_true, apngCmd, a2, s2, List.append_assoc]
    rfl
  · simp only [encodeCalls, hfmt1, if_false, if_true, apngCmd, apngLoop_pos N h0 h1,
      numToString_nat txt (N + 1) (by omega), List.append_assoc]
  · intro loop
    simp only [encodeCalls, if_true, gifEncodeCmd, gifLoop, List.append_assoc]
  · intro loop
    simp only [encodeCalls, hfmt2, hfmt3, if_false, if_true, movCmd, List.append_assoc]
  · intro loop
    simp only [encodeCalls, hfmt4, hfmt5, hfmt6, if_false, if_true, webmCmd, List.append_assoc]

theorem loop_parameter_table_witness :
    (0 < 3 ∧ 3 < 2 ^ 53) ∧
    encodeCalls (fun _ => []) "apng".toList (.fin 24 0) "frames".toList "out.apng".toList
        (.fin ((3 : ℕ) : ℤ) 0)
      = [.exec "ffmpeg -y -framerate 24 -i frames/frame-%03d.png -plays 4 out.apng".toList] :=
  ⟨⟨by decide, by norm_num⟩,
   (loop_parameter_table (fun _ => []) (.fin 24 0) "frames".toList "out.apng".toList 3
      (by decide) (by norm_num)).1.2.2⟩

theorem radixDigit_digitChar (n : ℕ) (h : n < 10) : radixDigit (Nat.digitChar n) = some n := by
  interval_cases n <;> decide

theorem natOfDigits_append (R : ℕ) (a b : Str) :
    natOfDigits R (a ++ b) = b.foldl (fun acc c => acc * R + (radixDigit c).getD 0)
      (natOfDigits R a) := by
  unfold natOfDigits
  rw [List.foldl_append]

theorem natOfDigits_decDigits (f : ℕ) : ∀ n, n < f → natOfDigits 10 (decDigits f n) = n := by
  induction f with
  | zero => intro n h; omega
  | succ f ih =>
    intro n h
    unfold decDigits
    by_cases h10 : n < 10
    · simp only [h10, if_true]
      simp [natOfDigits, radixDigit_digitChar n h10]
    · simp only [h10, if_false]
      rw [natOfDigits_append, ih (n / 10) (by omega)]
      simp only [List.foldl_cons, List.foldl_nil,
        radixDigit_digitChar (n % 10) (Nat.mod_lt _ (by norm_num)), Option.getD_some]
      omega

/-- The decimal digits of a number read back as that number. -/
theorem natOfDigits_natToDec (n : ℕ) : natOfDigits 10 (natToDec n) = n :=
  natOfDigits_decDigits (n + 1) n (by omega)

theorem natOfDigits_zeros (k : ℕ) (s : Str) :
    natOfDigits 10 (List.replicate k '0' ++ s) = natOfDigits 10 s := by
  induction k with
  | zero => simp
  | succ k ih =>
    rw [List.replicate_succ, List.cons_append]
    unfold natOfDigits at ih ⊢
    rw [List.foldl_cons]
    have : (0 * 10 + (radixDigit '0').getD 0) = 0 := by decide
    rw [this]; exact ih

theorem padStart_zero (s : Str) : padStart s 3 "0".toList = zeroPad 3 s := by
  unfold padStart zeroPad
  by_cases h : 3 ≤ s.length
  · simp [h, Nat.sub_eq_zero_of_le h]
  · have hne : ¬ ("0".toList = []) := by decide
    simp only [h, hne, or_self, if_false]
    have : (List.replicate (3 - s.length) "0".toList).flatten
        = List.replicate (3 - s.length) '0' := by
      generalize 3 - s.length = k
      induction k with
      | zero => rfl
      | succ k ih => rw [List.replicate_succ, List.flatten_cons, ih]; rfl
    rw [this, List.take_of_length_le (by simp)]

theorem expandAux_plain (i : ℕ) (found : Bool) (rest : Str) :
    ∀ dir : Str, '%' ∉ dir →
      expandAux i (dir ++ rest) none found = (expandAux i rest none found).map (fun r => dir ++ r)
  | [], _ => by simp
  | c :: cs, h => by
    have hc : c ≠ '%' := fun e => h (by simp [e])
    have hcs : '%' ∉ cs := fun e => h (by simp [e])
    rw [List.cons_append, expandAux]
    simp only [hc, if_false, expandAux_plain i found rest cs hcs, Option.map_map]
    rfl

theorem expand_frame (i : ℕ) :
    expandPattern "/frame-%03d.png".toList i
      = some ("/frame-".toList ++ zeroPad 3 (natToDec i) ++ ".png".toList) := by
  simp [expandPattern, expandAux, isRadixDigit, radixDigit]

/-- The path frame `i` is written to is the directory, a slash, and the name
the pattern `frame-%03d.png` denotes for `i`; when the directory holds no
percent sign it is what the whole pattern denotes for `i`; and frames of
distinct indices are written to distinct paths. -/
theorem framePath_expand (txt : JSNum → Str) (frameDir : Str) (i : ℕ)
    (hi : i ≤ 2 ^ 53) :
    (expandPattern "frame-%03d.png".toList i).map (fun name => frameDir ++ "/".toList ++ name)
        = some (framePath txt frameDir (.fin (i : ℤ) 0)) ∧
    ('%' ∉ frameDir → expandPattern (frameDir ++ "/frame-%03d.png".toList) i
        = some (framePath txt frameDir (.fin (i : ℤ) 0))) ∧
    (∀ j : ℕ, j ≤ 2 ^ 53 →
      framePath txt frameDir (.fin (j : ℤ) 0) = framePath txt frameDir (.fin (i : ℤ) 0) →
      j = i) := by
  have hpath : ∀ k : ℕ, k ≤ 2 ^ 53 → framePath txt frameDir (.fin (k : ℤ) 0)
      = frameDir ++ ("/frame-".toList ++ zeroPad 3 (natToDec k) ++ ".png".toList) := by
    intro k hk
    unfold framePath
    rw [numToString_nat txt k hk, padStart_zero]
    simp only [List.append_assoc]
  refine ⟨?_, ?_, ?_⟩
  · rw [hpath i hi]
    simp [expandPattern, expandAux, isRadixDigit, radixDigit]
  · intro hdir
    rw [hpath i hi]
    unfold expandPattern
    rw [expandAux_plain i false _ frameDir hdir]
    have := expand_frame i
    unfold expandPattern at this
    rw [this]; rfl
  · intro j hj h
    rw [hpath i hi, hpath j hj] at h
    have h1 := List.append_cancel_left h
    have h2 : zeroPad 3 (natToDec j) = zeroPad 3 (natToDec i) := by
      have h3 : "/frame-".toList ++ (zeroPad 3 (natToDec j) ++ ".png".toList)
          = "/frame-".toList ++ (zeroPad 3 (natToDec i) ++ ".png".toList) := by
        simpa only [List.append_assoc] using h1
      exact List.append_cancel_right (List.append_cancel_left h3)
    have h4 := congrArg (natOfDigits 10) h2
    unfold zeroPad at h4
    rw [natOfDigits_zeros, natOfDigits_zeros, natOfDigits_natToDec, natOfDigits_natToDec] at h4
    exact h4

/-- C6: a run given an input and an output path whose extension is not a
supported format prints the unsupported-format message and exits with code 1;
that is all it does: the input is not read (`parseSVGMeta` is not called), no
directory is made, no frame is rendered and no encoder command is issued. -/
theorem unsupported_format_rejected (w : World) (argv : List Str) (fuel : ℕ) (input output : Str)
    (hin : truthyStr (argValue argv "input".toList) = some input)
    (hout : truthyStr (argValue argv "output".toList) = some output)
    (hfmt : FORMAT output ∉ SUPPORTED_FORMATS) :
    run w argv fuel = some ([.errUnsupported (FORMAT output)], .exit 1) := by
  unfold run
  rw [hin, hout]
  simp only [hfmt, not_false_eq_true, if_true]

/-- C6 (witness): `--input=a.svg --output=out.mp4`. -/
theorem unsupported_format_rejected_witness :
    FORMAT "out.mp4".toList ∉ SUPPORTED_FORMATS ∧
    run (worldOf twoSecondDoc []) ["--input=a.svg".toList, "--output=out.mp4".toList] 0
      = some ([.errUnsupported "mp4".toList], .exit 1) :=
  ⟨by decide,
   unsupported_format_rejected (worldOf twoSecondDoc [])
     ["--input=a.svg".toList, "--output=out.mp4".toList] 0 "a.svg".toList "out.mp4".toList
     (by decide) (by decide) (by decide)⟩

/-- C7: a run with a supported output format and no `duration` argument, on
a readable document that has an `svg` root and no `animate`, `set` or
`animateTransform` element, reads the document, prints the message that no
duration could be inferred and exits with code 1; it makes no directory,
captures no frame and issues no encoder command. -/
theorem no_duration_fails (w : World) (argv : List Str) (fuel : ℕ) (input output : Str)
    (doc : Doc) (svg : Element)
    (hin : truthyStr (argValue argv "input".toList) = some input)
    (hout : truthyStr (argValue argv "output".toList) = some output)
    (hfmt : FORMAT output ∈ SUPPORTED_FORMATS)
    (hdur : argValue argv "duration".toList = none)
    (hdoc : w.readDoc input = some doc) (hsvg : doc.svg = some svg)
    (hanim : doc.animEls = []) :
    run w argv fuel = some ([.readFile input, .errDuration], .exit 1) := by
  have hd : DURATION_MS argv (inferDuration []) = none := by
    unfold DURATION_MS
    rw [hdur]
    have h1 : truthy (parseInt (strOf none) (some 10)) = false := by decide
    have h2 : inferDuration [] = none := by decide
    simp only [h1, h2, Bool.false_eq_true, if_false]
  unfold run
  rw [hin, hout]
  simp only [hfmt, not_true_eq_false, if_false, hdoc, parseSVGMeta, hsvg, hanim, hd]

/-- C7 (witness): `--input=a.svg --output=out.gif` on a still document. -/
theorem no_duration_fails_witness :
    run (worldOf stillDoc []) ["--input=a.svg".toList, "--output=out.gif".toList] 5
      = some ([.readFile "a.svg".toList, .errDuration], .exit 1) :=
  no_duration_fails (worldOf stillDoc []) ["--input=a.svg".toList, "--output=out.gif".toList] 5
    "a.svg".toList "out.gif".toList stillDoc
    ⟨"svg".toList, [("viewBox".toList, "0 0 100 100".toList)]⟩
    (by decide) (by decide) (by decide) (by decide) rfl (by decide) (by decide)

theorem perform_cons (w : World) (e : Event) (es : List Event) :
    perform w (e :: es) = if w.fails e = true then ([e], false)
      else ((e :: (perform w es).1), (perform w es).2) := rfl

theorem perform_append (w : World) (a b : List Event) :
    perform w (a ++ b) = if (perform w a).2 = true
      then ((perform w a).1 ++ (perform w b).1, (perform w b).2) else perform w a := by
  induction a with
  | nil => simp [perform]
  | cons e es ih =>
    rw [List.cons_append, perform_cons, perform_cons]
    by_cases he : w.fails e = true
    · simp [he]
    · simp only [he, Bool.false_eq_true, if_false, ih]
      by_cases h2 : (perform w es).2 = true <;> simp [h2]

theorem perform_ok (w : World) (l : List Event) (h : (perform w l).2 = true) :
    (perform w l).1 = l := by
  induction l with
  | nil => rfl
  | cons e es ih =>
    rw [perform_cons] at h ⊢
    by_cases he : w.fails e = true
    · simp [he] at h
    · simp only [he, Bool.false_eq_true, if_false] at h ⊢
      rw [ih h]

theorem perform_mem (w : World) (l : List Event) : ∀ e ∈ (perform w l).1, e ∈ l := by
  induction l with
  | nil => intro e he; simp [perform] at he
  | cons x xs ih =>
    intro e he
    rw [perform_cons] at he
    by_cases hx : w.fails x = true
    · simp only [hx, if_true, List.mem_singleton] at he
      simp [he]
    · simp only [hx, Bool.false_eq_true, if_false, List.mem_cons] at he
      rcases he with h | h
      · simp [h]
      · exact List.mem_cons_of_mem _ (ih e h)

theorem perform_fail (w : World) (l : List Event) (h : (perform w l).2 = false) :
    ∃ t e, (perform w l).1 = t ++ [e] ∧ w.fails e = true ∧ e ∈ l := by
  induction l with
  | nil => simp [perform] at h
  | cons x xs ih =>
    rw [perform_cons] at h ⊢
    by_cases hx : w.fails x = true
    · exact ⟨[], x, by simp [hx], hx, by simp⟩
    · simp only [hx, Bool.false_eq_true, if_false] at h ⊢
      obtain ⟨t, e, h1, h2, h3⟩ := ih h
      exact ⟨x :: t, e, by rw [h1]; rfl, h2, List.mem_cons_of_mem _ h3⟩

/-- The calls of the frame loop are settings of the time and captures, and a
loop that stops early stops at the call that failed. -/
theorem renderLoop_shape (w : World) (frameDir : Str) (fps frameCount : JSNum) :
    ∀ (fuel : ℕ) (i : JSNum) (t : List Event) (ok : Bool),
      renderLoop w frameDir fps frameCount fuel i = some (t, ok) →
      (∀ e ∈ t, ∀ p, e ≠ .rm p) ∧
      (ok = false → ∃ t2 e, t = t2 ++ [e] ∧ w.fails e = true) := by
  intro fuel
  induction fuel with
  | zero => intro i t ok h; simp [renderLoop] at h
  | succ f ih =>
    intro i t ok h
    rw [renderLoop] at h
    by_cases hlt : jsLt i frameCount = true
    · simp only [hlt, if_true] at h
      by_cases h1 : w.fails (.setCurrentTime (jsDiv i fps)) = true
      · simp only [h1, if_true, Option.some.injEq, Prod.mk.injEq] at h
        obtain ⟨rfl, rfl⟩ := h
        refine ⟨?_, fun _ => ⟨[], _, rfl, h1⟩⟩
        intro e he p; simp at he; subst he; simp
      · simp only [h1, Bool.false_eq_true, if_false] at h
        by_cases h2 : w.fails (.screenshot (framePath w.numText frameDir i)) = true
        · simp only [h2, if_true, Option.some.injEq, Prod.mk.injEq] at h
          obtain ⟨rfl, rfl⟩ := h
          refine ⟨?_, fun _ => ⟨[.setCurrentTime (jsDiv i fps)], _, rfl, h2⟩⟩
          intro e he p; simp at he; rcases he with rfl | rfl <;> simp
        · simp only [h2, Bool.false_eq_true, if_false] at h
          cases hr : renderLoop w frameDir fps frameCount f (jsAdd i (.fin 1 0)) with
          | none => simp [hr] at h
          | some r =>
            obtain ⟨t', ok'⟩ := r
            simp only [hr, Option.some.injEq, Prod.mk.injEq] at h
            obtain ⟨rfl, rfl⟩ := h
            obtain ⟨g1, g2⟩ := ih _ _ _ hr
            refine ⟨?_, ?_⟩
            · intro e he p
              simp only [List.mem_cons] at he
              rcases he with rfl | rfl | he
              · simp
              · simp
              · exact g1 e he p
            · intro hok
              obtain ⟨t2, e, rfl, he⟩ := g2 hok
              exact ⟨_ :: _ :: t2, e, rfl, he⟩
    · simp only [hlt, Bool.false_eq_true, if_false, Option.some.injEq, Prod.mk.injEq] at h
      obtain ⟨rfl, rfl⟩ := h
      exact ⟨by simp, by simp⟩


theorem encode_split (txt : JSNum → Str) (format : Str) (fps : JSNum) (frameDir output : Str)
    (loop : JSNum) :
    ∃ A B, Event.close :: encodeCalls txt format fps frameDir output loop ++ [.rm frameDir]
        = A ++ B ∧ (∀ x ∈ A, ∀ p, x ≠ Event.rm p) ∧ (∀ x ∈ B, ∃ p, x = Event.rm p) := by
  unfold encodeCalls
  split_ifs
  · exact ⟨[.close, .exec (gifPaletteCmd txt fps frameDir),
        .exec (gifEncodeCmd txt fps frameDir output loop)],
      [.rm "palette.png".toList, .rm frameDir], rfl, by simp, by simp⟩
  · exact ⟨[.close, .exec (apngCmd txt fps frameDir output loop)], [.rm frameDir], rfl,
      by simp, by simp⟩
  · exact ⟨[.close, .exec (movCmd txt fps frameDir output)], [.rm frameDir], rfl,
      by simp, by simp⟩
  · exact ⟨[.close, .exec (webmCmd txt fps frameDir output)], [.rm frameDir], rfl,
      by simp, by simp⟩
  · exact ⟨[.close], [.rm frameDir], rfl, by simp, by simp⟩

theorem perform_rm_tail (w : World) (A B : List Event)
    (hA : ∀ x ∈ A, ∀ p, x ≠ Event.rm p) (hB : ∀ x ∈ B, ∃ p, x = Event.rm p)
    (t : List Event) (e : Event) (ht : (perform w (A ++ B)).1 = t ++ [e])
    (hf : (perform w (A ++ B)).2 = false) (he : ∀ p, e ≠ Event.rm p) :
    ∀ x ∈ (perform w (A ++ B)).1, ∀ p, x ≠ Event.rm p := by
  rw [perform_append] at ht hf ⊢
  by_cases hok : (perform w A).2 = true
  · simp only [hok, if_true] at ht hf ⊢
    obtain ⟨tb, eb, h1, -, h3⟩ := perform_fail w B hf
    rw [h1, ← List.append_assoc] at ht
    have : eb = e := by
      have := congrArg List.getLast? ht
      simpa using this
    obtain ⟨p, hp⟩ := hB eb h3
    exact absurd (this ▸ hp) (he p)
  · simp only [hok, Bool.false_eq_true, if_false]
    intro x hx
    exact hA x (perform_mem w A x hx)

/-- The shape of a finished run of `main`: it starts by making the frame
directory and ends either fulfilled, the removal of the frame directory being
the last external call, or rejected, the last call made being the one that
failed; and if that call is not itself a removal, no removal was attempted. -/
theorem main_shape (w : World) (c : Config) (fuel : ℕ) (t : List Event)
    (o : Outcome) (h : main w c fuel = some (t, o)) :
    t.head? = some (.mkdir c.frameDir) ∧
    (o = .completed ∨ o = .rejected) ∧
    (o = .completed → ∃ t2, t = t2 ++ [.rm c.frameDir, .logSaved c.format c.output]) ∧
    (o = .rejected → ∃ t2 e, t = t2 ++ [e, .logError] ∧ w.fails e = true ∧
      ((∀ p, e ≠ Event.rm p) → ∀ p, Event.rm p ∉ t)) := by
  unfold main at h
  have hpre : ∀ x ∈ [Event.mkdir c.frameDir, .launch, .newPage, .setViewport c.width c.height,
      .goto c.input], ∀ p, x ≠ Event.rm p := by
    intro x hx p; simp at hx; rcases hx with rfl | rfl | rfl | rfl | rfl <;> simp
  have hhead : ∀ l : List Event, ((perform w (Event.mkdir c.frameDir :: l)).1).head?
      = some (.mkdir c.frameDir) := by
    intro l; rw [perform_cons]; by_cases hx : w.fails (.mkdir c.frameDir) = true <;> simp [hx]
  cases h1 : perform w [Event.mkdir c.frameDir, .launch, .newPage,
      .setViewport c.width c.height, .goto c.input] with
  | mk t1 b1 =>
  have hh1 := hhead [.launch, .newPage, .setViewport c.width c.height, .goto c.input]
  rw [h1] at h hh1
  have hmem1 := perform_mem w [Event.mkdir c.frameDir, .launch, .newPage,
      .setViewport c.width c.height, .goto c.input]
  rw [h1] at hmem1
  simp only at hh1 hmem1
  have hhd : ∀ rest : List Event, (t1 ++ rest).head? = some (.mkdir c.frameDir) := by
    intro rest
    cases t1 with
    | nil => simp at hh1
    | cons x xs => simpa using hh1
  cases b1 with
  | false =>
    simp only [Option.some.injEq, Prod.mk.injEq] at h
    obtain ⟨rfl, rfl⟩ := h
    have hf := perform_fail w [Event.mkdir c.frameDir, .launch, .newPage,
      .setViewport c.width c.height, .goto c.input] (by rw [h1])
    rw [h1] at hf
    obtain ⟨t2, e, h2, h3, -⟩ := hf
    simp only at h2
    refine ⟨hhd _, Or.inr rfl, fun hc => (by cases hc), fun _ => ⟨t2, e, ?_, h3, ?_⟩⟩
    · rw [h2]; simp
    · intro _ p hp
      simp only [List.mem_append, List.mem_singleton] at hp
      rcases hp with hp | hp
      · exact hpre _ (hmem1 _ hp) p rfl
      · cases hp
  | true =>
    simp only at h
    cases h2 : renderLoop w c.frameDir c.fps c.frameCount fuel (.fin 0 0) with
    | none => simp [h2] at h
    | some r =>
      obtain ⟨t2, b2⟩ := r
      obtain ⟨g1, g2⟩ := renderLoop_shape w c.frameDir c.fps c.frameCount fuel _ t2 b2 h2
      rw [h2] at h
      cases b2 with
      | false =>
        simp only [Option.some.injEq, Prod.mk.injEq] at h
        obtain ⟨rfl, rfl⟩ := h
        obtain ⟨t3, e, rfl, he⟩ := g2 rfl
        refine ⟨by rw [List.append_assoc]; exact hhd _, Or.inr rfl, fun hc => (by cases hc),
          fun _ => ⟨t1 ++ t3, e, by simp, he, ?_⟩⟩
        intro _ p hp
        simp only [List.mem_append, List.mem_singleton] at hp
        rcases hp with (hp | hp) | hp
        · exact hpre _ (hmem1 _ hp) p rfl
        · exact g1 _ (by simpa using hp) p rfl
        · cases hp
      | true =>
        simp only at h
        obtain ⟨A, B, hAB, hA, hB⟩ := encode_split w.numText c.format c.fps c.frameDir c.output
          c.loop
        cases h3 : perform w (Event.close :: encodeCalls w.numText c.format c.fps c.frameDir
            c.output c.loop ++ [.rm c.frameDir]) with
        | mk t3 b3 =>
        rw [h3] at h
        cases b3 with
        | false =>
          simp only [Option.some.injEq, Prod.mk.injEq] at h
          obtain ⟨rfl, rfl⟩ := h
          have hf := perform_fail w _ (show (perform w (Event.close :: encodeCalls w.numText
            c.format c.fps c.frameDir c.output c.loop ++ [.rm c.frameDir])).2 = false by rw [h3])
          rw [h3] at hf
          obtain ⟨t4, e, h4, h5, -⟩ := hf
          simp only at h4
          refine ⟨by rw [List.append_assoc, List.append_assoc]; exact hhd _, Or.inr rfl,
            fun hc => (by cases hc), fun _ => ⟨t1 ++ t2 ++ t4, e, by rw [h4]; simp, h5, ?_⟩⟩
          intro he p hp
          have htail := perform_rm_tail w A B hA hB t4 e (by rw [← hAB, h3]; exact h4)
            (by rw [← hAB, h3]) he
          rw [← hAB, h3] at htail
          simp only [List.mem_append, List.mem_singleton] at hp
          rcases hp with ((hp | hp) | hp) | hp
          · exact hpre _ (hmem1 _ hp) p rfl
          · exact g1 _ hp p rfl
          · exact htail _ hp p rfl
          · cases hp
        | true =>
          simp only [Option.some.injEq, Prod.mk.injEq] at h
          obtain ⟨rfl, rfl⟩ := h
          have hok := perform_ok w _ (show (perform w (Event.close :: encodeCalls w.numText
            c.format c.fps c.frameDir c.output c.loop ++ [.rm c.frameDir])).2 = true by rw [h3])
          rw [h3] at hok
          simp only at hok
          refine ⟨by rw [List.append_assoc, List.append_assoc]; exact hhd _, Or.inl rfl,
            fun _ => ⟨t1 ++ t2 ++ (Event.close :: encodeCalls w.numText c.format c.fps
              c.frameDir c.output c.loop), (by rw [hok]; simp)⟩, fun hc => (by cases hc)⟩

set_option maxRecDepth 100000 in
/-- C9 (counterexample): two runs that made the frame directory and never
attempted to remove it: in the first the capture of frame 1 fails, in the
second the encoder command fails. -/
theorem cleanup_counterexample :
    run (worldOf twoSecondDoc [.screenshot "frames/frame-001.png".toList])
        ["--input=a.svg".toList, "--output=out.gif".toList, "--fps=2".toList] 10
      = some ([.readFile "a.svg".toList, .mkdir "frames".toList, .launch, .newPage,
          .setViewport (.fin 100 0) (.fin 100 0), .goto "a.svg".toList,
          .setCurrentTime (.fin 0 0), .screenshot "frames/frame-000.png".toList,
          .setCurrentTime (.fin 1 1), .screenshot "frames/frame-001.png".toList,
          .logError], .rejected) ∧
    run (worldOf twoSecondDoc
          [.exec "ffmpeg -y -framerate 1 -i frames/frame-%03d.png -plays -1 out.apng".toList])
        ["--input=a.svg".toList, "--output=out.apng".toList, "--fps=1".toList] 10
      = some ([.readFile "a.svg".toList, .mkdir "frames".toList, .launch, .newPage,
          .setViewport (.fin 100 0) (.fin 100 0), .goto "a.svg".toList,
          .setCurrentTime (.fin 0 0), .screenshot "frames/frame-000.png".toList,
          .setCurrentTime (.fin 1 0), .screenshot "frames/frame-001.png".toList,
          .close,
          .exec "ffmpeg -y -framerate 1 -i frames/frame-%03d.png -plays -1 out.apng".toList,
          .logError], .rejected) := by
  refine ⟨by decide, by decide⟩

theorem encodeCalls_no_screenshot (txt : JSNum → Str) (format : Str) (fps : JSNum)
    (frameDir output : Str) (loop : JSNum) (p : Str) :
    Event.screenshot p ∉ encodeCalls txt format fps frameDir output loop := by
  unfold encodeCalls
  split_ifs <;> simp

theorem main_zero_frames (w : World) (c : Config) (fuel : ℕ) (h0 : c.frameCount = .fin 0 0) :
    main w c (fuel + 1) =
      some ((perform w ([.mkdir c.frameDir, .launch, .newPage, .setViewport c.width c.height,
          .goto c.input, .close] ++ encodeCalls w.numText c.format c.fps c.frameDir c.output
            c.loop ++ [.rm c.frameDir])).1
          ++ [if (perform w ([.mkdir c.frameDir, .launch, .newPage,
              .setViewport c.width c.height, .goto c.input, .close]
              ++ encodeCalls w.numText c.format c.fps c.frameDir c.output c.loop
              ++ [.rm c.frameDir])).2 = true
            then .logSaved c.format c.output else .logError],
        if (perform w ([.mkdir c.frameDir, .launch, .newPage, .setViewport c.width c.height,
            .goto c.input, .close] ++ encodeCalls w.numText c.format c.fps c.frameDir c.output
              c.loop ++ [.rm c.frameDir])).2 = true
          then .completed else .rejected) := by
  have hl : renderLoop w c.frameDir c.fps c.frameCount (fuel + 1) (.fin 0 0) = some ([], true) := by
    rw [renderLoop, h0]
    have : jsLt (.fin 0 0) (.fin 0 0) = false := by decide
    simp [this]
  have hsplit : [Event.mkdir c.frameDir, .launch, .newPage, .setViewport c.width c.height,
      .goto c.input, .close] ++ encodeCalls w.numText c.format c.fps c.frameDir c.output c.loop
      ++ [.rm c.frameDir]
      = [Event.mkdir c.frameDir, .launch, .newPage, .setViewport c.width c.height,
        .goto c.input] ++ (.close :: encodeCalls w.numText c.format c.fps c.frameDir c.output
          c.loop ++ [.rm c.frameDir]) := by simp
  rw [hsplit, perform_append]
  unfold main
  rw [hl]
  cases h1 : perform w [Event.mkdir c.frameDir, .launch, .newPage,
      .setViewport c.width c.height, .goto c.input] with
  | mk t1 b1 =>
  cases b1 with
  | false => simp
  | true =>
    simp only [if_true, List.append_nil]
    cases h3 : perform w (Event.close :: encodeCalls w.numText c.format c.fps c.frameDir
        c.output c.loop ++ [.rm c.frameDir]) with
    | mk t3 b3 =>
    cases b3 <;> simp

set_option maxRecDepth 100000 in
/-- C8 (counterexample): a duration of 10 ms at 24 fps gives a frame count of
0; the run captures no frame, yet it issues the encoder command, and with no
call failing it ends fulfilled. -/
theorem zero_frames_counterexample :
    FRAME_COUNT (.fin 10 0) (.fin 24 0) = .fin 0 0 ∧
    run (worldOf twoSecondDoc [])
        ["--input=a.svg".toList, "--output=out.webm".toList, "--duration=10".toList] 1
      = some ([.readFile "a.svg".toList, .mkdir "frames".toList, .launch, .newPage,
          .setViewport (.fin 100 0) (.fin 100 0), .goto "a.svg".toList, .close,
          .exec ("ffmpeg -y -framerate 24 -i frames/frame-%03d.png -c:v libvpx-vp9 "
            ++ "-pix_fmt yuva420p -auto-alt-ref 0 out.webm").toList,
          .rm "frames".toList, .logSaved "webm".toList "out.webm".toList], .completed) := by
  refine ⟨by decide, by decide⟩

theorem encodeCalls_exec (txt : JSNum → Str) (format : Str) (fps : JSNum)
    (frameDir output : Str) (loop : JSNum) (hfmt : format ∈ SUPPORTED_FORMATS) :
    ∃ cmd, Event.exec cmd ∈ encodeCalls txt format fps frameDir output loop := by
  have hfmt1 : ("apng".toList = "gif".toList) = False := by decide
  have hfmt2 : ("mov".toList = "gif".toList) = False := by decide
  have hfmt3 : ("mov".toList = "apng".toList) = False := by decide
  have hfmt4 : ("webm".toList = "gif".toList) = False := by decide
  have hfmt5 : ("webm".toList = "apng".toList) = False := by decide
  have hfmt6 : ("webm".toList = "mov".toList) = False := by decide
  simp only [SUPPORTED_FORMATS, List.mem_cons, List.mem_singleton, List.not_mem_nil,
    or_false] at hfmt
  unfold encodeCalls
  rcases hfmt with h | h | h | h <;> rw [h]
  · exact ⟨gifPaletteCmd txt fps frameDir, by simp⟩
  · exact ⟨apngCmd txt fps frameDir output loop, by simp only [hfmt1, if_false, if_true]; simp⟩
  · exact ⟨movCmd txt fps frameDir output,
      by simp only [hfmt2, hfmt3, if_false, if_true]; simp⟩
  · exact ⟨webmCmd txt fps frameDir output,
      by simp only [hfmt4, hfmt5, hfmt6, if_false, if_true]; simp⟩

/-- C8 (amended): in a run that reaches `main` with a frame count of 0, the
calls planned are the set-up, the closing of the browser, the encoder calls
of the format and the removal of the frame directory, with no frame capture
among them; the run performs them up to the first that fails, and ends
fulfilled when none fails and rejected otherwise: the frame count of 0 is no
failure, and the encoder is invoked as for any other frame count. -/
theorem zero_frames_still_encodes (w : World) (argv : List Str) (fuel : ℕ) (input output : Str)
    (doc : Doc) (m : SVGMeta) (d : JSNum)
    (hin : truthyStr (argValue argv "input".toList) = some input)
    (hout : truthyStr (argValue argv "output".toList) = some output)
    (hfmt : FORMAT output ∈ SUPPORTED_FORMATS)
    (hdoc : w.readDoc input = some doc) (hmeta : parseSVGMeta doc = some m)
    (hd : DURATION_MS argv m.durationMs = some d) (htr : truthy d = true)
    (h0 : FRAME_COUNT d (FPS argv) = .fin 0 0) :
    (∀ p, Event.screenshot p ∉ callsWithoutFrames w.numText (configOf argv input output m d)) ∧
    (∃ cmd, Event.exec cmd ∈ callsWithoutFrames w.numText (configOf argv input output m d)) ∧
    run w argv (fuel + 1) =
      some (.readFile input ::
          (perform w (callsWithoutFrames w.numText (configOf argv input output m d))).1
          ++ [if (perform w (callsWithoutFrames w.numText (configOf argv input output m d))).2
              = true then .logSaved (FORMAT output) output else .logError],
        if (perform w (callsWithoutFrames w.numText (configOf argv input output m d))).2 = true
          then .completed else .rejected) := by
  refine ⟨?_, ?_, ?_⟩
  · intro p hp
    unfold callsWithoutFrames at hp
    rw [List.mem_append, List.mem_append] at hp
    rcases hp with (hp | hp) | hp
    · simp at hp
    · exact encodeCalls_no_screenshot _ _ _ _ _ _ p hp
    · simp at hp
  · obtain ⟨cmd, hcmd⟩ := encodeCalls_exec w.numText (FORMAT output) (FPS argv) (FRAME_DIR argv)
      output (LOOP argv) hfmt
    refine ⟨cmd, ?_⟩
    unfold callsWithoutFrames
    rw [List.mem_append, List.mem_append]
    exact Or.inl (Or.inr hcmd)
  · have hm := main_zero_frames w (configOf argv input output m d) fuel h0
    unfold run
    rw [hin, hout]
    simp only [hfmt, not_true_eq_false, if_false, hdoc, hmeta, hd, htr, Bool.not_true,
      Bool.false_eq_true]
    have hcfg : (⟨input, output, FORMAT output, FPS argv, FRAME_DIR argv, LOOP argv, m.width,
        m.height, FRAME_COUNT d (FPS argv)⟩ : Config) = configOf argv input output m d := rfl
    rw [hcfg, hm]
    rfl

set_option maxRecDepth 100000 in
/-- C8 (witness): `--duration=10` at the default 24 fps, to a GIF. -/
theorem zero_frames_still_encodes_witness :
    run (worldOf twoSecondDoc [])
        ["--input=a.svg".toList, "--output=out.gif".toList, "--duration=10".toList] 1
      = some ([.readFile "a.svg".toList, .mkdir "frames".toList, .launch, .newPage,
          .setViewport (.fin 100 0) (.fin 100 0), .goto "a.svg".toList, .close,
          .exec (gifPaletteCmd (fun _ => []) (.fin 24 0) "frames".toList),
          .exec (gifEncodeCmd (fun _ => []) (.fin 24 0) "frames".toList "out.gif".toList
            (.fin 0 0)),
          .rm "palette.png".toList, .rm "frames".toList,
          .logSaved "gif".toList "out.gif".toList], .completed) :=
  (zero_frames_still_encodes (worldOf twoSecondDoc [])
    ["--input=a.svg".toList, "--output=out.gif".toList, "--duration=10".toList] 0
    "a.svg".toList "out.gif".toList twoSecondDoc
    ⟨.fin 100 0, .fin 100 0, some (.fin 2000 0)⟩ (.fin 10 0)
    (by decide) (by decide) (by decide) rfl (by decide) (by decide) (by decide)
    (by decide)).2.2.trans (by decide)

/-- The Number value of an integer is an integer or an infinity. -/
theorem fl_int_shape (z : ℤ) : (∃ n : ℤ, fl z 1 = .fin n 0) ∨ ∃ b, fl z 1 = .inf b := by
  unfold fl
  by_cases hz : z = 0
  · exact Or.inl ⟨0, by simp [hz]⟩
  · simp only [hz, false_or, one_ne_zero, if_false]
    unfold flPos
    by_cases hs : 0 ≤ max (ilog2 z.natAbs 1) (-1022) - 52
    · simp only [hs, if_true]
      split_ifs
      · exact Or.inr ⟨_, rfl⟩
      · exact Or.inl ⟨_, rfl⟩
    · simp only [hs, if_false]
      rw [roundHalfEven_one, signed_mul]
      have := normDyadic_mul_pow (-(max (ilog2 z.natAbs 1) (-1022) - 52)).toNat
        (signed (decide (z < 0)) z.natAbs)
      push_cast
      exact Or.inl ⟨_, this⟩

theorem parseInt_shape (s : Str) (radix : Option ℕ) :
    parseInt s radix = .nan ∨ ∃ z : ℤ, parseInt s radix = fl z 1 := by
  unfold parseInt
  simp only []
  split_ifs <;> first | exact Or.inl rfl | exact Or.inr ⟨_, rfl⟩

theorem orNum_shape (x : JSNum) (d : ℤ) (hd : d ≠ 0)
    (hx : x = .nan ∨ ∃ z : ℤ, x = fl z 1) :
    (∃ n : ℤ, n ≠ 0 ∧ orNum x (.fin d 0) = .fin n 0) ∨ ∃ b, orNum x (.fin d 0) = .inf b := by
  unfold orNum
  rcases hx with rfl | ⟨z, rfl⟩
  · exact Or.inl ⟨d, hd, by simp [truthy]⟩
  · rcases fl_int_shape z with ⟨n, hn⟩ | ⟨b, hb⟩
    · rw [hn]
      by_cases h0 : n = 0
      · subst h0; exact Or.inl ⟨d, hd, by simp [truthy]⟩
      · exact Or.inl ⟨n, h0, by simp [truthy, h0]⟩
    · rw [hb]; exact Or.inr ⟨b, by simp [truthy]⟩

/-- C5 (counterexample): `viewBox="0 0 0 0"` gives a width and a height of 0,
and, without a `viewBox`, `width="-5"` gives a width of -5. -/
theorem geometry_counterexample :
    parseSVGMeta ⟨[⟨"svg".toList, [("viewBox".toList, "0 0 0 0".toList)]⟩]⟩
      = some ⟨.fin 0 0, .fin 0 0, none⟩ ∧
    isPositiveInteger (.fin 0 0) = false ∧
    parseSVGMeta ⟨[⟨"svg".toList, [("width".toList, "-5".toList), ("height".toList, "480".toList)]⟩]⟩
      = some ⟨.fin (-5) 0, .fin 480 0, none⟩ ∧
    isPositiveInteger (.fin (-5) 0) = false := by
  refine ⟨by decide, by decide, by decide, by decide⟩

/-- C5 (amended): for every `svg` root element without a `viewBox` (absent or
empty), the width and the height returned are each a non-zero integer or an
infinity, never `NaN` or 0; they are 1920 and 1080 when the `width` and the
`height` attribute are absent. -/
theorem geometry_without_viewBox (svg : Element)
    (hvb : svg.getAttribute "viewBox".toList = none
      ∨ svg.getAttribute "viewBox".toList = some []) :
    ((∃ n : ℤ, n ≠ 0 ∧ (geometry svg).1 = .fin n 0) ∨ ∃ b, (geometry svg).1 = .inf b) ∧
    ((∃ n : ℤ, n ≠ 0 ∧ (geometry svg).2 = .fin n 0) ∨ ∃ b, (geometry svg).2 = .inf b) ∧
    (svg.getAttribute "width".toList = none → (geometry svg).1 = .fin 1920 0) ∧
    (svg.getAttribute "height".toList = none → (geometry svg).2 = .fin 1080 0) := by
  have hg : geometry svg
      = (orNum (parseInt (strOf (svg.getAttribute "width".toList)) none) (.fin 1920 0),
         orNum (parseInt (strOf (svg.getAttribute "height".toList)) none) (.fin 1080 0)) := by
    unfold geometry
    rcases hvb with h | h <;> rw [h]
  rw [hg]
  refine ⟨orNum_shape _ 1920 (by norm_num) (parseInt_shape _ _),
    orNum_shape _ 1080 (by norm_num) (parseInt_shape _ _), ?_, ?_⟩
  · intro h; simp only [h]; decide
  · intro h; simp only [h]; decide

set_option maxRecDepth 100000 in
/-- C5 (witness): `width="640px"` and no `height`. -/
theorem geometry_without_viewBox_witness :
    geometry ⟨"svg".toList, [("width".toList, "640px".toList)]⟩ = (.fin 640 0, .fin 1080 0) ∧
    (Element.getAttribute ⟨"svg".toList, [("width".toList, "640px".toList)]⟩ "height".toList = none →
      (geometry ⟨"svg".toList, [("width".toList, "640px".toList)]⟩).2 = .fin 1080 0) :=
  ⟨by decide,
   (geometry_without_viewBox ⟨"svg".toList, [("width".toList, "640px".toList)]⟩ (Or.inl (by decide))).2.2.2⟩

theorem dropWhile_ws_append (ws r : Str) (h : ∀ c ∈ ws, isWhiteSpace c = true) :
    (ws ++ r).dropWhile isWhiteSpace = r.dropWhile isWhiteSpace := by
  induction ws with
  | nil => rfl
  | cons c cs ih =>
    have hc : isWhiteSpace c = true := h c (by simp)
    rw [List.cons_append, List.dropWhile_cons, if_pos hc]
    exact ih (fun x hx => h x (by simp [hx]))

theorem dropWhile_component (s r : Str) (h : isComponent s) :
    (s ++ r).dropWhile isWhiteSpace = s ++ r := by
  obtain ⟨hne, hall⟩ := h
  cases s with
  | nil => exact absurd rfl hne
  | cons c cs =>
    have hc : isWhiteSpace c = false := hall c (by simp)
    rw [List.cons_append, List.dropWhile_cons]
    simp [hc]

theorem isComponent_reverse (s : Str) (h : isComponent s) : isComponent s.reverse :=
  ⟨by simpa using h.1, fun c hc => h.2 c (by simpa using hc)⟩

/-- `trim` strips the white space around a text that starts and ends with a
component. -/
theorem trim_components (ws0 first mid last ws4 : Str) (h0 : ∀ c ∈ ws0, isWhiteSpace c = true)
    (h4 : ∀ c ∈ ws4, isWhiteSpace c = true) (hf : isComponent first) (hl : isComponent last) :
    trim (ws0 ++ (first ++ mid ++ last) ++ ws4) = first ++ mid ++ last := by
  unfold trim trimStart
  rw [List.append_assoc, dropWhile_ws_append _ _ h0, List.append_assoc, List.append_assoc,
    dropWhile_component _ _ hf]
  have e : (first ++ (mid ++ (last ++ ws4))).reverse
      = ws4.reverse ++ (last.reverse ++ (first ++ mid).reverse) := by
    simp [List.reverse_append, List.append_assoc]
  rw [e, dropWhile_ws_append _ _ (fun c hc => h4 c (by simpa using hc)),
    dropWhile_component _ _ (isComponent_reverse _ hl)]
  simp [List.reverse_append, List.append_assoc]

theorem splitWSAux_component (s : Str) (hs : isComponent s) (r cur : Str) (b : Bool) :
    splitWSAux (s ++ r) cur b = splitWSAux r (s.reverse ++ cur) false := by
  obtain ⟨hne, hall⟩ := hs
  induction s generalizing cur b with
  | nil => exact absurd rfl hne
  | cons c cs ih =>
    have hc : isWhiteSpace c = false := hall c (by simp)
    rw [List.cons_append, splitWSAux]
    simp only [hc, Bool.false_eq_true, if_false]
    cases cs with
    | nil => simp
    | cons d ds =>
      rw [ih _ _ (by simp) (fun x hx => hall x (List.mem_cons_of_mem _ hx))]
      simp

theorem splitWSAux_ws (ws : Str) (h : ∀ c ∈ ws, isWhiteSpace c = true) (r cur : Str) :
    splitWSAux (ws ++ r) cur true = splitWSAux r cur true := by
  induction ws with
  | nil => rfl
  | cons c cs ih =>
    have hc : isWhiteSpace c = true := h c (by simp)
    rw [List.cons_append, splitWSAux]
    simp only [hc, if_true]
    exact ih (fun x hx => h x (by simp [hx]))

theorem splitWSAux_separator (ws : Str) (h : isSeparator ws) (r cur : Str) :
    splitWSAux (ws ++ r) cur false = cur.reverse :: splitWSAux r [] true := by
  obtain ⟨hne, hall⟩ := h
  cases ws with
  | nil => exact absurd rfl hne
  | cons c cs =>
    have hc : isWhiteSpace c = true := hall c (by simp)
    rw [List.cons_append, splitWSAux]
    simp only [hc, if_true, Bool.false_eq_true, if_false]
    rw [splitWSAux_ws cs (fun x hx => hall x (by simp [hx]))]

theorem splitWS_four (c1 ws1 c2 ws2 c3 ws3 c4 : Str) (t1 : isComponent c1) (t2 : isComponent c2)
    (t3 : isComponent c3) (t4 : isComponent c4) (s1 : isSeparator ws1) (s2 : isSeparator ws2)
    (s3 : isSeparator ws3) :
    splitWS (c1 ++ (ws1 ++ c2 ++ ws2 ++ c3 ++ ws3) ++ c4) = [c1, c2, c3, c4] := by
  unfold splitWS
  have e : c1 ++ (ws1 ++ c2 ++ ws2 ++ c3 ++ ws3) ++ c4
      = c1 ++ (ws1 ++ (c2 ++ (ws2 ++ (c3 ++ (ws3 ++ (c4 ++ [])))))) := by
    simp [List.append_assoc]
  rw [e, splitWSAux_component c1 t1, splitWSAux_separator ws1 s1, splitWSAux_component c2 t2,
    splitWSAux_separator ws2 s2, splitWSAux_component c3 t3, splitWSAux_separator ws3 s3,
    splitWSAux_component c4 t4]
  simp [splitWSAux]

/-- With a `viewBox` of four components separated by white space (with any
white space around them), `geometry` applies `mathRound` to the third and
the fourth component read as numbers, whatever the other attributes are. -/
theorem geometry_viewBox (svg : Element) (ws0 c1 ws1 c2 ws2 c3 ws3 c4 ws4 : Str)
    (hvb : svg.getAttribute "viewBox".toList
      = some (ws0 ++ (c1 ++ (ws1 ++ c2 ++ ws2 ++ c3 ++ ws3) ++ c4) ++ ws4))
    (h0 : ∀ c ∈ ws0, isWhiteSpace c = true) (h4 : ∀ c ∈ ws4, isWhiteSpace c = true)
    (t1 : isComponent c1) (t2 : isComponent c2) (t3 : isComponent c3) (t4 : isComponent c4)
    (s1 : isSeparator ws1) (s2 : isSeparator ws2) (s3 : isSeparator ws3) :
    geometry svg = (mathRound (toNumber c3), mathRound (toNumber c4)) := by
  have hne : ws0 ++ (c1 ++ (ws1 ++ c2 ++ ws2 ++ c3 ++ ws3) ++ c4) ++ ws4 ≠ [] := by
    have := t1.1
    simp [this]
  obtain ⟨x, xs, hx⟩ := List.exists_cons_of_ne_nil hne
  unfold geometry
  rw [hvb, hx]
  simp only []
  rw [← hx, trim_components ws0 c1 _ c4 ws4 h0 h4 t1 t4,
    splitWS_four c1 ws1 c2 ws2 c3 ws3 c4 t1 t2 t3 t4 s1 s2 s3]
  rfl

theorem fl_ne_nan (num : ℤ) (den : ℕ) : fl num den ≠ .nan := by
  unfold fl
  split_ifs
  · simp
  · unfold flPos
    simp only []
    split_ifs
    · simp
    · simp
    · obtain ⟨n2, k2, h, -, -⟩ := normDyadic_spec
        (-(max (ilog2 num.natAbs den) (-1022) - 52)).toNat
        (signed (decide (num < 0)) (roundHalfEven
          (num.natAbs * 2 ^ (-(max (ilog2 num.natAbs den) (-1022) - 52)).toNat) den))
      rw [h]; simp

theorem jsAdd_fin_ne_nan (n1 : ℤ) (k1 : ℕ) (n2 : ℤ) (k2 : ℕ) :
    jsAdd (.fin n1 k1) (.fin n2 k2) ≠ .nan := fl_ne_nan _ _

theorem jsLt_irrefl (a : JSNum) : jsLt a a = false := by
  cases a with
  | nan => rfl
  | inf b => cases b <;> rfl
  | fin n k => simp [jsLt]

theorem jsLt_asymm (a b : JSNum) (h : jsLt a b = true) : jsLt b a = false := by
  cases a with
  | nan => simp [jsLt] at h
  | inf x =>
    cases b with
    | nan => simp [jsLt] at h
    | inf y => cases x <;> cases y <;> simp_all [jsLt]
    | fin n k => cases x <;> simp_all [jsLt]
  | fin n1 k1 =>
    cases b with
    | nan => simp [jsLt] at h
    | inf y => cases y <;> simp_all [jsLt]
    | fin n2 k2 =>
      rw [jsLt_fin] at h
      rw [Bool.eq_false_iff]
      intro h2
      rw [jsLt_fin] at h2
      exact absurd h (not_lt.2 h2.le)

theorem jsLt_false_trans (a b c : JSNum) (hb : b ≠ .nan) (h1 : jsLt a b = false)
    (h2 : jsLt b c = false) : jsLt a c = false := by
  cases a with
  | nan => simp [jsLt]
  | inf x =>
    cases c with
    | nan => cases x <;> rfl
    | inf z =>
      cases b with
      | nan => exact absurd rfl hb
      | inf y => cases x <;> cases y <;> cases z <;> simp_all [jsLt]
      | fin n k => cases x <;> cases z <;> simp_all [jsLt]
    | fin n3 k3 =>
      cases b with
      | nan => exact absurd rfl hb
      | inf y => cases x <;> cases y <;> simp_all [jsLt]
      | fin n k => cases x <;> simp_all [jsLt]
  | fin n1 k1 =>
    cases c with
    | nan => rfl
    | inf z =>
      cases b with
      | nan => exact absurd rfl hb
      | inf y => cases y <;> cases z <;> simp_all [jsLt]
      | fin n k => cases z <;> simp_all [jsLt]
    | fin n3 k3 =>
      cases b with
      | nan => exact absurd rfl hb
      | inf y => cases y <;> simp_all [jsLt]
      | fin n2 k2 =>
        rw [Bool.eq_false_iff] at h1 h2 ⊢
        rw [Ne, jsLt_fin] at h1 h2 ⊢
        exact not_lt.2 (le_trans (not_lt.1 h2) (not_lt.1 h1))

/-- The loop over the timed elements returns the greatest of the initial value
and the ends, when none of them is `NaN`. -/
theorem maxTimeLoop_spec (els : List Element) (hnn : ∀ el ∈ els, endOf el ≠ .nan) :
    ∀ m0, m0 ≠ .nan →
      maxTimeLoop els m0 ≠ .nan ∧ jsLt (maxTimeLoop els m0) m0 = false ∧
      (∀ el ∈ els, jsLt (maxTimeLoop els m0) (endOf el) = false) ∧
      (maxTimeLoop els m0 = m0 ∨ ∃ el ∈ els, maxTimeLoop els m0 = endOf el) := by
  induction els with
  | nil =>
    intro m0 h0
    exact ⟨h0, jsLt_irrefl m0, by simp, Or.inl rfl⟩
  | cons e es ih =>
    intro m0 h0
    have he : endOf e ≠ .nan := hnn e (by simp)
    have hnan1 : isNaN (endOf e) = false := by
      cases h : endOf e with
      | nan => exact absurd h he
      | inf b => rfl
      | fin n k => rfl
    have hnan0 : isNaN m0 = false := by
      cases h : m0 with
      | nan => exact absurd h h0
      | inf b => rfl
      | fin n k => rfl
    rw [maxTimeLoop]
    simp only [hnan1, Bool.not_false, if_true]
    have hm1 : mathMax m0 (endOf e) = if jsLt m0 (endOf e) = true then endOf e else m0 := by
      unfold mathMax; simp [hnan0, hnan1]
    rw [hm1]
    by_cases hlt : jsLt m0 (endOf e) = true
    · simp only [hlt, if_true]
      obtain ⟨g1, g2, g3, g4⟩ := ih (fun el hel => hnn el (by simp [hel])) (endOf e) he
      refine ⟨g1, jsLt_false_trans _ _ _ he g2 (jsLt_asymm _ _ hlt), ?_, ?_⟩
      · intro el hel
        simp only [List.mem_cons] at hel
        rcases hel with rfl | hel
        · exact g2
        · exact g3 el hel
      · rcases g4 with g | ⟨el, hel, g⟩
        · exact Or.inr ⟨e, by simp, g⟩
        · exact Or.inr ⟨el, by simp [hel], g⟩
    · simp only [hlt, Bool.false_eq_true, if_false]
      have hlt' : jsLt m0 (endOf e) = false := by simpa using hlt
      obtain ⟨g1, g2, g3, g4⟩ := ih (fun el hel => hnn el (by simp [hel])) m0 h0
      refine ⟨g1, g2, ?_, ?_⟩
      · intro el hel
        simp only [List.mem_cons] at hel
        rcases hel with rfl | hel
        · exact jsLt_false_trans _ _ _ h0 g2 hlt'
        · exact g3 el hel
      · rcases g4 with g | ⟨el, hel, g⟩
        · exact Or.inl g
        · exact Or.inr ⟨el, by simp [hel], g⟩

/-- For timed elements whose `begin` and `dur` are finite, `inferDuration`
applies `mathRound` to the product by 1000 of an end that no other end
exceeds when some end is greater than 0, and gives `none` otherwise. -/
theorem inferDuration_max (els : List Element)
    (hfin : ∀ el ∈ els, (∃ n k, beginOf el = .fin n k) ∧ (∃ n k, durOf el = .fin n k)) :
    ((∃ el ∈ els, jsGt (endOf el) (.fin 0 0) = true) →
      ∃ el ∈ els, (∀ el2 ∈ els, jsLt (endOf el) (endOf el2) = false) ∧
        inferDuration els = some (mathRound (jsMul (endOf el) (.fin 1000 0)))) ∧
    ((∀ el ∈ els, jsGt (endOf el) (.fin 0 0) = false) → inferDuration els = none) ∧
    inferDuration [] = none := by
  have hnn : ∀ el ∈ els, endOf el ≠ .nan := by
    intro el hel
    obtain ⟨⟨n1, k1, h1⟩, ⟨n2, k2, h2⟩⟩ := hfin el hel
    unfold endOf
    rw [h1, h2]
    exact jsAdd_fin_ne_nan _ _ _ _
  obtain ⟨g1, g2, g3, g4⟩ := maxTimeLoop_spec els hnn (.fin 0 0) (by simp)
  refine ⟨?_, ?_, by decide⟩
  · rintro ⟨el, hel, hpos⟩
    have hr : jsLt (.fin 0 0) (maxTimeLoop els (.fin 0 0)) = true := by
      by_contra hc
      have hc' : jsLt (.fin 0 0) (maxTimeLoop els (.fin 0 0)) = false := by simpa using hc
      have := jsLt_false_trans _ _ _ g1 hc' (g3 el hel)
      unfold jsGt at hpos
      rw [hpos] at this
      cases this
    rcases g4 with g | ⟨el', hel', g⟩
    · rw [g, jsLt_irrefl] at hr; cases hr
    · refine ⟨el', hel', ?_, ?_⟩
      · intro el2 hel2
        rw [← g]; exact g3 el2 hel2
      · unfold inferDuration jsGt
        rw [g] at hr
        simp only [g, hr, if_true]
  · intro hall
    have hr : jsLt (.fin 0 0) (maxTimeLoop els (.fin 0 0)) = false := by
      rcases g4 with g | ⟨el', hel', g⟩
      · rw [g]; exact jsLt_irrefl _
      · rw [g]; exact hall el' hel'
    unfold inferDuration jsGt
    simp only [hr, Bool.false_eq_true, if_false]

/-! ## The end of a run and the removal of the frame directory -/

/-- The frame loop ends: with a frame count that `F` (at most `2^53`) is not
less than, more than `F - i` tests of the condition from the counter `i` give
a result. -/
theorem renderLoop_total (w : World) (frameDir : Str) (fps frameCount : JSNum) (F : ℕ)
    (hF : F ≤ 2 ^ 53) (hc : jsLt (.fin (F : ℤ) 0) frameCount = false) :
    ∀ (fuel i : ℕ), i ≤ F → F - i < fuel →
      ∃ r, renderLoop w frameDir fps frameCount fuel (.fin (i : ℤ) 0) = some r := by
  intro fuel
  induction fuel with
  | zero => intro i _ h; omega
  | succ f ih =>
    intro i hi hfuel
    rw [renderLoop]
    by_cases hlt : jsLt (.fin (i : ℤ) 0) frameCount = true
    · have hiF : i < F := by
        by_contra hcon
        have h1 : jsLt (.fin (i : ℤ) 0) (.fin (F : ℤ) 0) = false := by
          rw [jsLt_nat]; simpa using hcon
        have := jsLt_false_trans _ _ _ (by simp) h1 hc
        rw [hlt] at this; cases this
      obtain ⟨r, hr⟩ := ih (i + 1) (by omega) (by omega)
      rw [← jsAdd_one i (by omega)] at hr
      simp only [hlt, if_true, hr]
      split_ifs <;> exact ⟨_, rfl⟩
    · simp only [hlt, Bool.false_eq_true, if_false]
      exact ⟨_, rfl⟩

theorem main_total (w : World) (c : Config) (F fuel : ℕ) (hF : F ≤ 2 ^ 53)
    (hc : jsLt (.fin (F : ℤ) 0) c.frameCount = false) (hfuel : F < fuel) :
    ∃ r, main w c fuel = some r := by
  obtain ⟨⟨t2, b2⟩, hr⟩ := renderLoop_total w c.frameDir c.fps c.frameCount F hF hc fuel 0
    (Nat.zero_le _) (by omega)
  have hr0 : renderLoop w c.frameDir c.fps c.frameCount fuel (.fin 0 0) = some (t2, b2) := hr
  unfold main
  rw [hr0]
  cases h1 : perform w [Event.mkdir c.frameDir, .launch, .newPage,
      .setViewport c.width c.height, .goto c.input] with
  | mk t1 b1 =>
  cases b1 with
  | false => exact ⟨_, rfl⟩
  | true =>
    cases b2 with
    | false => exact ⟨_, rfl⟩
    | true =>
      simp only
      cases h3 : perform w (Event.close :: encodeCalls w.numText c.format c.fps c.frameDir
          c.output c.loop ++ [.rm c.frameDir]) with
      | mk t3 b3 =>
      cases b3 <;> exact ⟨_, rfl⟩

/-- C9 (amended): a run of `main` whose frame count is not greater than a
number `F` of at most `2^53` ends (the frame loop needs no more than `F + 1`
tests of its condition).  It starts by making the frame directory and ends
either fulfilled or rejected.  It is fulfilled when none of its calls fails,
and then the removal of the frame directory is the last external call.  When
it is rejected, the last call made is the one that failed, and if that call
is not itself a removal (a frame capture, an encoder command, ...) no removal
was attempted at all: the frame directory is left behind. -/
theorem cleanup_only_on_success (w : World) (c : Config) (F fuel : ℕ) (hF : F ≤ 2 ^ 53)
    (hc : jsLt (.fin (F : ℤ) 0) c.frameCount = false) (hfuel : F < fuel) :
    ∃ t o, main w c fuel = some (t, o) ∧
      t.head? = some (.mkdir c.frameDir) ∧
      (o = .completed ∨ o = .rejected) ∧
      ((∀ e ∈ t, w.fails e = false) → o = .completed) ∧
      (o = .completed → ∃ t2, t = t2 ++ [.rm c.frameDir, .logSaved c.format c.output]) ∧
      (o = .rejected → ∃ t2 e, t = t2 ++ [e, .logError] ∧ w.fails e = true ∧
        ((∀ p, e ≠ Event.rm p) → ∀ p, Event.rm p ∉ t)) := by
  obtain ⟨⟨t, o⟩, h⟩ := main_total w c F fuel hF hc hfuel
  obtain ⟨g1, g2, g3, g4⟩ := main_shape w c fuel t o h
  refine ⟨t, o, h, g1, g2, ?_, g3, g4⟩
  intro hall
  rcases g2 with g | g
  · exact g
  · obtain ⟨t2, e, ht, he, -⟩ := g4 g
    have := hall e (by rw [ht]; simp)
    rw [he] at this; cases this

set_option maxRecDepth 100000 in
/-- C9 (witness): `main` on `sampleConfig` (one frame, to a GIF) when no call
fails: the run is fulfilled and ends with the removal of the frame directory. -/
theorem cleanup_only_on_success_witness :
    main quietWorld sampleConfig 2 = some (sampleTrace, .completed) ∧
    sampleTrace.getLast? = some (.logSaved "gif".toList "out.gif".toList) ∧
    sampleTrace.dropLast.getLast? = some (.rm "frames".toList) ∧
    (∃ t o, main quietWorld sampleConfig 2 = some (t, o) ∧
      t.head? = some (.mkdir sampleConfig.frameDir) ∧
      (o = .completed ∨ o = .rejected) ∧
      ((∀ e ∈ t, quietWorld.fails e = false) → o = .completed) ∧
      (o = .completed → ∃ t2, t = t2 ++ [.rm sampleConfig.frameDir,
        .logSaved sampleConfig.format sampleConfig.output]) ∧
      (o = .rejected → ∃ t2 e, t = t2 ++ [e, .logError] ∧ quietWorld.fails e = true ∧
        ((∀ p, e ≠ Event.rm p) → ∀ p, Event.rm p ∉ t))) :=
  ⟨by decide, by decide, by decide,
   cleanup_only_on_success quietWorld sampleConfig 1 2 (by norm_num) (by decide) (by norm_num)⟩

/-! ## The frames the encoder reads -/

theorem writtenPaths_append (a b : List Event) :
    writtenPaths (a ++ b) = writtenPaths a ++ writtenPaths b := by
  induction a with
  | nil => rfl
  | cons e es ih => cases e <;> simp [writtenPaths, ih]

theorem writtenPaths_frames (w : World) (frameDir : Str) (fps : JSNum) (js : List ℕ) :
    writtenPaths ((js.map (frameCalls w frameDir fps)).flatten)
      = js.map (fun (j : ℕ) => framePath w.numText frameDir (.fin (j : ℤ) 0)) := by
  induction js with
  | nil => rfl
  | cons j js ih =>
    simp only [List.map_cons, List.flatten_cons, writtenPaths_append, ih]
    rfl

/-- The path of the frame of index `k`, for `k` up to `2^53`. -/
theorem framePath_nat (txt : JSNum → Str) (frameDir : Str) (k : ℕ) (hk : k ≤ 2 ^ 53) :
    framePath txt frameDir (.fin (k : ℤ) 0)
      = frameDir ++ ("/frame-".toList ++ zeroPad 3 (natToDec k) ++ ".png".toList) := by
  unfold framePath
  rw [numToString_nat txt k hk, padStart_zero]
  simp only [List.append_assoc]

/-- The name the pattern of the encoder denotes, for a directory without a
percent sign. -/
theorem expandPattern_dir (frameDir : Str) (hdir : '%' ∉ frameDir) (n : ℕ) :
    expandPattern (frameDir ++ "/frame-%03d.png".toList) n
      = some (frameDir ++ ("/frame-".toList ++ zeroPad 3 (natToDec n) ++ ".png".toList)) := by
  unfold expandPattern
  rw [expandAux_plain n false _ frameDir hdir]
  have := expand_frame n
  unfold expandPattern at this
  rw [this]; rfl

theorem frameName_inj (frameDir : Str) (i j : ℕ)
    (h : frameDir ++ ("/frame-".toList ++ zeroPad 3 (natToDec j) ++ ".png".toList)
      = frameDir ++ ("/frame-".toList ++ zeroPad 3 (natToDec i) ++ ".png".toList)) : j = i := by
  have h1 := List.append_cancel_left h
  have h2 : zeroPad 3 (natToDec j) = zeroPad 3 (natToDec i) := by
    have h3 : "/frame-".toList ++ (zeroPad 3 (natToDec j) ++ ".png".toList)
        = "/frame-".toList ++ (zeroPad 3 (natToDec i) ++ ".png".toList) := by
      simpa only [List.append_assoc] using h1
    exact List.append_cancel_right (List.append_cancel_left h3)
  have h4 := congrArg (natOfDigits 10) h2
  unfold zeroPad at h4
  rw [natOfDigits_zeros, natOfDigits_zeros, natOfDigits_natToDec, natOfDigits_natToDec] at h4
  exact h4

/-- The search for a later frame when exactly the frames below `F` exist. -/
theorem probeRange_spec (F last : ℕ) (hF : F ≤ 2 ^ 30) :
    ∀ (steps range : ℕ), (range = 0 ∨ last + range < F) →
      (range = 0 → 31 ≤ steps) → (range ≠ 0 → 2 ^ 30 ≤ range * 2 ^ steps) →
      ∃ r, probeRange (fun n => decide (n < F)) last steps range = some r ∧
        (r = 0 → F ≤ last + 1) ∧ (r ≠ 0 → last + r < F) := by
  intro steps
  induction steps with
  | zero =>
    intro range h1 h2 h3
    rcases Nat.eq_zero_or_pos range with h0 | h0
    · have := h2 h0; omega
    · have := h3 (by omega)
      rcases h1 with h1 | h1
      · omega
      · omega
  | succ s ih =>
    intro range h1 h2 h3
    rw [probeRange]
    by_cases hex : last + (if range = 0 then 1 else 2 * range) < F
    · have hcap : ¬ (2 ^ 30 ≤ (if range = 0 then 1 else 2 * range)) := by omega
      simp only [hex, decide_True, if_true, hcap, if_false]
      apply ih
      · exact Or.inr hex
      · intro h; split_ifs at h; omega
      · intro _
        by_cases h0 : range = 0
        · have := h2 h0
          simp only [h0, if_true, one_mul]
          exact Nat.pow_le_pow_right (by norm_num) (by omega)
        · have := h3 h0
          simp only [h0, if_false]
          rw [pow_succ] at this
          calc 2 ^ 30 ≤ range * (2 ^ s * 2) := this
            _ = 2 * range * 2 ^ s := by ring
    · simp only [hex, decide_False, Bool.false_eq_true, if_false]
      refine ⟨range, rfl, ?_, ?_⟩
      · intro h0; simp only [h0, if_true] at hex; omega
      · intro h0; rcases h1 with h1 | h1
        · exact absurd h1 h0
        · exact h1

/-- The search for the last frame when exactly the frames below `F` exist. -/
theorem findLast_spec (F : ℕ) (hF : F ≤ 2 ^ 30) :
    ∀ (fuel last : ℕ), last < F → F - last ≤ fuel →
      findLast (fun n => decide (n < F)) fuel last = some (some (F - 1)) := by
  intro fuel
  induction fuel with
  | zero => intro last h1 h2; omega
  | succ f ih =>
    intro last h1 h2
    obtain ⟨r, hr, g1, g2⟩ := probeRange_spec F last hF 31 0 (Or.inl rfl) (fun _ => le_rfl)
      (fun h => absurd rfl h)
    rw [findLast, hr]
    cases r with
    | zero =>
      have := g1 rfl
      have : last = F - 1 := by omega
      simp [this]
    | succ r =>
      have := g2 (by omega)
      simp only
      exact ih _ this (by omega)


/-- The files the encoder reads when the written frames are those of the
indices below `F` and the directory holds no percent sign. -/
theorem framesRead_written (txt : JSNum → Str) (frameDir : Str) (hdir : '%' ∉ frameDir)
    (F fuel : ℕ) (hF0 : 0 < F) (hF : F ≤ 2 ^ 30) (hfuel : F < fuel) :
    framesRead (fun p => decide (p ∈ (List.range F).map
        (fun (i : ℕ) => framePath txt frameDir (.fin (i : ℤ) 0))))
      (frameDir ++ "/frame-%03d.png".toList) fuel
      = some (.frames ((List.range F).map
          (fun (i : ℕ) => framePath txt frameDir (.fin (i : ℤ) 0)))) := by
  have hbig : (2 : ℕ) ^ 30 ≤ 2 ^ 53 := Nat.pow_le_pow_right (by norm_num) (by norm_num)
  have hmap : (List.range F).map (fun (i : ℕ) => framePath txt frameDir (.fin (i : ℤ) 0))
      = (List.range F).map (fun (n : ℕ) =>
          (expandPattern (frameDir ++ "/frame-%03d.png".toList) n).getD []) := by
    apply List.map_congr_left
    intro i hi
    rw [List.mem_range] at hi
    rw [framePath_nat txt frameDir i (by omega), expandPattern_dir frameDir hdir i]
    rfl
  have hex : (fun (n : ℕ) => decide ((expandPattern (frameDir ++ "/frame-%03d.png".toList) n).getD []
        ∈ (List.range F).map (fun (i : ℕ) => framePath txt frameDir (.fin (i : ℤ) 0))))
      = (fun (n : ℕ) => decide (n < F)) := by
    funext n
    rw [hmap, expandPattern_dir frameDir hdir n]
    simp only [Option.getD_some, List.mem_map, List.mem_range, decide_eq_decide]
    constructor
    · rintro ⟨i, hi, h⟩
      rw [expandPattern_dir frameDir hdir i] at h
      simp only [Option.getD_some] at h
      have := frameName_inj frameDir n i h
      omega
    · intro hn
      exact ⟨n, hn, by rw [expandPattern_dir frameDir hdir n]; rfl⟩
  unfold framesRead
  rw [expandPattern_dir frameDir hdir 0]
  simp only [hex]
  have hfirst : (List.range 5).find? (fun (n : ℕ) => decide (n < F)) = some 0 := by
    have : List.range 5 = [0, 1, 2, 3, 4] := by decide
    rw [this, List.find?_cons]
    simp [hF0]
  rw [hfirst]
  simp only [findLast_spec F hF fuel 0 hF0 (by omega)]
  have hlen : F - 1 + 1 - 0 = F := by omega
  rw [hlen, ← List.range_eq_range', hmap]

/-- C10 (amended): the path frame `i` is written to is the frame directory, a
slash, and the name the pattern `frame-%03d.png` denotes for `i`, for every
index up to `2^53` (the loop counter never exceeds it), also from 1000 on;
frames of distinct indices are written to distinct paths.  In a run of `F`
frames (`0 < F ≤ 2^30`) in which no call fails, the frame loop writes the
frames of the indices `0` to `F - 1` in that order, and when the frame
directory holds no percent sign and the written frames are the files that
exist, the image-sequence reader given the pattern of the encoder command
reads exactly the written frames, in index order. -/
theorem frame_path_matches_pattern (w : World) (frameDir : Str) (fps : JSNum) :
    (∀ i : ℕ, i ≤ 2 ^ 53 →
      (expandPattern "frame-%03d.png".toList i).map (fun name => frameDir ++ "/".toList ++ name)
        = some (framePath w.numText frameDir (.fin (i : ℤ) 0))) ∧
    (∀ i j : ℕ, i ≤ 2 ^ 53 → j ≤ 2 ^ 53 →
      framePath w.numText frameDir (.fin (j : ℤ) 0) = framePath w.numText frameDir (.fin (i : ℤ) 0) →
      j = i) ∧
    (∀ F fuel : ℕ, (∀ e, w.fails e = false) → '%' ∉ frameDir → 0 < F → F ≤ 2 ^ 30 → F < fuel →
      ∃ t, renderLoop w frameDir fps (.fin (F : ℤ) 0) fuel (.fin 0 0) = some (t, true) ∧
        writtenPaths t
          = (List.range F).map (fun (i : ℕ) => framePath w.numText frameDir (.fin (i : ℤ) 0)) ∧
        framesRead (fun p => decide (p ∈ writtenPaths t))
          (frameDir ++ "/frame-%03d.png".toList) fuel = some (.frames (writtenPaths t))) := by
  refine ⟨fun i hi => (framePath_expand w.numText frameDir i hi).1,
    fun i j hi hj h => (framePath_expand w.numText frameDir i hi).2.2 j hj h, ?_⟩
  intro F fuel hw hdir hF0 hF hfuel
  have hbig : (2 : ℕ) ^ 30 ≤ 2 ^ 53 := Nat.pow_le_pow_right (by norm_num) (by norm_num)
  have hloop := renderLoop_ok w hw frameDir fps F (by omega) F 0 fuel (by omega) hfuel
  have hw2 : writtenPaths (((List.range' 0 F).map (frameCalls w frameDir fps)).flatten)
      = (List.range F).map (fun (i : ℕ) => framePath w.numText frameDir (.fin (i : ℤ) 0)) := by
    rw [writtenPaths_frames, ← List.range_eq_range']
  refine ⟨_, hloop, hw2, ?_⟩
  rw [hw2]
  exact framesRead_written w.numText frameDir hdir F fuel hF0 hF hfuel

set_option maxRecDepth 100000 in
/-- C10 (counterexample): with `--frames=a%%` frame 0 is written to
`a%%/frame-000.png`, while the pattern of the encoder command,
`a%%/frame-%03d.png`, denotes `a%/frame-000.png` for frame 0: the reader
finds no frame, although the frame was written.  And when the frame
directory still holds `frame-002.png` of an earlier run, a run of two frames
writes the frames 0 and 1 and the reader reads three. -/
theorem frame_path_counterexample :
    FRAME_DIR ["--frames=a%%".toList] = "a%%".toList ∧
    framePath (fun _ => []) "a%%".toList (.fin 0 0) = "a%%/frame-000.png".toList ∧
    expandPattern ("a%%".toList ++ "/frame-%03d.png".toList) 0 = some "a%/frame-000.png".toList ∧
    framesRead (fun p => decide (p ∈ [framePath (fun _ => []) "a%%".toList (.fin 0 0)]))
      ("a%%".toList ++ "/frame-%03d.png".toList) 5 = some .noFrame ∧
    (renderLoop quietWorld "frames".toList (.fin 1 0) (.fin 2 0) 5 (.fin 0 0)).map
        (fun r => writtenPaths r.1)
      = some ["frames/frame-000.png".toList, "frames/frame-001.png".toList] ∧
    framesRead (fun p => decide (p ∈ ["frames/frame-000.png".toList,
        "frames/frame-001.png".toList, "frames/frame-002.png".toList]))
      "frames/frame-%03d.png".toList 5
      = some (.frames ["frames/frame-000.png".toList, "frames/frame-001.png".toList,
          "frames/frame-002.png".toList]) := by
  refine ⟨by decide, by decide, by decide, by decide, by decide, by decide⟩

set_option maxRecDepth 100000 in
/-- C10 (witness): a run of 1001 frames to the directory `frames`; the last
frame is written to `frames/frame-1000.png`. -/
theorem frame_path_matches_pattern_witness :
    framePath (fun _ => []) "frames".toList (.fin 1000 0) = "frames/frame-1000.png".toList ∧
    (∃ t, renderLoop quietWorld "frames".toList (.fin 24 0) (.fin ((1001 : ℕ) : ℤ) 0) 1002
        (.fin 0 0) = some (t, true) ∧
      writtenPaths t = (List.range 1001).map
        (fun (i : ℕ) => framePath quietWorld.numText "frames".toList (.fin (i : ℤ) 0)) ∧
      framesRead (fun p => decide (p ∈ writtenPaths t))
        ("frames".toList ++ "/frame-%03d.png".toList) 1002 = some (.frames (writtenPaths t))) :=
  ⟨by decide,
   (frame_path_matches_pattern quietWorld "frames".toList (.fin 24 0)).2.2 1001 1002
     (fun _ => rfl) (by decide) (by norm_num) (by norm_num) (by norm_num)⟩

/-! ## Rounding of the geometry -/

/-- `Math.round` of a finite number is an integer `F` with `F ≤ x + 1/2 < F + 1`. -/
theorem mathRound_fin (n : ℤ) (k : ℕ) :
    ∃ F : ℤ, mathRound (.fin n k) = .fin F 0 ∧ (F : ℚ) ≤ (n : ℚ) / 2 ^ k + 1 / 2 ∧
      (n : ℚ) / 2 ^ k + 1 / 2 < (F : ℚ) + 1 := by
  have hpz : (0 : ℤ) < 2 ^ (k + 1) := by positivity
  have hq : (0 : ℚ) < ((2 ^ (k + 1) : ℤ) : ℚ) := by exact_mod_cast hpz
  have e : (n : ℚ) / 2 ^ k + 1 / 2 = ((2 * n + 2 ^ k : ℤ) : ℚ) / ((2 ^ (k + 1) : ℤ) : ℚ) := by
    push_cast; rw [pow_succ]; field_simp; ring
  have g1 : (2 * n + 2 ^ k) / 2 ^ (k + 1) * 2 ^ (k + 1) ≤ 2 * n + 2 ^ k :=
    Int.ediv_mul_le _ hpz.ne'
  have g2 : 2 * n + 2 ^ k < ((2 * n + 2 ^ k) / 2 ^ (k + 1) + 1) * 2 ^ (k + 1) :=
    Int.lt_ediv_add_one_mul_self _ hpz
  refine ⟨(2 * n + 2 ^ k) / 2 ^ (k + 1), rfl, ?_, ?_⟩
  · rw [e, le_div_iff₀ hq]
    exact_mod_cast g1
  · rw [e, div_lt_iff₀ hq]
    exact_mod_cast g2

set_option maxRecDepth 100000 in
/-- C4 (counterexample): `viewBox="0 0 0.49999999999999999 1"`.  The third
component is the decimal `49999999999999999 / 10^17`, which is less than one
half: the integer nearest to it is 0.  `Number` reads it as the nearest
number, which is one half, and `Math.round` gives the width 1. -/
theorem viewBox_geometry_counterexample :
    scanUnsigned "0.49999999999999999".toList = some (some (49999999999999999, -17), []) ∧
    nearestToDecimal 49999999999999999 17 = 0 ∧
    toNumber "0.49999999999999999".toList = .fin 1 1 ∧
    parseSVGMeta halfWidthDoc = some ⟨.fin 1 0, .fin 1 0, none⟩ := by
  refine ⟨by decide, by decide, by decide, by decide⟩

/-- C4 (amended): when the `viewBox` of the `svg` root is four components
separated by white space (with any white space around them) and `Number`
reads the third and the fourth as the finite numbers `x3` and `x4`, the
width and the height that `parseSVGMeta` returns are the integers `W` and
`H` with `W ≤ x3 + 1/2 < W + 1` and `H ≤ x4 + 1/2 < H + 1` (the integers
nearest to `x3` and `x4`, a tie going up), whatever the other attributes of
the root are. -/
theorem viewBox_geometry (doc : Doc) (svg : Element)
    (ws0 c1 ws1 c2 ws2 c3 ws3 c4 ws4 : Str) (n3 : ℤ) (k3 : ℕ) (n4 : ℤ) (k4 : ℕ)
    (hsvg : doc.svg = some svg)
    (hvb : svg.getAttribute "viewBox".toList
      = some (ws0 ++ (c1 ++ (ws1 ++ c2 ++ ws2 ++ c3 ++ ws3) ++ c4) ++ ws4))
    (h0 : ∀ c ∈ ws0, isWhiteSpace c = true) (h4 : ∀ c ∈ ws4, isWhiteSpace c = true)
    (t1 : isComponent c1) (t2 : isComponent c2) (t3 : isComponent c3) (t4 : isComponent c4)
    (s1 : isSeparator ws1) (s2 : isSeparator ws2) (s3 : isSeparator ws3)
    (hx3 : toNumber c3 = .fin n3 k3) (hx4 : toNumber c4 = .fin n4 k4) :
    ∃ (W H : ℤ) (d : Option JSNum), parseSVGMeta doc = some ⟨.fin W 0, .fin H 0, d⟩ ∧
      (W : ℚ) ≤ (n3 : ℚ) / 2 ^ k3 + 1 / 2 ∧ (n3 : ℚ) / 2 ^ k3 + 1 / 2 < (W : ℚ) + 1 ∧
      (H : ℚ) ≤ (n4 : ℚ) / 2 ^ k4 + 1 / 2 ∧ (n4 : ℚ) / 2 ^ k4 + 1 / 2 < (H : ℚ) + 1 := by
  obtain ⟨W, hW, w1, w2⟩ := mathRound_fin n3 k3
  obtain ⟨H, hH, g1, g2⟩ := mathRound_fin n4 k4
  refine ⟨W, H, inferDuration doc.animEls, ?_, w1, w2, g1, g2⟩
  unfold parseSVGMeta
  rw [hsvg]
  simp only [geometry_viewBox svg ws0 c1 ws1 c2 ws2 c3 ws3 c4 ws4 hvb h0 h4 t1 t2 t3 t4 s1 s2 s3,
    hx3, hx4, hW, hH]

set_option maxRecDepth 100000 in
/-- C4 (witness): `viewBox="0 0 800 600"` next to `width="5"` and `height="7"`
gives 800 by 600. -/
theorem viewBox_geometry_witness :
    parseSVGMeta conflictingDoc = some ⟨.fin 800 0, .fin 600 0, none⟩ ∧
    (∃ (W H : ℤ) (d : Option JSNum), parseSVGMeta conflictingDoc = some ⟨.fin W 0, .fin H 0, d⟩ ∧
      (W : ℚ) ≤ ((800 : ℤ) : ℚ) / 2 ^ 0 + 1 / 2 ∧ ((800 : ℤ) : ℚ) / 2 ^ 0 + 1 / 2 < (W : ℚ) + 1 ∧
      (H : ℚ) ≤ ((600 : ℤ) : ℚ) / 2 ^ 0 + 1 / 2 ∧ ((600 : ℤ) : ℚ) / 2 ^ 0 + 1 / 2 < (H : ℚ) + 1) :=
  ⟨by decide,
   viewBox_geometry conflictingDoc
    ⟨"svg".toList, [("width".toList, "5".toList), ("viewBox".toList, "0 0 800 600".toList),
      ("height".toList, "7".toList)]⟩
    [] "0".toList " ".toList "0".toList " ".toList "800".toList " ".toList "600".toList []
    800 0 600 0 (by decide)
    (by decide) (by simp) (by simp) ⟨by decide, by decide⟩ ⟨by decide, by decide⟩
    ⟨by decide, by decide⟩ ⟨by decide, by decide⟩ ⟨by decide, by decide⟩
    ⟨by decide, by decide⟩ ⟨by decide, by decide⟩ (by decide) (by decide)⟩

/-! ## Rounding error of the inferred duration -/

theorem normDyadic_le (k : ℕ) : ∀ (n n2 : ℤ) (k2 : ℕ), normDyadic n k = .fin n2 k2 → k2 ≤ k := by
  induction k with
  | zero =>
    intro n n2 k2 h
    simp only [normDyadic, JSNum.fin.injEq] at h
    omega
  | succ k ih =>
    intro n n2 k2 h
    unfold normDyadic at h
    by_cases h0 : n % 2 = 0
    · simp only [h0, if_true] at h
      have := ih _ _ _ h
      omega
    · simp only [h0, if_false, JSNum.fin.injEq] at h
      omega

/-- A finite result of rounding has a denominator of at most `2^1074`. -/
theorem flPos_exp (a d : ℕ) (neg : Bool) (n : ℤ) (k : ℕ) (h : flPos a d neg = .fin n k) :
    k ≤ 1074 := by
  unfold flPos at h
  simp only [] at h
  by_cases hs : 0 ≤ max (ilog2 a d) (-1022) - 52
  · simp only [hs, if_true] at h
    split_ifs at h
    simp only [JSNum.fin.injEq] at h
    omega
  · simp only [hs, if_false] at h
    have := normDyadic_le _ _ _ _ h
    have h2 : -1022 ≤ max (ilog2 a d) (-1022) := le_max_right _ _
    omega

theorem fl_exp (num : ℤ) (den : ℕ) (n : ℤ) (k : ℕ) (h : fl num den = .fin n k) : k ≤ 1074 := by
  unfold fl at h
  split_ifs at h
  · simp only [JSNum.fin.injEq] at h; omega
  · exact flPos_exp _ _ _ _ _ h

theorem parseFloat_exp (s : Str) (n : ℤ) (k : ℕ) (h : parseFloat s = .fin n k) : k ≤ 1074 := by
  unfold parseFloat at h
  cases hs : scanStrDecimal (trimStart s) with
  | none => rw [hs] at h; cases h
  | some r =>
    obtain ⟨v, rest⟩ := r
    rw [hs] at h
    simp only at h
    subst h
    unfold scanStrDecimal at hs
    cases hu : scanUnsigned (takeSign (trimStart s)).2 with
    | none => simp [hu] at hs
    | some r2 =>
      obtain ⟨x, rest2⟩ := r2
      simp only [hu, Option.some.injEq, Prod.mk.injEq] at hs
      obtain ⟨hv, -⟩ := hs
      cases x with
      | none => simp [decimalValue] at hv
      | some me =>
        obtain ⟨m, e⟩ := me
        simp only [decimalValue] at hv
        split_ifs at hv
        · exact fl_exp _ _ _ _ hv
        · exact fl_exp _ _ _ _ hv

theorem normDyadic_round (a d : ℕ) (hd : 0 < d) (neg : Bool) (t : ℕ) :
    ∃ (n : ℤ) (k : ℕ) (r : ℚ),
      normDyadic (signed neg (roundHalfEven (a * 2 ^ t) d)) t = .fin n k ∧
      (n : ℚ) / 2 ^ k = (if neg then -r else r) ∧ 0 ≤ r ∧
      |r - (a : ℚ) / d| ≤ ((2 : ℚ) ^ t)⁻¹ / 2 := by
  have herr := roundHalfEven_err (a * 2 ^ t) d hd
  set m := roundHalfEven (a * 2 ^ t) d with hm
  have hpt : (0 : ℚ) < 2 ^ t := by positivity
  have hND : (((a * 2 ^ t : ℕ) : ℚ) / (d : ℚ)) = (a : ℚ) / d * 2 ^ t := by
    push_cast; ring
  rw [hND] at herr
  have hval : |(m : ℚ) / 2 ^ t - (a : ℚ) / d| ≤ (2 ^ t)⁻¹ / 2 := by
    have : (m : ℚ) / 2 ^ t - (a : ℚ) / d = ((m : ℚ) - (a : ℚ) / d * 2 ^ t) * (2 ^ t)⁻¹ := by
      field_simp
      ring
    rw [this, abs_mul, abs_of_pos (inv_pos.2 hpt)]
    have hi : (0 : ℚ) < (2 ^ t)⁻¹ := inv_pos.2 hpt
    nlinarith
  obtain ⟨n2, k2, h1, h2, -⟩ := normDyadic_spec t (signed neg m)
  refine ⟨n2, k2, (m : ℚ) / 2 ^ t, h1, ?_, by positivity, hval⟩
  rw [h2, signed_cast]; cases neg <;> simp [neg_div]

/-- Rounding below the normal range: the result is a multiple of `2^-1074`
within `2^-1075` of the rational rounded. -/
theorem flPos_sub (a d : ℕ) (ha : 0 < a) (hd : 0 < d) (neg : Bool)
    (hlo : (a : ℚ) / d < (2 : ℚ) ^ (-1022 : ℤ)) :
    ∃ (n : ℤ) (k : ℕ) (r : ℚ), flPos a d neg = .fin n k ∧
      (n : ℚ) / 2 ^ k = (if neg then -r else r) ∧ 0 ≤ r ∧
      |r - (a : ℚ) / d| ≤ (2 : ℚ) ^ (-1075 : ℤ) := by
  obtain ⟨e1, e2⟩ := ilog2_spec a d ha hd
  have he : ilog2 a d < -1022 := by
    by_contra hcon
    have h2 : (2 : ℚ) ^ (-1022 : ℤ) ≤ 2 ^ (ilog2 a d) :=
      zpow_le_zpow_right₀ (by norm_num) (by omega)
    exact absurd (lt_of_le_of_lt (le_trans h2 e1) hlo) (lt_irrefl _)
  have hmax : max (ilog2 a d) (-1022) = -1022 := max_eq_right (by omega)
  unfold flPos
  simp only [hmax]
  have hs : ¬ (0 : ℤ) ≤ -1022 - 52 := by norm_num
  have ht : (-(-1022 - 52 : ℤ)).toNat = 1074 := rfl
  simp only [hs, if_false, ht]
  have hz : (2 : ℚ) ^ (-1075 : ℤ) = ((2 : ℚ) ^ (1074 : ℕ))⁻¹ / 2 := by
    rw [show (-1075 : ℤ) = -((1074 + 1 : ℕ) : ℤ) by norm_num, zpow_neg, zpow_natCast,
      pow_succ, mul_inv]
    ring
  rw [hz]
  exact normDyadic_round a d hd neg 1074

/-- Rounding of a positive rational below `2^1023`: the result is finite, not
negative, and within the relative error `2^-53`, or `2^-1075`, of the
rational rounded. -/
theorem fl_err (num : ℤ) (den : ℕ) (hn : 0 < num) (hd : 0 < den)
    (hhi : (num : ℚ) / den < 2 ^ (1023 : ℕ)) :
    ∃ (n : ℤ) (k : ℕ), fl num den = .fin n k ∧ 0 ≤ (n : ℚ) / 2 ^ k ∧
      |(n : ℚ) / 2 ^ k - (num : ℚ) / den| ≤ (num : ℚ) / den / 2 ^ 53 + (2 : ℚ) ^ (-1075 : ℤ) := by
  have hη : (0 : ℚ) < (2 : ℚ) ^ (-1075 : ℤ) := by positivity
  have hx : (0 : ℚ) < (num : ℚ) / den := by
    apply div_pos
    · exact_mod_cast hn
    · exact_mod_cast hd
  by_cases hlo : (2 : ℚ) ^ (-1022 : ℤ) ≤ (num : ℚ) / den
  · obtain ⟨n, k, h1, -, h3⟩ := fl_pos_spec num den hn hd hlo hhi
    refine ⟨n, k, h1, ?_, by linarith⟩
    have := (abs_le.1 h3).1
    have h53 : (num : ℚ) / den / 2 ^ 53 ≤ (num : ℚ) / den := by
      apply div_le_self hx.le; norm_num
    linarith
  · have hcast : ((num.natAbs : ℕ) : ℚ) = (num : ℚ) := by
      have h : ((num.natAbs : ℕ) : ℤ) = num := Int.natAbs_of_nonneg hn.le
      calc ((num.natAbs : ℕ) : ℚ) = (((num.natAbs : ℕ) : ℤ) : ℚ) := (Int.cast_natCast _).symm
        _ = (num : ℚ) := by rw [h]
    have ha : 0 < num.natAbs := Int.natAbs_pos.2 hn.ne'
    obtain ⟨n, k, r, h1, h2, h3, h4⟩ := flPos_sub num.natAbs den ha hd false
      (by rw [hcast]; exact lt_of_not_le hlo)
    simp only [Bool.false_eq_true, if_false] at h2
    refine ⟨n, k, ?_, by rw [h2]; exact h3, ?_⟩
    · unfold fl
      have hnn : ¬ num < 0 := by omega
      simp only [hn.ne', hd.ne', or_self, if_false, hnn, decide_False]
      exact h1
    · rw [h2, ← hcast]
      have h53 : (0 : ℚ) ≤ ((num.natAbs : ℕ) : ℚ) / den / 2 ^ 53 := by
        rw [hcast]; positivity
      linarith

theorem toLower_ne_upper (c : Char) : c.toLower ≠ 'T' := by
  unfold Char.toLower
  simp only []
  split_ifs with h
  · obtain ⟨h1, h2⟩ := h
    generalize c.toNat = n at h1 h2
    interval_cases n <;> decide
  · intro hc
    subst hc
    exact h (by decide)

/-- No element matches the selector `animateTransform`. -/
theorem matchesTag_animateTransform (el : Element) :
    matchesTag "animateTransform".toList el = false := by
  unfold matchesTag
  rw [beq_eq_false_iff_ne]
  intro h
  have hT : 'T' ∈ toLowerCase el.tag := by rw [h]; decide
  unfold toLowerCase at hT
  obtain ⟨c, -, hc⟩ := List.mem_map.1 hT
  exact toLower_ne_upper c hc

theorem animEls_eq (doc : Doc) :
    doc.animEls = doc.elements.filter
      (fun el => matchesTag "animate".toList el || matchesTag "set".toList el) := by
  unfold Doc.animEls
  apply List.filter_congr
  intro el _
  rw [matchesTag_animateTransform, Bool.or_false]

theorem beginOf_exp (el : Element) (n : ℤ) (k : ℕ) (h : beginOf el = .fin n k) : k ≤ 1074 :=
  parseFloat_exp _ n k h

theorem durOf_exp (el : Element) (n : ℤ) (k : ℕ) (h : durOf el = .fin n k) : k ≤ 1074 := by
  unfold durOf at h
  split at h
  · split_ifs at h
    · exact parseFloat_exp _ n k h
    · exact parseFloat_exp _ n k h
  · exact parseFloat_exp _ n k h

theorem dyadic_ge (n : ℤ) (k t : ℕ) (hk : k ≤ t) (hn : 1 ≤ n) :
    ((2 : ℚ) ^ t)⁻¹ ≤ (n : ℚ) / 2 ^ k := by
  have hp : (0 : ℚ) < 2 ^ k := by positivity
  have hpt : (0 : ℚ) < 2 ^ t := by positivity
  have hle : (2 : ℚ) ^ k ≤ 2 ^ t := pow_le_pow_right₀ (by norm_num) hk
  have hn1 : (1 : ℚ) ≤ n := by exact_mod_cast hn
  rw [inv_eq_one_div, div_le_div_iff₀ hpt hp]
  nlinarith

theorem dyadic_sum_ge (nb nd : ℤ) (kb kd t : ℕ) (hb : kb ≤ t) (hd : kd ≤ t) (h0b : 0 ≤ nb)
    (h0d : 0 ≤ nd) (hpos : 0 < (nb : ℚ) / 2 ^ kb + (nd : ℚ) / 2 ^ kd) :
    ((2 : ℚ) ^ t)⁻¹ ≤ (nb : ℚ) / 2 ^ kb + (nd : ℚ) / 2 ^ kd := by
  have hb0 : (0 : ℚ) ≤ (nb : ℚ) / 2 ^ kb := div_nonneg (by exact_mod_cast h0b) (by positivity)
  have hd0 : (0 : ℚ) ≤ (nd : ℚ) / 2 ^ kd := div_nonneg (by exact_mod_cast h0d) (by positivity)
  by_cases h1 : 1 ≤ nb
  · have := dyadic_ge nb kb t hb h1
    linarith
  · by_cases h2 : 1 ≤ nd
    · have := dyadic_ge nd kd t hd h2
      linarith
    · have e1 : nb = 0 := by omega
      have e2 : nd = 0 := by omega
      rw [e1, e2] at hpos
      simp at hpos

theorem eta_eq : (2 : ℚ) ^ (-1075 : ℤ) = ((2 : ℚ) ^ (1074 : ℕ))⁻¹ / 2 := by
  rw [show (-1075 : ℤ) = -((1074 + 1 : ℕ) : ℤ) by norm_num, zpow_neg, zpow_natCast,
    pow_succ, mul_inv]
  ring

theorem eta_small : (2 : ℚ) ^ (-1075 : ℤ) = (2 : ℚ) ^ (-1022 : ℤ) / 2 ^ 53 := by
  rw [show (-1075 : ℤ) = -1022 + -53 by norm_num, zpow_add₀ (by norm_num)]
  norm_num [zpow_neg]

/-- The end of a timed element with a finite, non-negative `begin` and `dur`
of sum `x`: it is finite, within the rounding error of `x`, zero when `x` is
zero and positive when `x` is. -/
theorem endOf_spec (el : Element) (x : ℚ) (h : endsAt el x) (hlt : x < 2 ^ (1023 : ℕ)) :
    0 ≤ x ∧ ∃ (n : ℤ) (k : ℕ), endOf el = .fin n k ∧
      |(n : ℚ) / 2 ^ k - x| ≤ x / 2 ^ 53 + (2 : ℚ) ^ (-1075 : ℤ) ∧
      (0 < x → 0 < (n : ℚ) / 2 ^ k) ∧ (x = 0 → endOf el = .fin 0 0) := by
  obtain ⟨nb, kb, nd, kd, hb, hdur, h0b, h0d, rfl⟩ := h
  have hkb := beginOf_exp el nb kb hb
  have hkd := durOf_exp el nd kd hdur
  have hb0 : (0 : ℚ) ≤ (nb : ℚ) / 2 ^ kb := div_nonneg (by exact_mod_cast h0b) (by positivity)
  have hd0 : (0 : ℚ) ≤ (nd : ℚ) / 2 ^ kd := div_nonneg (by exact_mod_cast h0d) (by positivity)
  refine ⟨by linarith, ?_⟩
  have hend : endOf el = fl (nb * 2 ^ kd + nd * 2 ^ kb) (2 ^ (kb + kd)) := by
    unfold endOf; rw [hb, hdur]; rfl
  have hcast : (((nb * 2 ^ kd + nd * 2 ^ kb : ℤ) : ℚ)) / (((2 ^ (kb + kd) : ℕ)) : ℚ)
      = (nb : ℚ) / 2 ^ kb + (nd : ℚ) / 2 ^ kd := by
    push_cast
    rw [pow_add]
    field_simp
  have hden : 0 < 2 ^ (kb + kd) := by positivity
  have hnum0 : 0 ≤ nb * 2 ^ kd + nd * 2 ^ kb := by positivity
  rcases eq_or_lt_of_le hnum0 with hz | hpos
  · have hx0 : (nb : ℚ) / 2 ^ kb + (nd : ℚ) / 2 ^ kd = 0 := by
      rw [← hcast, ← hz]; simp
    have h00 : endOf el = .fin 0 0 := by
      rw [hend, ← hz]; simp [fl]
    refine ⟨0, 0, h00, ?_, ?_, fun _ => h00⟩
    · rw [hx0]
      have : (0 : ℚ) < (2 : ℚ) ^ (-1075 : ℤ) := by positivity
      simp only [Int.cast_zero, pow_zero, div_one, sub_zero, abs_zero, zero_div, zero_add]
      exact this.le
    · intro h; rw [hx0] at h; exact absurd h (lt_irrefl _)
  · obtain ⟨n, k, h1, h2, h3⟩ := fl_err (nb * 2 ^ kd + nd * 2 ^ kb) (2 ^ (kb + kd)) hpos hden
      (by rw [hcast]; exact hlt)
    rw [hcast] at h3
    refine ⟨n, k, by rw [hend, h1], h3, ?_, ?_⟩
    · intro hx
      have hge := dyadic_sum_ge nb nd kb kd 1074 hkb hkd h0b h0d hx
      rw [eta_eq] at h3
      have := (abs_le.1 h3).1
      have h53 : ((nb : ℚ) / 2 ^ kb + (nd : ℚ) / 2 ^ kd) / 2 ^ 53
          ≤ ((nb : ℚ) / 2 ^ kb + (nd : ℚ) / 2 ^ kd) / 4 := by
        apply div_le_div_of_nonneg_left hx.le (by norm_num) (by norm_num)
      linarith
    · intro hx0
      have : (0 : ℚ) < (nb : ℚ) / 2 ^ kb + (nd : ℚ) / 2 ^ kd := by
        rw [← hcast]
        apply div_pos
        · exact_mod_cast hpos
        · exact_mod_cast hden
      rw [hx0] at this
      exact absurd this (lt_irrefl _)

/-- The inferred duration against exact arithmetic: for timed elements with
finite, non-negative `begin` and `dur` whose greatest sum is `M > 0`, it is an
integer within `1/2 + 1000 * M / 2^51` of `1000 * M`. -/
theorem inferDuration_pinned (els : List Element) (M : ℚ)
    (hall : ∀ el ∈ els, ∃ x, endsAt el x ∧ x ≤ M)
    (hmax : ∃ el ∈ els, endsAt el M) (hpos : 0 < M) (hM : M < 2 ^ (1013 : ℕ)) :
    ∃ F : ℤ, inferDuration els = some (.fin F 0) ∧
      1000 * M * (1 - 1 / 2 ^ 51) - 1 / 2 < (F : ℚ) ∧
      (F : ℚ) ≤ 1000 * M * (1 + 1 / 2 ^ 51) + 1 / 2 := by
  have hP1 : (1 : ℚ) ≤ 2 ^ (1013 : ℕ) := one_le_pow₀ (by norm_num)
  have h1023 : (2 : ℚ) ^ (1023 : ℕ) = 1024 * 2 ^ (1013 : ℕ) := by
    rw [show (1023 : ℕ) = 10 + 1013 from rfl, pow_add]
    norm_num
  have hη0 : (0 : ℚ) < (2 : ℚ) ^ (-1075 : ℤ) := by positivity
  have hηT := eta_small
  have hT := two_zpow_small
  have hM2 : M < 2 ^ (1023 : ℕ) := by rw [h1023]; linarith
  have hfin : ∀ el ∈ els, (∃ n k, beginOf el = .fin n k) ∧ (∃ n k, durOf el = .fin n k) := by
    intro el hel
    obtain ⟨x, ⟨nb, kb, nd, kd, h1, h2, -⟩, -⟩ := hall el hel
    exact ⟨⟨nb, kb, h1⟩, ⟨nd, kd, h2⟩⟩
  -- the element of greatest exact end
  obtain ⟨el1, hel1, hends1⟩ := hmax
  obtain ⟨-, n1, k1, he1, hb1, hp1, -⟩ := endOf_spec el1 M hends1 hM2
  have hv1 := hp1 hpos
  have hgt : jsGt (endOf el1) (.fin 0 0) = true := by
    unfold jsGt
    rw [he1, jsLt_fin]
    simpa using hv1
  -- the element the loop keeps
  obtain ⟨el2, hel2, hge, heq⟩ := (inferDuration_max els hfin).1 ⟨el1, hel1, hgt⟩
  obtain ⟨x2, hends2, hx2⟩ := hall el2 hel2
  obtain ⟨hx20, n2, k2, he2, hb2, -, -⟩ := endOf_spec el2 x2 hends2 (lt_of_le_of_lt hx2 hM2)
  have hle : (n1 : ℚ) / 2 ^ k1 ≤ (n2 : ℚ) / 2 ^ k2 := by
    have := hge el1 hel1
    rw [he1, he2, Bool.eq_false_iff, Ne, jsLt_fin] at this
    exact not_lt.1 this
  have hv2 : (0 : ℚ) < (n2 : ℚ) / 2 ^ k2 := lt_of_lt_of_le hv1 hle
  have hn2 : 0 < n2 := by
    by_contra hc
    have : (n2 : ℚ) ≤ 0 := by exact_mod_cast not_lt.1 hc
    have : (n2 : ℚ) / 2 ^ k2 ≤ 0 := div_nonpos_of_nonpos_of_nonneg this (by positivity)
    linarith
  have hu1 := abs_le.1 hb1
  have hu2 := abs_le.1 hb2
  -- the product by 1000
  have hmul : jsMul (endOf el2) (.fin 1000 0) = fl (n2 * 1000) (2 ^ (k2 + 0)) := by
    rw [he2]; rfl
  have hycast : ((n2 * 1000 : ℤ) : ℚ) / ((2 ^ (k2 + 0) : ℕ) : ℚ) = 1000 * ((n2 : ℚ) / 2 ^ k2) := by
    push_cast
    rw [add_zero]
    ring
  have hyhi : 1000 * ((n2 : ℚ) / 2 ^ k2) < 2 ^ (1023 : ℕ) := by
    rw [h1023]
    have : x2 / 2 ^ 53 ≤ x2 / 1024 := by
      apply div_le_div_of_nonneg_left hx20 (by norm_num) (by norm_num)
    have h2 : (2 : ℚ) ^ (-1075 : ℤ) ≤ 1 / 2048 := by
      rw [hηT]
      have : (2 : ℚ) ^ (-1022 : ℤ) / 2 ^ 53 ≤ (2 : ℚ) ^ (-1022 : ℤ) := by
        apply div_le_self (by positivity) (by norm_num)
      linarith
    linarith [hu2.2]
  obtain ⟨n3, k3, h3, hq0, hb3⟩ := fl_err (n2 * 1000) (2 ^ (k2 + 0)) (by omega) (by positivity)
    (by rw [hycast]; exact hyhi)
  rw [hycast] at hb3
  have hu3 := abs_le.1 hb3
  obtain ⟨F, hF, hF1, hF2⟩ := mathRound_fin n3 k3
  refine ⟨F, by rw [heq, hmul, h3, hF], ?_, ?_⟩
  · generalize (n1 : ℚ) / 2 ^ k1 = v1 at *
    generalize (n2 : ℚ) / 2 ^ k2 = v2 at *
    generalize (n3 : ℚ) / 2 ^ k3 = q at *
    generalize (2 : ℚ) ^ (-1075 : ℤ) = η at *
    generalize (2 : ℚ) ^ (-1022 : ℤ) = T at *
    by_cases hcase : T ≤ M
    · have hηM : η ≤ M / 2 ^ 53 := by
        rw [hηT]; apply div_le_div_of_nonneg_right hcase (by norm_num)
      norm_num at hu1 hu2 hu3 hηM ⊢
      linarith [hu1.1, hu2.1, hu3.1, hF2, hle, hηM]
    · have hFq : (0 : ℚ) ≤ (F : ℚ) := by
        have : (-1 : ℚ) < (F : ℚ) := by linarith
        have h2 : (-1 : ℤ) < F := by exact_mod_cast this
        have h3 : (0 : ℤ) ≤ F := by omega
        exact_mod_cast h3
      norm_num at hT ⊢
      linarith [not_le.1 hcase]
  · generalize (n1 : ℚ) / 2 ^ k1 = v1 at *
    generalize (n2 : ℚ) / 2 ^ k2 = v2 at *
    generalize (n3 : ℚ) / 2 ^ k3 = q at *
    generalize (2 : ℚ) ^ (-1075 : ℤ) = η at *
    generalize (2 : ℚ) ^ (-1022 : ℤ) = T at *
    by_cases hcase : T ≤ M
    · have hηM : η ≤ M / 2 ^ 53 := by
        rw [hηT]; apply div_le_div_of_nonneg_right hcase (by norm_num)
      norm_num at hu1 hu2 hu3 hηM ⊢
      linarith [hu1.2, hu2.2, hu3.2, hF1, hx2, hηM]
    · have hηs : η ≤ 1 / 2048 / 2 ^ 53 := by
        rw [hηT]; apply div_le_div_of_nonneg_right hT (by norm_num)
      have hMs : M < 1 / 2048 := lt_of_lt_of_le (not_le.1 hcase) hT
      have hq : q < 1 / 2 := by
        norm_num at hu2 hu3 hηs ⊢
        linarith [hu2.2, hu3.2, hx2]
      have hF0 : (F : ℚ) ≤ 0 := by
        have : (F : ℚ) < 1 := by linarith
        have h2 : F < (1 : ℤ) := by exact_mod_cast this
        have h3 : F ≤ (0 : ℤ) := by omega
        exact_mod_cast h3
      norm_num
      linarith

set_option maxRecDepth 100000 in
/-- C3 (counterexample): an `animate` of two seconds next to an
`animateTransform` of five gives 2000, not 5000: the query of `parseSVGMeta`
returns the `animate` only.  And one `animate` of `dur="0.5005s"` gives 500,
while 1000 times the decimal `5005 / 10^4` is 500.5, which rounds to 501. -/
theorem inferred_duration_counterexample :
    (parseSVGMeta transformDoc).map SVGMeta.durationMs = some (some (.fin 2000 0)) ∧
    transformDoc.animEls = [⟨"animate".toList, [("dur".toList, "2s".toList)]⟩] ∧
    endOf ⟨"animateTransform".toList, [("dur".toList, "5s".toList)]⟩ = .fin 5 0 ∧
    (parseSVGMeta halfSecondDoc).map SVGMeta.durationMs = some (some (.fin 500 0)) ∧
    scanUnsigned "0.5005s".toList = some (some (5005, -4), "s".toList) ∧
    nearestMs 5005 4 = 501 := by
  refine ⟨by decide, by decide, by decide, by decide, by decide, by decide⟩

/-- C3 (amended): the timed elements of `parseSVGMeta` are the elements named
`animate` or `set` (whatever the case of the letters of the name); an
`animateTransform` is not among them.  When `begin` and `dur` of every timed
element parse to finite numbers that are not negative (absent attributes
counting as 0) and `M`, below `2^1013`, is the greatest of the sums
`begin + dur`: if `M > 0` the duration returned is an integer `F` within
`1/2 + 1000 * M / 2^51` of `1000 * M`, and `F` is the integer `K` nearest
to `1000 * M` (a tie going up) whenever `1000 * M + 1/2` is at least
`1000 * M / 2^51` away from the ends of `[K, K + 1)`; if no sum is
greater than 0, and for an empty list, the duration is `null`. -/
theorem inferred_duration (doc : Doc) (svg : Element) (M : ℚ)
    (hsvg : doc.svg = some svg)
    (hall : ∀ el ∈ doc.animEls, ∃ x, endsAt el x ∧ x ≤ M)
    (hmax : 0 < M → ∃ el ∈ doc.animEls, endsAt el M)
    (hM : M < 2 ^ (1013 : ℕ)) :
    doc.animEls = doc.elements.filter
      (fun el => matchesTag "animate".toList el || matchesTag "set".toList el) ∧
    (0 < M → ∃ F : ℤ, (parseSVGMeta doc).map SVGMeta.durationMs = some (some (.fin F 0)) ∧
      1000 * M * (1 - 1 / 2 ^ 51) - 1 / 2 < (F : ℚ) ∧
      (F : ℚ) ≤ 1000 * M * (1 + 1 / 2 ^ 51) + 1 / 2 ∧
      (∀ K : ℤ, (K : ℚ) + 1000 * M / 2 ^ 51 ≤ 1000 * M + 1 / 2 →
        1000 * M + 1 / 2 < (K : ℚ) + 1 - 1000 * M / 2 ^ 51 → F = K)) ∧
    (M ≤ 0 → (parseSVGMeta doc).map SVGMeta.durationMs = some none) ∧
    (doc.animEls = [] → (parseSVGMeta doc).map SVGMeta.durationMs = some none) := by
  have hmeta : (parseSVGMeta doc).map SVGMeta.durationMs = some (inferDuration doc.animEls) := by
    unfold parseSVGMeta; rw [hsvg]; rfl
  rw [hmeta]
  refine ⟨animEls_eq doc, ?_, ?_, ?_⟩
  · intro hpos
    obtain ⟨F, h1, h2, h3⟩ := inferDuration_pinned doc.animEls M hall (hmax hpos) hpos hM
    refine ⟨F, by rw [h1], h2, h3, ?_⟩
    intro K hK1 hK2
    have g1 : (F : ℚ) < (K : ℚ) + 1 := by linarith
    have g2 : (K : ℚ) - 1 < (F : ℚ) := by linarith
    have g3 : F < K + 1 := by exact_mod_cast g1
    have g4 : K - 1 < F := by exact_mod_cast g2
    omega
  · intro hle
    have hfin : ∀ el ∈ doc.animEls,
        (∃ n k, beginOf el = .fin n k) ∧ (∃ n k, durOf el = .fin n k) := by
      intro el hel
      obtain ⟨x, ⟨nb, kb, nd, kd, h1, h2, -⟩, -⟩ := hall el hel
      exact ⟨⟨nb, kb, h1⟩, ⟨nd, kd, h2⟩⟩
    have hP1 : (1 : ℚ) ≤ 2 ^ (1023 : ℕ) := one_le_pow₀ (by norm_num)
    rw [(inferDuration_max doc.animEls hfin).2.1]
    intro el hel
    obtain ⟨x, hx, hxM⟩ := hall el hel
    obtain ⟨hx0, -, -, -, -, -, h0⟩ := endOf_spec el x hx (by linarith)
    rw [h0 (le_antisymm (le_trans hxM hle) hx0)]
    rfl
  · intro hnil
    rw [hnil]
    rfl

set_option maxRecDepth 100000 in
/-- C3 (witness): the elements `(begin=1s, dur=2s)` and `(begin=0s, dur=0.5s)`,
of greatest sum 3, give 3000. -/
theorem inferred_duration_witness :
    (parseSVGMeta sampleTimedDoc).map SVGMeta.durationMs = some (some (.fin 3000 0)) ∧
    (∃ F : ℤ, (parseSVGMeta sampleTimedDoc).map SVGMeta.durationMs = some (some (.fin F 0)) ∧
      1000 * (3 : ℚ) * (1 - 1 / 2 ^ 51) - 1 / 2 < (F : ℚ) ∧
      (F : ℚ) ≤ 1000 * (3 : ℚ) * (1 + 1 / 2 ^ 51) + 1 / 2 ∧
      (∀ K : ℤ, (K : ℚ) + 1000 * (3 : ℚ) / 2 ^ 51 ≤ 1000 * (3 : ℚ) + 1 / 2 →
        1000 * (3 : ℚ) + 1 / 2 < (K : ℚ) + 1 - 1000 * (3 : ℚ) / 2 ^ 51 → F = K)) :=
  ⟨by decide,
   (inferred_duration sampleTimedDoc ⟨"svg".toList, [("viewBox".toList, "0 0 100 100".toList)]⟩ 3
    (by decide)
    (by
      intro el hel
      have hsel : sampleTimedDoc.animEls = sampleTimedEls := by decide
      rw [hsel] at hel
      simp only [sampleTimedEls, List.mem_cons, List.mem_singleton, List.not_mem_nil,
        or_false] at hel
      rcases hel with rfl | rfl
      · exact ⟨3, ⟨1, 0, 2, 0, by decide, by decide, by norm_num, by norm_num, by norm_num⟩,
          le_refl _⟩
      · exact ⟨1 / 2, ⟨0, 0, 1, 1, by decide, by decide, by norm_num, by norm_num,
          by norm_num⟩, by norm_num⟩)
    (fun _ => ⟨⟨"animate".toList, [("begin".toList, "1s".toList), ("dur".toList, "2s".toList)]⟩,
      by decide, ⟨1, 0, 2, 0, by decide, by decide, by norm_num, by norm_num, by norm_num⟩⟩)
    (by
      have : (1 : ℚ) ≤ 2 ^ (1011 : ℕ) := one_le_pow₀ (by norm_num)
      have e : (2 : ℚ) ^ (1013 : ℕ) = 4 * 2 ^ (1011 : ℕ) := by
        rw [show (1013 : ℕ) = 2 + 1011 from rfl, pow_add]; norm_num
      rw [e]; linarith)).2.1 (by norm_num)⟩

end SvgAnim
